import Mathlib

/-!
# Port scheduler (`scheduler.c`): embedding and verified properties

The C program is a single-threaded loop over global arrays.  It is embedded
as pure functions over explicit state:

* `int` values are unbounded integers (`Int`), or `Nat` for counters and
  indices that the program only ever counts upwards from zero.  Signed
  overflow is undefined behaviour in C; the development covers executions in
  which no `int` operation overflows and no fixed-size array is overrun.
  The one exception is the candidate count of the authentication search,
  which does overflow on inputs the program can receive (lengths from 13 on):
  `total32` is that count in wrapping 32-bit arithmetic, and `authenticate`
  and `genAuthString32` use it.  `total` and `genAuthString` are the same
  loops over exact integers; the two agree for lengths up to 12.
* C strings are `List Char` (the terminating NUL is left implicit).
* Messages sent on the queues are appended to logs kept in the state.
* The verdict of a solver process is the value of an oracle applied to the
  log of everything sent to the solvers so far.
-/

namespace PortSched

/-! ## Password enumerator (`genAuthString`) -/

/-- The alphabet `static const char *chars = "56789."`. -/
def chars : List Char := ['5', '6', '7', '8', '9', '.']

/-- The expression `(i == 0 || i == length-1) ? 5 : 6`. -/
def radix (length i : Nat) : Nat := if i = 0 ∨ i + 1 = length then 5 else 6

/-- The loop `for (...; i < length; i++) total *= radix`, with `k = length - i`
iterations left to run. -/
def totalLoop (length : Nat) : Nat → Nat → Nat → Nat
  | 0, _, total => total
  | k + 1, i, total => totalLoop length k (i + 1) (total * radix length i)

/-- The candidate count computed at the top of `genAuthString` (and again as
`maxTries` in `authenticate`). -/
def total (length : Nat) : Nat := totalLoop length length 0 1

/-- The digit loop of `genAuthString`: writes `chars[n % base]` at position `i`
and continues with `n / base`; `k = length - i` iterations are left. -/
def genLoop (length : Nat) : Nat → Nat → Nat → List Char
  | 0, _, _ => []
  | k + 1, i, n =>
    chars.getD (n % radix length i) (Char.ofNat 0) ::
      genLoop length k (i + 1) (n / radix length i)

/-- The function `genAuthString(buf, length, n)`; the result is the content of `buf`. -/
def genAuthString (length n : Nat) : List Char :=
  genLoop length length 0 (n % total length)

/-- Two's-complement wrap-around of a signed 32-bit `int`. -/
def wrap32 (x : Int) : Int := (x + 2147483648) % 4294967296 - 2147483648

/-- The loop `total *= radix` in signed 32-bit arithmetic. -/
def totalLoop32 (length : Nat) : Nat → Nat → Int → Int
  | 0, _, total => total
  | k + 1, i, total => totalLoop32 length k (i + 1) (wrap32 (total * (radix length i : Int)))

/-- The candidate count as the program computes it in a 32-bit `int`. -/
def total32 (length : Nat) : Int := totalLoop32 length length 0 1

/-- The function `genAuthString(buf, length, n)` as the program runs it: `total`
is the 32-bit `int` product and `n % total` is the remainder of C (truncated
division); every caller passes `n ≥ 0`.  The digit loop is the same.  The only
caller, `authenticate`, calls it with `0 ≤ n < total`, so never with
`total ≤ 0`. -/
def genAuthString32 (length n : Nat) : List Char :=
  genLoop length length 0 ((n : Int).tmod (total32 length)).toNat

/-- The alphabet rule of the specification: a string of length `L` whose first
and last characters are in `"56789"` and whose interior characters are in
`"56789."`. -/
def Conforms (L : Nat) (s : List Char) : Prop :=
  s.length = L ∧
    ∀ k (h : k < s.length),
      if k = 0 ∨ k + 1 = L then s[k] ∈ ['5', '6', '7', '8', '9']
      else s[k] ∈ ['5', '6', '7', '8', '9', '.']

/-- The alphabet rule read position by position, from position `i` on: the
character at position `i` is one of the first `radix length i` characters of
`chars`. -/
def ConfFrom (length : Nat) : Nat → List Char → Prop
  | _, [] => True
  | i, c :: s => c ∈ chars.take (radix length i) ∧ ConfFrom length (i + 1) s

/-! ## Data model -/

/-- The constant `#define MAX_DOCKS 30`. -/
def MAX_DOCKS : Nat := 30

/-- The constant `#define MAX_SHIPS 2000`. -/
def MAX_SHIPS : Nat := 2000

/-- The struct `MessageStruct`; the anonymous union of `numShipRequests` and
`craneId` is the single field `craneId`.  Fields left out of a designated
initialiser are zero. -/
structure MessageStruct where
  mtype : Int
  timestep : Int := 0
  shipId : Int := 0
  direction : Int := 0
  dockId : Int := 0
  cargoId : Int := 0
  isFinished : Int := 0
  craneId : Int := 0
deriving DecidableEq

/-- The struct `ShipRequest`, one new-arrival record of the shared memory. -/
structure ShipRequest where
  shipId : Int
  timestep : Int
  category : Int
  direction : Int
  emergency : Int
  waitingTime : Int
  numCargo : Nat
  cargo : List Int
deriving DecidableEq

/-- The struct `SolverRequest`. -/
structure SolverRequest where
  mtype : Int
  dockId : Int
  authStringGuess : List Char := []
deriving DecidableEq

/-- The struct `Dock`. -/
structure Dock where
  category : Int
  numCranes : Nat
  craneCapacities : List Int
  isOccupied : Bool
  lastUndockTimestep : Int
deriving DecidableEq

/-- The struct `Ship`. -/
structure Ship where
  shipId : Int
  direction : Int
  category : Int
  emergency : Int
  arrivalTime : Int
  waitingTime : Int
  numCargo : Nat
  cargo : List Int
  assignedDock : Int
  dockedTime : Int
  cargoProcessed : Nat
  lastCargoTimestep : Int
  isDocked : Bool
  isServiced : Bool
  isActive : Bool
  authDone : Bool
deriving DecidableEq

/-- The solver log: every request sent to a solver queue, oldest first, with
the index of the solver it was sent to. -/
abbrev SolverLog := List (Nat × SolverRequest)

/-- The verdict of the solver that received the last request of the log
(`resp.guessIsCorrect == 1`), as a function of everything sent so far. -/
abbrev Oracle := SolverLog → Bool

/-- The globals other than the `ships` array, the `authStrings` of the shared
memory, and the two logs of sent messages (oldest first). -/
structure World where
  docks : List Dock
  numSolvers : Nat
  currentTimestep : Int
  authStrings : List (List Char)
  mainLog : List MessageStruct
  solverLog : SolverLog

/-- The whole program state: the globals and the `ships` array
(`totalShips` is its length). -/
structure State where
  w : World
  ships : List Ship

/-- One message received on the main queue with type 1, together with the
new-arrival records the loop reads for it: `newShipRequests` holds the first
`numShipRequests` entries of the shared memory. -/
structure Advance where
  timestep : Int
  isFinished : Int := 0
  newShipRequests : List ShipRequest := []

/-- One dock of `input.txt`: its category and the crane capacities read for it. -/
structure DockConfig where
  category : Int
  craneCapacities : List Int

/-- An entry of the zero-initialised global array `docks`. -/
def zeroDock : Dock :=
  { category := 0, numCranes := 0, craneCapacities := [], isOccupied := false,
    lastUndockTimestep := 0 }

/-- The dock `docks[d]`. -/
def World.dock (w : World) (d : Nat) : Dock := w.docks.getD d zeroDock

/-! ## Dock allocator (`assignDock`) -/

/-- The test of `assignDock` on one dock: unoccupied, of sufficient category,
and not vacated in the current timestep. -/
abbrev Eligible (T category : Int) (dk : Dock) : Prop :=
  dk.isOccupied = false ∧ dk.category ≥ category ∧ dk.lastUndockTimestep ≠ T

/-- The loop of `assignDock` from dock `d` on, with `k = numDocks - d`
iterations left.  Returns the result (`true` for 1), the globals and the ship. -/
def assignDockLoop (w : World) (ship : Ship) : Nat → Nat → Bool × World × Ship
  | 0, _ => (false, w, ship)
  | k + 1, d =>
    if Eligible w.currentTimestep ship.category (w.dock d) then
      (true,
        { w with
          docks := w.docks.set d { w.dock d with isOccupied := true }
          mainLog := w.mainLog ++
            [{ mtype := 2, dockId := d, shipId := ship.shipId, direction := ship.direction }] },
        { ship with assignedDock := d, dockedTime := w.currentTimestep, isDocked := true })
    else assignDockLoop w ship k (d + 1)

/-- The function `assignDock(ship)`. -/
def assignDock (w : World) (ship : Ship) : Bool × World × Ship :=
  assignDockLoop w ship w.docks.length 0

/-! ## Cargo dispatcher (`processCargo`) -/

/-- The inner loop of `processCargo`: the first crane `c` from `c` on that is
not in `used` (`!craneUsed[c]`) and has capacity at least `size`; `none` is
`craneId == -1`.  `k = numCranes - c` iterations are left. -/
def findCrane (dk : Dock) (used : List Nat) (size : Int) : Nat → Nat → Option Nat
  | 0, _ => none
  | k + 1, c =>
    if c ∉ used ∧ dk.craneCapacities.getD c 0 ≥ size then some c
    else findCrane dk used size k (c + 1)

/-- The outer loop of `processCargo`; the loop variable `i` is
`ship.cargoProcessed` throughout, `used` are the cranes marked in `craneUsed`,
and `k = numCargo - i` iterations are left. -/
def cargoLoop (dk : Dock) (dockId T : Int) :
    Nat → List Nat → List MessageStruct → Ship → List MessageStruct × Ship
  | 0, _, log, ship => (log, ship)
  | k + 1, used, log, ship =>
    match findCrane dk used (ship.cargo.getD ship.cargoProcessed 0) dk.numCranes 0 with
    | none => (log, ship)
    | some c =>
      cargoLoop dk dockId T k (c :: used)
        (log ++ [{ mtype := 4, dockId := dockId, shipId := ship.shipId,
                   direction := ship.direction, cargoId := ship.cargoProcessed, craneId := c }])
        { ship with cargoProcessed := ship.cargoProcessed + 1, lastCargoTimestep := T }

/-- The function `processCargo(ship)`. -/
def processCargo (w : World) (ship : Ship) : World × Ship :=
  if ship.isDocked = false ∨ ship.isServiced = true ∨ w.currentTimestep ≤ ship.dockedTime then
    (w, ship)
  else
    let r := cargoLoop (w.dock ship.assignedDock.toNat) ship.assignedDock w.currentTimestep
      (ship.numCargo - ship.cargoProcessed) [] w.mainLog ship
    ({ w with mainLog := r.1 }, r.2)

/-! ## Authentication coordinator (`authenticate`) -/

/-- The loop that informs every solver about the dock (`mtype = 1`, sent with
`IPC_NOWAIT`; the log records each send). -/
def notifyLoop (dockId : Int) : Nat → Nat → SolverLog → SolverLog
  | 0, _, log => log
  | k + 1, i, log => notifyLoop dockId k (i + 1) (log ++ [(i, { mtype := 1, dockId := dockId })])

/-- The loop over the solvers for one guess: sends the guess to solver `s`,
reads its verdict, and stops at the first affirmative one. -/
def solverLoop (ask : Oracle) (dockId : Int) (guess : List Char) :
    Nat → Nat → SolverLog → Bool × SolverLog
  | 0, _, log => (false, log)
  | k + 1, s, log =>
    let log1 := log ++ [(s, { mtype := 2, dockId := dockId, authStringGuess := guess })]
    if ask log1 = true then (true, log1) else solverLoop ask dockId guess k (s + 1) log1

/-- The loop over the candidate indices `t`, with `k = maxTries - t`
iterations left; returns the guess that was accepted, if any. -/
def tryLoop (ask : Oracle) (numSolvers : Nat) (dockId : Int) (length : Nat) :
    Nat → Nat → SolverLog → Option (List Char) × SolverLog
  | 0, _, log => (none, log)
  | k + 1, t, log =>
    let r := solverLoop ask dockId (genAuthString32 length t) numSolvers 0 log
    if r.1 = true then (some (genAuthString32 length t), r.2)
    else tryLoop ask numSolvers dockId length k (t + 1) r.2

/-- The function `authenticate(ship)`.  `maxTries` is the 32-bit `int` product
`total32 length`; the loop `for (t = 0; t < maxTries; t++)` runs
`maxTries.toNat` times (not at all when `maxTries ≤ 0`). -/
def authenticate (ask : Oracle) (w : World) (ship : Ship) : Bool × World × Ship :=
  if ship.authDone = true then (true, w, ship)
  else if ship.lastCargoTimestep - ship.dockedTime ≤ 0 then (false, w, ship)
  else
    let length := (ship.lastCargoTimestep - ship.dockedTime).toNat
    let r := tryLoop ask w.numSolvers ship.assignedDock length (total32 length).toNat 0
      (notifyLoop ship.assignedDock w.numSolvers 0 w.solverLog)
    match r.1 with
    | some guess =>
      (true,
        { w with
          authStrings := w.authStrings.set ship.assignedDock.toNat guess
          solverLog := r.2 },
        { ship with authDone := true })
    | none => (false, { w with solverLog := r.2 }, ship)

/-! ## Undocking (`undockShip`) -/

/-- The function `undockShip(ship)`. -/
def undockShip (w : World) (ship : Ship) : World × Ship :=
  ({ w with
      mainLog := w.mainLog ++
        [{ mtype := 3, dockId := ship.assignedDock, shipId := ship.shipId,
           direction := ship.direction }]
      docks := w.docks.set ship.assignedDock.toNat
        { w.dock ship.assignedDock.toNat with
          isOccupied := false, lastUndockTimestep := w.currentTimestep } },
    { ship with isDocked := false, isServiced := true })

/-! ## The main loop -/

/-- A loop `for (i = 0; i < totalShips; i++) body(&ships[i])`: the body runs on
each ship in turn and may change the globals and that ship. -/
def forShips (body : World → Ship → World × Ship) : World → List Ship → World × List Ship
  | w, [] => (w, [])
  | w, s :: rest =>
    let r := body w s
    let r2 := forShips body r.1 rest
    (r2.1, r.2 :: r2.2)

/-- The ship created from a request in step 1 of the loop. -/
def newShip (req : ShipRequest) : Ship :=
  { shipId := req.shipId, direction := req.direction, category := req.category,
    emergency := req.emergency, arrivalTime := req.timestep, waitingTime := req.waitingTime,
    numCargo := req.numCargo, cargo := req.cargo.take req.numCargo,
    assignedDock := -1, dockedTime := -1, cargoProcessed := 0, lastCargoTimestep := -1,
    isDocked := false, isServiced := false, isActive := true, authDone := false }

/-- Step 1: add new ships while `totalShips < MAX_SHIPS`. -/
def ingest : List ShipRequest → List Ship → List Ship
  | [], ships => ships
  | req :: rest, ships =>
    if ships.length < MAX_SHIPS then ingest rest (ships ++ [newShip req]) else ships

/-- The guard of step 2 (emergency pass). -/
abbrev EmergencyGuard (s : Ship) : Prop :=
  s.direction = 1 ∧ s.emergency = 1 ∧ s.isActive = true ∧ s.isDocked = false ∧
    s.isServiced = false

/-- The body of step 2. -/
def emergencyBody (w : World) (s : Ship) : World × Ship :=
  if EmergencyGuard s then (assignDock w s).2 else (w, s)

/-- The body of step 3 (regular pass). -/
def regularBody (w : World) (s : Ship) : World × Ship :=
  if s.isActive = true ∧ s.isDocked = false ∧ s.isServiced = false then
    if s.direction = 1 ∧ s.emergency = 0 then
      if w.currentTimestep ≤ s.arrivalTime + s.waitingTime then (assignDock w s).2
      else (w, { s with isActive := false })
    else (assignDock w s).2
  else (w, s)

/-- The guard of step 5 (release pass). -/
abbrev ReleaseGuard (T : Int) (s : Ship) : Prop :=
  s.isDocked = true ∧ s.isServiced = false ∧ s.cargoProcessed = s.numCargo ∧
    T > s.lastCargoTimestep

/-- The body of step 5. -/
def releaseBody (ask : Oracle) (w : World) (s : Ship) : World × Ship :=
  if ReleaseGuard w.currentTimestep s then
    let r := authenticate ask w s
    if r.1 = true then undockShip r.2.1 r.2.2 else r.2
  else (w, s)

/-- Step 1 of one iteration: `currentTimestep = msg.timestep` and the new ships. -/
def ingestPhase (st : State) (a : Advance) : State :=
  { w := { st.w with currentTimestep := a.timestep }
    ships := ingest a.newShipRequests st.ships }

/-- One pass of the loop body `body` over all ships. -/
def State.pass (st : State) (body : World → Ship → World × Ship) : State :=
  { w := (forShips body st.w st.ships).1, ships := (forShips body st.w st.ships).2 }

/-- Steps 1 to 3 of one iteration: ingestion and the two allocation passes. -/
def allocPhase (st : State) (a : Advance) : State :=
  ((ingestPhase st a).pass emergencyBody).pass regularBody

/-- Steps 1 to 4 of one iteration: the state at the start of the release pass. -/
def beforeRelease (st : State) (a : Advance) : State :=
  (allocPhase st a).pass processCargo

/-- One iteration of the main loop for a message that is not the final one;
it ends with the timestep update message (`mtype = 5`). -/
def advance (ask : Oracle) (st : State) (a : Advance) : State :=
  { w := { ((beforeRelease st a).pass (releaseBody ask)).w with
           mainLog := ((beforeRelease st a).pass (releaseBody ask)).w.mainLog ++ [{ mtype := 5 }] }
    ships := ((beforeRelease st a).pass (releaseBody ask)).ships }

/-- The loop `while (1)` of `main` run on a list of received messages; it
stops at the first message with `isFinished == 1`. -/
def mainLoop (ask : Oracle) : State → List Advance → State
  | st, [] => st
  | st, a :: rest =>
    if a.isFinished = 1 then { st with w := { st.w with currentTimestep := a.timestep } }
    else mainLoop ask (advance ask st a) rest

/-- The state after `setupIPC`: docks as configured (`numCranes = category`),
all unoccupied with `lastUndockTimestep = 0`, no ships, timestep 0. -/
def setupIPC (numSolvers : Nat) (cfg : List DockConfig) : State :=
  { w :=
      { docks := cfg.map fun c =>
          { category := c.category, numCranes := c.category.toNat,
            craneCapacities := c.craneCapacities, isOccupied := false,
            lastUndockTimestep := 0 }
        numSolvers := numSolvers
        currentTimestep := 0
        authStrings := List.replicate MAX_DOCKS []
        mainLog := []
        solverLog := [] }
    ships := [] }

/-- The states the program reaches at the top of its loop: the state after
`setupIPC`, and the state after one more iteration on any message that is not
the final one, whatever the solvers answer. -/
inductive Reachable : State → Prop
  | init (numSolvers : Nat) (cfg : List DockConfig) : Reachable (setupIPC numSolvers cfg)
  | step (ask : Oracle) (st : State) (a : Advance) :
      Reachable st → a.isFinished ≠ 1 → Reachable (advance ask st a)

/-- The globals after ship `ship` has been given dock `d`: the dock is
occupied and a Docked notification (`mtype = 2`) has been sent. -/
def World.assigned (w : World) (ship : Ship) (d : Nat) : World :=
  { w with
    docks := w.docks.set d { w.dock d with isOccupied := true }
    mainLog := w.mainLog ++
      [{ mtype := 2, dockId := d, shipId := ship.shipId, direction := ship.direction }] }

/-- The ship after it has been given dock `d` at timestep `T`. -/
def Ship.assigned (ship : Ship) (d : Nat) (T : Int) : Ship :=
  { ship with assignedDock := d, dockedTime := T, isDocked := true }

/-- Dock `d` is the first dock that `assignDock` accepts for the category. -/
def FirstEligible (w : World) (category : Int) (d : Nat) : Prop :=
  d < w.docks.length ∧ Eligible w.currentTimestep category (w.dock d) ∧
    ∀ e, e < d → ¬ Eligible w.currentTimestep category (w.dock e)

/-- The search length `lastCargoTimestep - dockedTime` of `authenticate`, when positive. -/
def authLength (ship : Ship) : Nat := (ship.lastCargoTimestep - ship.dockedTime).toNat

/-- Every solver answers a guess for dock `dockId` with "correct" exactly when
the guess is the hidden target. -/
def Honest (ask : Oracle) (dockId : Int) (target : List Char) : Prop :=
  ∀ (log : SolverLog) (s : Nat) (guess : List Char),
    ask (log ++ [(s, { mtype := 2, dockId := dockId, authStringGuess := guess })]) = true ↔
      guess = target

/-- A solver pool that compares the guess of the last request with `target`. -/
def honestOracle (target : List Char) : Oracle := fun log =>
  match log.getLast? with
  | some r => decide (r.2.authStringGuess = target)
  | none => false

/-- A world with one dock of category 1 and one crane of capacity 10, occupied,
two solvers, at timestep 8. -/
def sampleWorld : World :=
  { docks := [{ category := 1, numCranes := 1, craneCapacities := [10], isOccupied := true,
                lastUndockTimestep := 0 }]
    numSolvers := 2, currentTimestep := 8, authStrings := List.replicate MAX_DOCKS []
    mainLog := [], solverLog := [] }

/-- A ship docked at dock 0 at timestep 5 whose two cargo items were handled
at timesteps 6 and 7. -/
def sampleShip : Ship :=
  { shipId := 7, direction := 1, category := 1, emergency := 0, arrivalTime := 5,
    waitingTime := 5, numCargo := 2, cargo := [4, 6], assignedDock := 0, dockedTime := 5,
    cargoProcessed := 2, lastCargoTimestep := 7, isDocked := true, isServiced := false,
    isActive := true, authDone := false }

/-- The CargoAssigned notifications (`mtype = 4`) for consecutive cargo items
`i, i+1, ...` of a ship handled by the cranes `cs`, in order. -/
def cargoMsgs (dockId shipId direction : Int) : Nat → List Nat → List MessageStruct
  | _, [] => []
  | i, c :: cs =>
    { mtype := 4, dockId := dockId, shipId := shipId, direction := direction,
      cargoId := i, craneId := c } :: cargoMsgs dockId shipId direction (i + 1) cs

/-- First-fit run: the cranes `cs` serve the consecutive cargo items from index
`i` on; each is the lowest crane of the dock that is not in `used`, was not
taken by an earlier item of the run, and has capacity at least the item. -/
def FirstFit (dk : Dock) (cargo : List Int) : List Nat → Nat → List Nat → Prop
  | _, _, [] => True
  | used, i, c :: cs =>
    c < dk.numCranes ∧ c ∉ used ∧ dk.craneCapacities.getD c 0 ≥ cargo.getD i 0 ∧
      (∀ e, e < c → e ∈ used ∨ dk.craneCapacities.getD e 0 < cargo.getD i 0) ∧
      FirstFit dk cargo (c :: used) (i + 1) cs

/-- Scenario A: one dock of category 2 with cranes [5, 10], occupied, at timestep 2. -/
def worldA : World :=
  { docks := [{ category := 2, numCranes := 2, craneCapacities := [5, 10], isOccupied := true,
                lastUndockTimestep := 0 }]
    numSolvers := 1, currentTimestep := 2, authStrings := List.replicate MAX_DOCKS []
    mainLog := [], solverLog := [] }

/-- Scenario A: a ship of category 2 with cargo [3, 12], docked at dock 0 at timestep 1. -/
def shipA : Ship :=
  { shipId := 1, direction := 1, category := 2, emergency := 0, arrivalTime := 1,
    waitingTime := 5, numCargo := 2, cargo := [3, 12], assignedDock := 0, dockedTime := 1,
    cargoProcessed := 0, lastCargoTimestep := -1, isDocked := true, isServiced := false,
    isActive := true, authDone := false }

/-- Scenario A after its first dispatch pass: item 0 handled at timestep 2. -/
def shipA1 : Ship := { shipA with cargoProcessed := 1, lastCargoTimestep := 2 }

/-- Two ships do not hold the same dock. -/
def DockDisjoint (s t : Ship) : Prop :=
  s.isDocked = true → t.isDocked = true → s.assignedDock ≠ t.assignedDock

/-- The one-ship-per-dock invariant: docked ships hold pairwise different
docks, every docked ship holds an existing dock that is marked occupied, and
every dock marked occupied is held by a docked ship. -/
def DockInv (w : World) (ships : List Ship) : Prop :=
  ships.Pairwise DockDisjoint ∧
  (∀ s, s ∈ ships → s.isDocked = true →
    ∃ n : Nat, s.assignedDock = n ∧ n < w.docks.length ∧ (w.dock n).isOccupied = true) ∧
  (∀ n : Nat, n < w.docks.length → (w.dock n).isOccupied = true →
    ∃ s, s ∈ ships ∧ s.isDocked = true ∧ s.assignedDock = n)

/-- The per-ship release invariant: a serviced ship is undocked, authenticated
and has all its cargo processed; an authenticated ship is serviced. -/
def ShipOK (s : Ship) : Prop :=
  (s.isServiced = true →
    s.isDocked = false ∧ s.authDone = true ∧ s.cargoProcessed = s.numCargo) ∧
  (s.authDone = true → s.isServiced = true)

/-- Solvers that accept every guess. -/
def yesOracle : Oracle := fun _ => true

/-- Scenario A: the request that creates `shipA`. -/
def reqA : ShipRequest :=
  { shipId := 1, timestep := 1, category := 2, direction := 1, emergency := 0,
    waitingTime := 5, numCargo := 2, cargo := [3, 12] }

/-- Scenario A: the state after setup with one dock of category 2 (cranes
[5, 10]) and one iteration at timestep 1 that ingests `reqA`. -/
def stateA : State :=
  advance yesOracle (setupIPC 1 [{ category := 2, craneCapacities := [5, 10] }])
    { timestep := 1, newShipRequests := [reqA] }

/-- What no operation changes in the globals: the timestep (within one
iteration), the number of solvers, the number of docks and each dock's
category and cranes. -/
def Frame (w w1 : World) : Prop :=
  w1.currentTimestep = w.currentTimestep ∧ w1.numSolvers = w.numSolvers ∧
  w1.docks.length = w.docks.length ∧
  ∀ n, (w1.dock n).category = (w.dock n).category ∧
    (w1.dock n).numCranes = (w.dock n).numCranes ∧
    (w1.dock n).craneCapacities = (w.dock n).craneCapacities

/-- What the allocation passes preserve in addition: the vacating timestep of
every dock, and that an occupied dock stays occupied. -/
def AllocStep (w w1 : World) : Prop :=
  Frame w w1 ∧
  ∀ n, (w1.dock n).lastUndockTimestep = (w.dock n).lastUndockTimestep ∧
    ((w.dock n).isOccupied = true → (w1.dock n).isOccupied = true)

/-- The globals when the pass with body `f` over `ships`, started in `w`,
reaches ship `i`. -/
def worldAt (f : World → Ship → World × Ship) (w : World) (ships : List Ship) (i : Nat) :
    World :=
  (forShips f w (ships.take i)).1

/-- Scenario B: a ship of category 1 with cargo [4, 6] that arrives at timestep 5. -/
def reqB : ShipRequest :=
  { shipId := 7, timestep := 5, category := 1, direction := 1, emergency := 0,
    waitingTime := 5, numCargo := 2, cargo := [4, 6] }

/-- Scenario B: setup with one dock of category 1 and one crane of capacity 10. -/
def setupB : State := setupIPC 2 [{ category := 1, craneCapacities := [10] }]

/-- Scenario B after the iteration at timestep 5, in which the ship docks. -/
def stateB5 : State := advance yesOracle setupB { timestep := 5, newShipRequests := [reqB] }

/-- Scenario B after the iterations at timesteps 5, 6 and 7. -/
def stateB7 : State :=
  advance yesOracle (advance yesOracle stateB5 { timestep := 6 }) { timestep := 7 }

/-- No dock passes the occupancy and cooldown tests of `assignDock`. -/
def NoFree (w : World) : Prop :=
  ∀ n, n < w.docks.length →
    ¬ ((w.dock n).isOccupied = false ∧ (w.dock n).lastUndockTimestep ≠ w.currentTimestep)

/-- Scenario C: one free dock of category 3 (never vacated, timestep 4). -/
def setupC : State := setupIPC 1 [{ category := 3, craneCapacities := [9, 9, 9] }]

/-- Scenario C: a regular arriving ship of category 2. -/
def reqRegular : ShipRequest :=
  { shipId := 20, timestep := 4, category := 2, direction := 1, emergency := 0,
    waitingTime := 10, numCargo := 1, cargo := [5] }

/-- Scenario C: an emergency arriving ship of category 3. -/
def reqEmergency : ShipRequest :=
  { shipId := 21, timestep := 4, category := 3, direction := 1, emergency := 1,
    waitingTime := 0, numCargo := 1, cargo := [5] }

/-- Scenario C: the message of timestep 4 with the regular ship created first. -/
def advC : Advance := { timestep := 4, newShipRequests := [reqRegular, reqEmergency] }

/-- Scenario C with the emergency ship created first. -/
def advC1 : Advance := { timestep := 4, newShipRequests := [reqEmergency, reqRegular] }

/-- A port whose only dock has category 2, too small for the emergency ship. -/
def setupSmall : State := setupIPC 1 [{ category := 2, craneCapacities := [9, 9] }]

/-- Scenario D: one dock of category 1 with one crane of capacity 10. -/
def setupD : State := setupIPC 1 [{ category := 1, craneCapacities := [10] }]

/-- Scenario D: an emergency ship with one cargo item, which holds the dock
from timestep 1 until it is released at timestep 3. -/
def reqD0 : ShipRequest :=
  { shipId := 30, timestep := 0, category := 1, direction := 1, emergency := 1,
    waitingTime := 0, numCargo := 1, cargo := [1] }

/-- Scenario D: the regular arriving ship with arrival timestep 0 and waiting budget 3. -/
def reqD : ShipRequest :=
  { shipId := 31, timestep := 0, category := 1, direction := 1, emergency := 0,
    waitingTime := 3, numCargo := 1, cargo := [1] }

/-- Scenario D: the state after the iterations at timesteps `0, ..., T`; both
ships are ingested at timestep 0. -/
def stateD (T : Nat) : State :=
  mainLoop yesOracle setupD
    ({ timestep := 0, newShipRequests := [reqD0, reqD] } ::
      (List.range T).map fun t => { timestep := (t : Int) + 1 })

/-- The state of a ship with `k` cargo items, docked at timestep `d` at a dock
with a single sufficient crane, after `n` iterations at the timesteps
`d+1, ..., d+n`: `min n k` items are processed, the last one at timestep
`d + min n k`; the ship is still docked, or (only after `n > k` iterations)
undocked and serviced. -/
def Tracked (s0 : Ship) (d : Int) (k n : Nat) (s : Ship) : Prop :=
  s.cargoProcessed = min n k ∧ (0 < n → s.lastCargoTimestep = d + (min n k : Nat)) ∧
  s.numCargo = k ∧ s.cargo = s0.cargo ∧ s.assignedDock = s0.assignedDock ∧
  s.dockedTime = d ∧
  ((s.isDocked = true ∧ s.isServiced = false ∧ s.authDone = false) ∨
    (k < n ∧ s.isDocked = false ∧ s.isServiced = true))

/-- The dock assigned to `s0` has exactly one crane, and its capacity is at
least each of the first `k` cargo items of `s0`. -/
def SingleCrane (w : World) (s0 : Ship) (k : Nat) : Prop :=
  (w.dock s0.assignedDock.toNat).numCranes = 1 ∧
  ∀ j, j < k →
    (w.dock s0.assignedDock.toNat).craneCapacities.getD 0 0 ≥ s0.cargo.getD j 0

/-- Scenario B: the ship as it is after docking at dock 0 at timestep 5. -/
def shipB5 : Ship := (newShip reqB).assigned 0 5

/-- Scenario B: the messages of timesteps 6 and 7. -/
def advsB : List Advance := [{ timestep := 6 }, { timestep := 7 }]

/-- The sample ship, already authenticated. -/
def sampleShipDone : Ship := { sampleShip with authDone := true }

/-- The globals of scenario C at timestep 4, before any ship is docked. -/
def worldC : World := (ingestPhase setupC advC).w

/-- A ship of category 2 whose processed counter holds 3 before it is docked. -/
def shipCounter3 : Ship := { newShip reqRegular with cargoProcessed := 3 }

/-- The globals right after `setupIPC` when the first message carries timestep `T`. -/
def setupWorld (numSolvers : Nat) (cfg : List DockConfig) (T : Int) : World :=
  { (setupIPC numSolvers cfg).w with currentTimestep := T }

/-- The per-ship cargo invariant: the processed counter never exceeds the number
of cargo items, `lastCargoTimestep` keeps its initial value -1 while nothing
is processed, and a ship that has never docked has processed nothing. -/
def ShipCargoOK (s : Ship) : Prop :=
  s.cargoProcessed ≤ s.numCargo ∧
  (s.cargoProcessed = 0 → s.lastCargoTimestep = -1) ∧
  (s.isDocked = false → s.isServiced = false → s.cargoProcessed = 0)

/-- The state of a docked ship whose cargo item `idx` fits no crane of its dock:
docked, unserviced, same cargo and dock as `s0`, and not past item `idx`. -/
def Blocked (s0 : Ship) (idx : Nat) (s : Ship) : Prop :=
  s.isDocked = true ∧ s.isServiced = false ∧ s.numCargo = s0.numCargo ∧
  s.cargo = s0.cargo ∧ s.assignedDock = s0.assignedDock ∧
  s0.cargoProcessed ≤ s.cargoProcessed ∧ s.cargoProcessed ≤ idx

/-- Cargo item `idx` of `s0` exceeds the capacity of every crane of the dock
assigned to `s0`. -/
def Unfit (w : World) (s0 : Ship) (idx : Nat) : Prop :=
  ∀ c, c < (w.dock s0.assignedDock.toNat).numCranes →
    (w.dock s0.assignedDock.toNat).craneCapacities.getD c 0 < s0.cargo.getD idx 0

/-- A request for a ship of category 1 without cargo. -/
def reqZero : ShipRequest :=
  { shipId := 40, timestep := 1, category := 1, direction := 1, emergency := 0,
    waitingTime := 5, numCargo := 0, cargo := [] }

/-- The state after setup (one dock of category 1) and one iteration at
timestep 1 in which the ship without cargo docks. -/
def stateZero : State :=
  advance yesOracle setupD { timestep := 1, newShipRequests := [reqZero] }

/-- The ship without cargo, docked at dock 0 at timestep 1. -/
def shipZero : Ship := (newShip reqZero).assigned 0 1

/-- Scenario A: the messages of timesteps 2, 3 and 4. -/
def advsA : List Advance := [{ timestep := 2 }, { timestep := 3 }, { timestep := 4 }]

/-- The notices (`mtype = 1`) sent to the solvers `i, i+1, ..., i+k-1`. -/
def notices (dockId : Int) : Nat → Nat → SolverLog
  | 0, _ => []
  | k + 1, i => (i, { mtype := 1, dockId := dockId }) :: notices dockId k (i + 1)

/-- One guess sent (`mtype = 2`) to the solvers `s, s+1, ..., s+k-1` in turn. -/
def guessRound (dockId : Int) (guess : List Char) : Nat → Nat → SolverLog
  | 0, _ => []
  | k + 1, s =>
    (s, { mtype := 2, dockId := dockId, authStringGuess := guess }) ::
      guessRound dockId guess k (s + 1)

/-- The candidates `gen t, gen (t+1), ..., gen (t+k-1)` in turn, each sent to all
`numSolvers` solvers `0, 1, ..., numSolvers-1`. -/
def fullRounds (dockId : Int) (gen : Nat → List Char) (numSolvers : Nat) :
    Nat → Nat → SolverLog
  | 0, _ => []
  | k + 1, t =>
    guessRound dockId (gen t) numSolvers 0 ++ fullRounds dockId gen numSolvers k (t + 1)

/-- Solvers that reject every guess. -/
def noOracle : Oracle := fun _ => false

/-- The sample ship with its single cargo event at timestep 6: search length 1. -/
def shipL1 : Ship := { sampleShip with numCargo := 1, cargoProcessed := 1, lastCargoTimestep := 6 }

/-- No dock is eligible for a ship of category `c`. -/
def NoEligible (w : World) (c : Int) : Prop :=
  ∀ e, e < w.docks.length → ¬ Eligible w.currentTimestep c (w.dock e)

/-- The body of the regular pass as the specification words it ("non-emergency"):
an emergency arrival is left to the emergency pass and skipped here; every
other ship is handled as in `regularBody`. -/
def regularBodySpec (w : World) (s : Ship) : World × Ship :=
  if s.direction = 1 ∧ s.emergency = 1 then (w, s) else regularBody w s

/-- An assignment of docks to waiting emergency ships, as pairs (ship position,
dock index): no ship and no dock occurs twice, every ship passes the guard of
the emergency pass, and every dock is eligible for its ship. -/
def ValidAssignment (w : World) (ships : List Ship) (m : List (Nat × Nat)) : Prop :=
  (m.map Prod.fst).Nodup ∧ (m.map Prod.snd).Nodup ∧
  ∀ p, p ∈ m → ∃ s, ships[p.1]? = some s ∧ EmergencyGuard s ∧ p.2 < w.docks.length ∧
    Eligible w.currentTimestep s.category (w.dock p.2)

/-- A small emergency ship (category 1) created first. -/
def reqSmallEmergency : ShipRequest :=
  { shipId := 50, timestep := 4, category := 1, direction := 1, emergency := 1,
    waitingTime := 0, numCargo := 1, cargo := [1] }

/-- A large emergency ship (category 3) created second. -/
def reqLargeEmergency : ShipRequest :=
  { shipId := 51, timestep := 4, category := 3, direction := 1, emergency := 1,
    waitingTime := 0, numCargo := 1, cargo := [1] }

/-- The state at the start of the emergency pass of timestep 4: docks of
categories 3 and 1, both free, and the two emergency ships just ingested. -/
def stateGreedy : State :=
  ingestPhase
    (setupIPC 1 [{ category := 3, craneCapacities := [9, 9, 9] },
                 { category := 1, craneCapacities := [9] }])
    { timestep := 4, newShipRequests := [reqSmallEmergency, reqLargeEmergency] }

/-- A ship docked at timestep 5 whose 13 cargo items were handled one per
timestep, the last at timestep 18: search length 13. -/
def shipL13 : Ship :=
  { sampleShip with
    numCargo := 13, cargo := List.replicate 13 4, cargoProcessed := 13,
    lastCargoTimestep := 18 }

/-- The sample world at timestep 19, after the 13 cargo items of `shipL13`. -/
def worldL13 : World := { sampleWorld with currentTimestep := 19 }

/-- A string of length 13 that conforms to the alphabet rule: twelve times
'5', then '6'. -/
def target13 : List Char :=
  ['5', '5', '5', '5', '5', '5', '5', '5', '5', '5', '5', '5', '6']

/-! ### Lemmas on the enumerator -/

theorem radix_pos (length i : Nat) : 0 < radix length i := by
  unfold radix; split <;> decide

theorem radix_le (length i : Nat) : radix length i ≤ 6 := by
  unfold radix; split <;> decide

theorem totalLoop_mul (length : Nat) :
    ∀ k i acc, totalLoop length k i acc = acc * totalLoop length k i 1 := by
  intro k
  induction k with
  | zero => intro i acc; simp [totalLoop]
  | succ k ih =>
    intro i acc
    simp only [totalLoop, one_mul]
    rw [ih (i + 1) (acc * radix length i), ih (i + 1) (radix length i)]
    ring

theorem totalLoop_succ (length k i : Nat) :
    totalLoop length (k + 1) i 1 = radix length i * totalLoop length k (i + 1) 1 := by
  simp only [totalLoop, one_mul]
  rw [totalLoop_mul]

theorem totalLoop_pos (length : Nat) : ∀ k i, 0 < totalLoop length k i 1 := by
  intro k
  induction k with
  | zero => intro i; simp [totalLoop]
  | succ k ih =>
    intro i
    rw [totalLoop_succ]
    exact Nat.mul_pos (radix_pos _ _) (ih _)

theorem chars_getD_inj {a b : Nat} (ha : a < 6) (hb : b < 6)
    (h : chars.getD a (Char.ofNat 0) = chars.getD b (Char.ofNat 0)) : a = b := by
  interval_cases a <;> interval_cases b <;> first | rfl | (exact absurd h (by decide))

theorem genLoop_inj (length : Nat) :
    ∀ k i m n, m < totalLoop length k i 1 → n < totalLoop length k i 1 →
      genLoop length k i m = genLoop length k i n → m = n := by
  intro k
  induction k with
  | zero =>
    intro i m n hm hn _
    simp [totalLoop] at hm hn
    omega
  | succ k ih =>
    intro i m n hm hn h
    rw [totalLoop_succ] at hm hn
    simp only [genLoop, List.cons.injEq] at h
    have hb := radix_pos length i
    have hb6 := radix_le length i
    have h1 : m % radix length i = n % radix length i :=
      chars_getD_inj (lt_of_lt_of_le (Nat.mod_lt _ hb) hb6)
        (lt_of_lt_of_le (Nat.mod_lt _ hb) hb6) h.1
    have h2 : m / radix length i = n / radix length i :=
      ih (i + 1) _ _ (Nat.div_lt_of_lt_mul hm) (Nat.div_lt_of_lt_mul hn) h.2
    rw [← Nat.div_add_mod m (radix length i), ← Nat.div_add_mod n (radix length i), h1, h2]

theorem mem_take_chars {b : Nat} (hb : b ≤ 6) (c : Char) :
    c ∈ chars.take b ↔ ∃ d, d < b ∧ chars.getD d (Char.ofNat 0) = c := by
  constructor
  · intro h
    interval_cases b <;> simp [chars] at h
    · exact ⟨0, by decide, h.symm ▸ rfl⟩
    · rcases h with h | h
      · exact ⟨0, by decide, h.symm ▸ rfl⟩
      · exact ⟨1, by decide, h.symm ▸ rfl⟩
    · rcases h with h | h | h
      · exact ⟨0, by decide, h.symm ▸ rfl⟩
      · exact ⟨1, by decide, h.symm ▸ rfl⟩
      · exact ⟨2, by decide, h.symm ▸ rfl⟩
    · rcases h with h | h | h | h
      · exact ⟨0, by decide, h.symm ▸ rfl⟩
      · exact ⟨1, by decide, h.symm ▸ rfl⟩
      · exact ⟨2, by decide, h.symm ▸ rfl⟩
      · exact ⟨3, by decide, h.symm ▸ rfl⟩
    · rcases h with h | h | h | h | h
      · exact ⟨0, by decide, h.symm ▸ rfl⟩
      · exact ⟨1, by decide, h.symm ▸ rfl⟩
      · exact ⟨2, by decide, h.symm ▸ rfl⟩
      · exact ⟨3, by decide, h.symm ▸ rfl⟩
      · exact ⟨4, by decide, h.symm ▸ rfl⟩
    · rcases h with h | h | h | h | h | h
      · exact ⟨0, by decide, h.symm ▸ rfl⟩
      · exact ⟨1, by decide, h.symm ▸ rfl⟩
      · exact ⟨2, by decide, h.symm ▸ rfl⟩
      · exact ⟨3, by decide, h.symm ▸ rfl⟩
      · exact ⟨4, by decide, h.symm ▸ rfl⟩
      · exact ⟨5, by decide, h.symm ▸ rfl⟩
  · rintro ⟨d, hd, rfl⟩
    interval_cases b <;> interval_cases d <;> simp [chars]

theorem genLoop_conf (length : Nat) :
    ∀ k i n, ConfFrom length i (genLoop length k i n) := by
  intro k
  induction k with
  | zero => intro i n; simp [genLoop, ConfFrom]
  | succ k ih =>
    intro i n
    simp only [genLoop, ConfFrom]
    exact ⟨(mem_take_chars (radix_le _ _) _).2 ⟨_, Nat.mod_lt _ (radix_pos _ _), rfl⟩, ih _ _⟩

theorem confFrom_iff (length : Nat) :
    ∀ (s : List Char) (i : Nat),
      ConfFrom length i s ↔
        ∀ k (h : k < s.length), s[k] ∈ chars.take (radix length (i + k)) := by
  intro s
  induction s with
  | nil => intro i; simp [ConfFrom]
  | cons c s ih =>
    intro i
    simp only [ConfFrom, ih, List.length_cons]
    constructor
    · rintro ⟨hc, hs⟩ k hk
      cases k with
      | zero => simpa using hc
      | succ k =>
        have := hs k (by omega)
        simpa [Nat.add_assoc, Nat.add_comm 1 k] using this
    · intro h
      refine ⟨by simpa using h 0 (by omega), fun k hk => ?_⟩
      have := h (k + 1) (by omega)
      simpa [Nat.add_assoc, Nat.add_comm 1 k] using this

theorem conforms_iff (L : Nat) (s : List Char) :
    Conforms L s ↔ s.length = L ∧ ConfFrom L 0 s := by
  unfold Conforms
  rw [confFrom_iff]
  refine and_congr_right fun _ => forall_congr' fun k => forall_congr' fun hk => ?_
  simp only [zero_add, radix]
  split <;> simp [chars]

theorem assignDockLoop_spec (w : World) (ship : Ship) :
    ∀ k d, d + k = w.docks.length →
      (∀ e, e < d → ¬ Eligible w.currentTimestep ship.category (w.dock e)) →
      (∃ d0, FirstEligible w ship.category d0 ∧
          assignDockLoop w ship k d =
            (true, w.assigned ship d0, ship.assigned d0 w.currentTimestep)) ∨
        ((∀ e, e < w.docks.length → ¬ Eligible w.currentTimestep ship.category (w.dock e)) ∧
          assignDockLoop w ship k d = (false, w, ship)) := by
  intro k
  induction k with
  | zero =>
    intro d hd hlt
    right
    exact ⟨fun e he => hlt e (by omega), rfl⟩
  | succ k ih =>
    intro d hd hlt
    by_cases h : Eligible w.currentTimestep ship.category (w.dock d)
    · left
      refine ⟨d, ⟨by omega, h, hlt⟩, ?_⟩
      simp only [assignDockLoop, if_pos h]
      rfl
    · simp only [assignDockLoop, if_neg h]
      refine ih (d + 1) (by omega) fun e he => ?_
      rcases Nat.lt_succ_iff_lt_or_eq.1 he with h1 | h1
      · exact hlt e h1
      · exact h1 ▸ h

theorem assignDock_spec (w : World) (ship : Ship) :
    (∃ d0, FirstEligible w ship.category d0 ∧
        assignDock w ship = (true, w.assigned ship d0, ship.assigned d0 w.currentTimestep)) ∨
      ((∀ e, e < w.docks.length → ¬ Eligible w.currentTimestep ship.category (w.dock e)) ∧
        assignDock w ship = (false, w, ship)) :=
  assignDockLoop_spec w ship w.docks.length 0 (by omega) (fun e he => absurd he (by omega))

theorem World.dock_set_self (w : World) (d : Nat) (dk : Dock) (hd : d < w.docks.length) :
    (w.docks.set d dk).getD d zeroDock = dk := by
  simp [List.getD, List.getElem?_set, hd]

theorem World.dock_set_ne (w : World) (d e : Nat) (dk : Dock) (hne : e ≠ d) :
    (w.docks.set d dk).getD e zeroDock = w.dock e := by
  simp [World.dock, List.getD, List.getElem?_set, Ne.symm hne]

/-- C3. Dock Allocator first-fit: `assignDock` succeeds exactly when some dock
is unoccupied, of category at least the ship's, and not vacated in the current
timestep.  On success the lowest-index such dock `d` is assigned: it becomes
occupied and is otherwise unchanged, every other dock is unchanged, the ship is
docked with `assignedDock = d` and `dockedTime = currentTimestep`, the dock's
category is at least the ship's, and one Docked notification is sent.  On
failure neither the globals (docks, notifications) nor the ship change. -/
theorem C3_assignDock_first_fit (w : World) (ship : Ship) :
    ((assignDock w ship).1 = true ↔
      ∃ d, d < w.docks.length ∧ Eligible w.currentTimestep ship.category (w.dock d)) ∧
    ((assignDock w ship).1 = true →
      ∃ d, FirstEligible w ship.category d ∧
        (assignDock w ship).2.2 =
          { ship with assignedDock := d, dockedTime := w.currentTimestep, isDocked := true } ∧
        (assignDock w ship).2.1.dock d = { w.dock d with isOccupied := true } ∧
        (∀ e, e ≠ d → (assignDock w ship).2.1.dock e = w.dock e) ∧
        (assignDock w ship).2.1.docks.length = w.docks.length ∧
        ((assignDock w ship).2.1.dock d).category ≥ ship.category ∧
        (assignDock w ship).2.1.mainLog = w.mainLog ++
          [{ mtype := 2, dockId := d, shipId := ship.shipId, direction := ship.direction }]) ∧
    ((assignDock w ship).1 = false → (assignDock w ship).2 = (w, ship)) := by
  rcases assignDock_spec w ship with ⟨d, hfe, heq⟩ | ⟨hno, heq⟩
  · rw [heq]
    refine ⟨⟨fun _ => ⟨d, hfe.1, hfe.2.1⟩, fun _ => rfl⟩, fun _ => ?_, fun h => by simp at h⟩
    refine ⟨d, hfe, rfl, ?_, ?_, ?_, ?_, rfl⟩
    · exact World.dock_set_self w d _ hfe.1
    · intro e he
      exact World.dock_set_ne w d e _ he
    · simp [World.assigned]
    · have : (w.assigned ship d).dock d = { w.dock d with isOccupied := true } :=
        World.dock_set_self w d _ hfe.1
      show ((w.assigned ship d).dock d).category ≥ ship.category
      rw [this]
      exact hfe.2.1.2.1
  · rw [heq]
    refine ⟨⟨fun h => by simp at h, fun ⟨d, hd, he⟩ => absurd he (hno d hd)⟩,
      fun h => by simp at h, fun _ => rfl⟩

/-! ### Lemmas on the authentication search -/

theorem honestOracle_honest (dockId : Int) (target : List Char) :
    Honest (honestOracle target) dockId target := by
  intro log s guess
  simp [honestOracle]

theorem solverLoop_hit (ask : Oracle) (dockId : Int) (target : List Char)
    (hh : Honest ask dockId target) (k s : Nat) (log : SolverLog) :
    (solverLoop ask dockId target (k + 1) s log).1 = true := by
  simp only [solverLoop]
  rw [if_pos ((hh log s target).2 rfl)]

theorem solverLoop_miss (ask : Oracle) (dockId : Int) (target guess : List Char)
    (hh : Honest ask dockId target) (hne : guess ≠ target) :
    ∀ (k s : Nat) (log : SolverLog), (solverLoop ask dockId guess k s log).1 = false := by
  intro k
  induction k with
  | zero => intro s log; rfl
  | succ k ih =>
    intro s log
    simp only [solverLoop]
    have : ¬ ask (log ++ [(s, { mtype := 2, dockId := dockId, authStringGuess := guess })])
        = true := fun h => hne ((hh log s guess).1 h)
    rw [if_neg this]
    exact ih _ _

theorem total32_eq_total (L : Nat) (h : L ≤ 12) : total32 L = (total L : Int) := by
  interval_cases L <;> decide

theorem genAuthString32_of_lt (L t : Nat) (h : (t : Int) < total32 L) :
    genAuthString32 L t = genLoop L L 0 t := by
  unfold genAuthString32
  rw [Int.tmod_eq_of_lt (Int.ofNat_nonneg t) h, Int.toNat_ofNat]

theorem genAuthString32_eq (L n : Nat) (h : L ≤ 12) :
    genAuthString32 L n = genAuthString L n := by
  unfold genAuthString32 genAuthString
  rw [total32_eq_total L h, ← Int.ofNat_tmod, Int.toNat_ofNat]

theorem tryLoop_spec (ask : Oracle) (dockId : Int) (target : List Char) (L n : Nat)
    (hh : Honest ask dockId target) :
    ∀ (k t : Nat) (log : SolverLog),
      ((∃ i, t ≤ i ∧ i < t + k ∧ genAuthString32 L i = target) ∧
          (tryLoop ask (n + 1) dockId L k t log).1 = some target) ∨
        ((∀ i, t ≤ i → i < t + k → genAuthString32 L i ≠ target) ∧
          (tryLoop ask (n + 1) dockId L k t log).1 = none) := by
  intro k
  induction k with
  | zero =>
    intro t log
    right
    exact ⟨fun i h1 h2 => absurd h2 (by omega), rfl⟩
  | succ k ih =>
    intro t log
    by_cases hg : genAuthString32 L t = target
    · left
      refine ⟨⟨t, le_refl _, by omega, hg⟩, ?_⟩
      simp only [tryLoop]
      rw [hg, if_pos (solverLoop_hit ask dockId target hh n 0 log)]
    · have hmiss := solverLoop_miss ask dockId target _ hh hg (n + 1) 0 log
      have hstep : tryLoop ask (n + 1) dockId L (k + 1) t log =
          tryLoop ask (n + 1) dockId L k (t + 1)
            (solverLoop ask dockId (genAuthString32 L t) (n + 1) 0 log).2 := by
        simp only [tryLoop]
        rw [if_neg (by rw [hmiss]; simp)]
      rw [hstep]
      rcases ih (t + 1) (solverLoop ask dockId (genAuthString32 L t) (n + 1) 0 log).2 with
        ⟨⟨i, h1, h2, h3⟩, h4⟩ | ⟨h1, h2⟩
      · left
        exact ⟨⟨i, by omega, by omega, h3⟩, h4⟩
      · right
        refine ⟨fun i hi1 hi2 => ?_, h2⟩
        rcases Nat.eq_or_lt_of_le hi1 with h | h
        · exact h ▸ hg
        · exact h1 i h (by omega)

/-- What the search of `authenticate` finds with honest solvers: for a ship that
is not yet authenticated and has positive search length `L`, and at least one
solver, it succeeds if and only if some index below the 32-bit count
`maxTries = total32 L` generates the target; on success the target is written
and the ship is marked authenticated, on failure the ship is unchanged. -/
theorem search_completeness_int (ask : Oracle) (w : World) (ship : Ship) (target : List Char)
    (hauth : ship.authDone = false)
    (hL : ship.lastCargoTimestep - ship.dockedTime > 0)
    (hs : 1 ≤ w.numSolvers)
    (hh : Honest ask ship.assignedDock target) :
    ((authenticate ask w ship).1 = true ↔
      ∃ i, i < (total32 (authLength ship)).toNat ∧
        genAuthString32 (authLength ship) i = target) ∧
    ((authenticate ask w ship).1 = true →
      (authenticate ask w ship).2.1.authStrings =
          w.authStrings.set ship.assignedDock.toNat target ∧
        (authenticate ask w ship).2.2 = { ship with authDone := true }) ∧
    ((authenticate ask w ship).1 = false →
      (authenticate ask w ship).2.2 = ship ∧
        (authenticate ask w ship).2.1.authStrings = w.authStrings) := by
  obtain ⟨n, hn⟩ : ∃ n, w.numSolvers = n + 1 := ⟨w.numSolvers - 1, by omega⟩
  have h1 : ¬ ship.authDone = true := by simp [hauth]
  have h2 : ¬ ship.lastCargoTimestep - ship.dockedTime ≤ 0 := by omega
  unfold authenticate
  rw [if_neg h1, if_neg h2, hn]
  simp only [authLength]
  rcases tryLoop_spec ask ship.assignedDock target
      (ship.lastCargoTimestep - ship.dockedTime).toNat n hh
      (total32 (ship.lastCargoTimestep - ship.dockedTime).toNat).toNat 0
      (notifyLoop ship.assignedDock (n + 1) 0 w.solverLog) with ⟨⟨i, _, hi, hg⟩, hr⟩ | ⟨hno, hr⟩
  · rw [hr]
    refine ⟨⟨fun _ => ⟨i, by omega, hg⟩, fun _ => rfl⟩, fun _ => ⟨rfl, rfl⟩, fun h => ?_⟩
    simp at h
  · rw [hr]
    refine ⟨⟨fun h => by simp at h, fun ⟨i, hi, hg⟩ => ?_⟩, fun h => by simp at h,
      fun _ => ⟨rfl, rfl⟩⟩
    exact absurd hg (hno i (Nat.zero_le _) (by omega))

/-- Search completeness where the candidate count is in range: for search length
at most 12 the search with honest solvers succeeds if and only if some index
below the exact count `total L` generates the target; on success the target is
written and the ship is marked authenticated, on failure the ship is
unchanged. -/
theorem search_completeness_in_range (ask : Oracle) (w : World) (ship : Ship)
    (target : List Char) (hauth : ship.authDone = false)
    (hL : ship.lastCargoTimestep - ship.dockedTime > 0)
    (hL12 : authLength ship ≤ 12) (hs : 1 ≤ w.numSolvers)
    (hh : Honest ask ship.assignedDock target) :
    ((authenticate ask w ship).1 = true ↔
      ∃ i, i < total (authLength ship) ∧ genAuthString (authLength ship) i = target) ∧
    ((authenticate ask w ship).1 = true →
      (authenticate ask w ship).2.1.authStrings =
          w.authStrings.set ship.assignedDock.toNat target ∧
        (authenticate ask w ship).2.2 = { ship with authDone := true }) ∧
    ((authenticate ask w ship).1 = false →
      (authenticate ask w ship).2.2 = ship ∧
        (authenticate ask w ship).2.1.authStrings = w.authStrings) := by
  obtain ⟨h1, h2, h3⟩ := search_completeness_int ask w ship target hauth hL hs hh
  refine ⟨?_, h2, h3⟩
  rw [h1, total32_eq_total _ hL12, Int.toNat_ofNat]
  constructor
  · rintro ⟨i, hi, hg⟩
    exact ⟨i, hi, by rw [← genAuthString32_eq _ _ hL12]; exact hg⟩
  · rintro ⟨i, hi, hg⟩
    exact ⟨i, hi, by rw [genAuthString32_eq _ _ hL12]; exact hg⟩

/-- C2 (evaluation of the code).  The ship `shipL13` is not yet authenticated and
has search length 13; the pool of `worldL13` has two solvers, which answer
"correct" exactly for `target13`.  Index 1813985280 is below the exact count `total 13` and
generates `target13`, so the claim says the search succeeds.  The program's
bound `maxTries` is the 32-bit product, which wraps to 479991808; no index
below it generates `target13`, and `authenticate` returns failure and leaves
the ship unauthenticated. -/
theorem C2_overflow_at_length_13 :
    shipL13.authDone = false ∧ shipL13.lastCargoTimestep - shipL13.dockedTime > 0 ∧
    authLength shipL13 = 13 ∧ 1 ≤ worldL13.numSolvers ∧
    Honest (honestOracle target13) shipL13.assignedDock target13 ∧
    Conforms 13 target13 ∧
    (1813985280 < total 13 ∧ genAuthString 13 1813985280 = target13) ∧
    (∃ i, i < total (authLength shipL13) ∧ genAuthString (authLength shipL13) i = target13) ∧
    total32 13 = 479991808 ∧
    (authenticate (honestOracle target13) worldL13 shipL13).1 = false ∧
    (authenticate (honestOracle target13) worldL13 shipL13).2.2 = shipL13 ∧
    ¬ ((authenticate (honestOracle target13) worldL13 shipL13).1 = true ↔
        ∃ i, i < total (authLength shipL13) ∧
          genAuthString (authLength shipL13) i = target13) := by
  have hidx : 1813985280 < total 13 ∧ genAuthString 13 1813985280 = target13 := by decide
  have hgen : genLoop 13 13 0 1813985280 = target13 := by decide
  have hex : ∃ i, i < total (authLength shipL13) ∧
      genAuthString (authLength shipL13) i = target13 := ⟨1813985280, hidx.1, hidx.2⟩
  have h32 : total32 13 = 479991808 := by decide
  have hhon := honestOracle_honest shipL13.assignedDock target13
  have hspec := search_completeness_int (honestOracle target13) worldL13 shipL13 target13
    (by decide) (by decide) (by decide) hhon
  have hfail : (authenticate (honestOracle target13) worldL13 shipL13).1 = false := by
    cases hb : (authenticate (honestOracle target13) worldL13 shipL13).1 with
    | false => rfl
    | true =>
      exfalso
      obtain ⟨i, hi, hg⟩ := hspec.1.1 hb
      have hL : authLength shipL13 = 13 := by decide
      rw [hL, h32] at hi
      rw [hL] at hg
      have hi2 : i < 479991808 := by simpa using hi
      rw [genAuthString32_of_lt 13 i (by rw [h32]; omega), ← hgen] at hg
      have htot : totalLoop 13 13 0 1 = 9069926400 := by decide
      have := genLoop_inj 13 13 0 i 1813985280 (by rw [htot]; omega) (by rw [htot]; omega) hg
      omega
  have hconf : Conforms 13 target13 := by
    rw [conforms_iff]
    refine ⟨by decide, ?_⟩
    rw [← hgen]
    exact genLoop_conf 13 13 0 _
  refine ⟨by decide, by decide, by decide, by decide, hhon, hconf, hidx, hex, h32, hfail,
    (hspec.2.2 hfail).1, ?_⟩
  intro hiff
  have := hiff.2 hex
  rw [hfail] at this
  exact absurd this (by simp)

/-! ### Lemmas on the cargo dispatcher -/

theorem findCrane_spec (dk : Dock) (used : List Nat) (size : Int) :
    ∀ k c0, c0 + k = dk.numCranes →
      (∃ c, findCrane dk used size k c0 = some c ∧ c0 ≤ c ∧ c < dk.numCranes ∧ c ∉ used ∧
          dk.craneCapacities.getD c 0 ≥ size ∧
          ∀ e, c0 ≤ e → e < c → e ∈ used ∨ dk.craneCapacities.getD e 0 < size) ∨
        (findCrane dk used size k c0 = none ∧
          ∀ e, c0 ≤ e → e < dk.numCranes → e ∈ used ∨ dk.craneCapacities.getD e 0 < size) := by
  intro k
  induction k with
  | zero =>
    intro c0 h
    right
    exact ⟨rfl, fun e h1 h2 => absurd h2 (by omega)⟩
  | succ k ih =>
    intro c0 h
    by_cases hc : c0 ∉ used ∧ dk.craneCapacities.getD c0 0 ≥ size
    · left
      refine ⟨c0, by simp only [findCrane, if_pos hc], le_refl _, by omega, hc.1, hc.2, ?_⟩
      intro e h1 h2
      omega
    · have hc0 : c0 ∈ used ∨ dk.craneCapacities.getD c0 0 < size := by
        by_cases hu : c0 ∈ used
        · exact Or.inl hu
        · right
          by_contra hlt
          exact hc ⟨hu, by omega⟩
      have hstep : findCrane dk used size (k + 1) c0 = findCrane dk used size k (c0 + 1) := by
        simp only [findCrane, if_neg hc]
      rw [hstep]
      rcases ih (c0 + 1) (by omega) with ⟨c, h1, h2, h3, h4, h5, h6⟩ | ⟨h1, h2⟩
      · left
        refine ⟨c, h1, by omega, h3, h4, h5, fun e he1 he2 => ?_⟩
        rcases Nat.eq_or_lt_of_le he1 with h | h
        · exact h ▸ hc0
        · exact h6 e h he2
      · right
        refine ⟨h1, fun e he1 he2 => ?_⟩
        rcases Nat.eq_or_lt_of_le he1 with h | h
        · exact h ▸ hc0
        · exact h2 e h he2

theorem cargoLoop_spec (dk : Dock) (dockId T : Int) :
    ∀ (k : Nat) (used : List Nat) (log : List MessageStruct) (ship : Ship),
      ∃ cs : List Nat,
        cargoLoop dk dockId T k used log ship =
          (log ++ cargoMsgs dockId ship.shipId ship.direction ship.cargoProcessed cs,
            { ship with
              cargoProcessed := ship.cargoProcessed + cs.length
              lastCargoTimestep := if cs.length = 0 then ship.lastCargoTimestep else T }) ∧
        FirstFit dk ship.cargo used ship.cargoProcessed cs ∧
        cs.length ≤ k ∧
        (cs.length = k ∨ ∀ e, e < dk.numCranes →
          (e ∈ used ∨ e ∈ cs) ∨
            dk.craneCapacities.getD e 0 < ship.cargo.getD (ship.cargoProcessed + cs.length) 0) := by
  intro k
  induction k with
  | zero =>
    intro used log ship
    exact ⟨[], by simp [cargoLoop, cargoMsgs], trivial, le_refl _, Or.inl rfl⟩
  | succ k ih =>
    intro used log ship
    rcases findCrane_spec dk used (ship.cargo.getD ship.cargoProcessed 0) dk.numCranes 0
        (by omega) with ⟨c, h1, _, h3, h4, h5, h6⟩ | ⟨h1, h2⟩
    · obtain ⟨cs, e1, e2, e3, e4⟩ := ih (c :: used)
        (log ++ [{ mtype := 4, dockId := dockId, shipId := ship.shipId,
                   direction := ship.direction, cargoId := ship.cargoProcessed, craneId := c }])
        { ship with cargoProcessed := ship.cargoProcessed + 1, lastCargoTimestep := T }
      refine ⟨c :: cs, ?_, ?_, ?_, ?_⟩
      · simp only [cargoLoop, h1, e1]
        simp [cargoMsgs, Nat.add_assoc, Nat.add_comm 1 cs.length]
      · exact ⟨h3, h4, h5, fun e he => h6 e (Nat.zero_le _) he, e2⟩
      · simp only [List.length_cons]; omega
      · rcases e4 with e4 | e4
        · left; simp only [List.length_cons]; omega
        · right
          intro e he
          rcases e4 e he with (h | h) | h
          · rcases List.mem_cons.1 h with h | h
            · exact Or.inl (Or.inr (h ▸ List.mem_cons_self _ _))
            · exact Or.inl (Or.inl h)
          · exact Or.inl (Or.inr (List.mem_cons_of_mem _ h))
          · right
            simpa [Nat.add_assoc, Nat.add_comm 1 cs.length] using h
    · refine ⟨[], by simp only [cargoLoop, h1]; simp [cargoMsgs], trivial, Nat.zero_le _,
        Or.inr ?_⟩
      intro e he
      rcases h2 e (Nat.zero_le _) he with h | h
      · exact Or.inl (Or.inl h)
      · exact Or.inr (by simpa using h)

theorem firstFit_index (dk : Dock) (cargo : List Int) :
    ∀ (cs used : List Nat) (i : Nat), FirstFit dk cargo used i cs →
      ∀ j (hj : j < cs.length),
        cs[j] < dk.numCranes ∧ cs[j] ∉ used ∧ cs[j] ∉ cs.take j ∧
          dk.craneCapacities.getD cs[j] 0 ≥ cargo.getD (i + j) 0 ∧
          ∀ e, e < cs[j] →
            (e ∈ used ∨ e ∈ cs.take j) ∨ dk.craneCapacities.getD e 0 < cargo.getD (i + j) 0 := by
  intro cs
  induction cs with
  | nil => intro used i _ j hj; simp at hj
  | cons c cs ih =>
    intro used i h j hj
    obtain ⟨h1, h2, h3, h4, h5⟩ := h
    cases j with
    | zero =>
      refine ⟨h1, h2, by simp, by simpa using h3, fun e he => ?_⟩
      rcases h4 e (by simpa using he) with h | h
      · exact Or.inl (Or.inl h)
      · exact Or.inr (by simpa using h)
    | succ j =>
      obtain ⟨a1, a2, a3, a4, a5⟩ := ih (c :: used) (i + 1) h5 j (by simpa using hj)
      simp only [List.getElem_cons_succ, List.take_succ_cons, List.mem_cons, not_or] at *
      refine ⟨a1, a2.2, ⟨a2.1, a3⟩, by simpa [Nat.add_assoc, Nat.add_comm 1 j] using a4,
        fun e he => ?_⟩
      rcases a5 e he with (h | h) | h
      · rcases h with h | h
        · exact Or.inl (Or.inr (Or.inl h))
        · exact Or.inl (Or.inl h)
      · exact Or.inl (Or.inr (Or.inr h))
      · exact Or.inr (by simpa [Nat.add_assoc, Nat.add_comm 1 j] using h)

theorem firstFit_nodup (dk : Dock) (cargo : List Int) :
    ∀ (cs used : List Nat) (i : Nat), FirstFit dk cargo used i cs →
      cs.Nodup ∧ (∀ c, c ∈ cs → c ∉ used ∧ c < dk.numCranes) := by
  intro cs
  induction cs with
  | nil => intro used i _; simp
  | cons c cs ih =>
    intro used i h
    obtain ⟨h1, h2, _, _, h5⟩ := h
    obtain ⟨a1, a2⟩ := ih (c :: used) (i + 1) h5
    refine ⟨List.nodup_cons.2 ⟨fun hc => (a2 c hc).1 (List.mem_cons_self _ _), a1⟩, ?_⟩
    intro e he
    rcases List.mem_cons.1 he with h | h
    · exact h ▸ ⟨h2, h1⟩
    · exact ⟨fun hu => (a2 e h).1 (List.mem_cons_of_mem _ hu), (a2 e h).2⟩

theorem nodup_length_le (cs : List Nat) (n : Nat) (hn : cs.Nodup) (hlt : ∀ c, c ∈ cs → c < n) :
    cs.length ≤ n := by
  have h1 : cs.toFinset ⊆ Finset.range n := by
    intro c hc
    exact Finset.mem_range.2 (hlt c (List.mem_toFinset.1 hc))
  have h2 := Finset.card_le_card h1
  rwa [List.toFinset_card_of_nodup hn, Finset.card_range] at h2

/-- C7 (amended). Cargo dispatch is strictly in-order first-fit.  For a docked,
unserviced ship with `currentTimestep > dockedTime` and processed counter `p`,
one call of `processCargo` handles a contiguous run of items `p .. p+k-1`
(`k = cs.length`): it sends exactly the notifications for these items in order;
item `p+j` gets the lowest-index crane of the assigned dock that was not given
to items `p .. p+j-1` and whose capacity is at least `cargo[p+j]`; the cranes
are pairwise distinct, so `k ≤ numCranes`; the run ends at the first item for
which no unused crane suffices, or when the cargo is exhausted; afterwards
`cargoProcessed = p + k`, and `lastCargoTimestep` is `currentTimestep` if
`k > 0` and is unchanged if `k = 0`. -/
theorem C7_processCargo_first_fit (w : World) (ship : Ship)
    (hd : ship.isDocked = true) (hs : ship.isServiced = false)
    (ht : w.currentTimestep > ship.dockedTime) :
    ∃ cs : List Nat,
      (processCargo w ship).1 =
        { w with mainLog := w.mainLog ++
            cargoMsgs ship.assignedDock ship.shipId ship.direction ship.cargoProcessed cs } ∧
      (processCargo w ship).2 =
        { ship with
          cargoProcessed := ship.cargoProcessed + cs.length
          lastCargoTimestep :=
            if cs.length = 0 then ship.lastCargoTimestep else w.currentTimestep } ∧
      (∀ j (hj : j < cs.length),
        cs[j] < (w.dock ship.assignedDock.toNat).numCranes ∧
        (w.dock ship.assignedDock.toNat).craneCapacities.getD cs[j] 0 ≥
          ship.cargo.getD (ship.cargoProcessed + j) 0 ∧
        cs[j] ∉ cs.take j ∧
        ∀ e, e < cs[j] → e ∈ cs.take j ∨
          (w.dock ship.assignedDock.toNat).craneCapacities.getD e 0 <
            ship.cargo.getD (ship.cargoProcessed + j) 0) ∧
      cs.Nodup ∧
      cs.length ≤ (w.dock ship.assignedDock.toNat).numCranes ∧
      (cs.length = 0 ∨ ship.cargoProcessed + cs.length ≤ ship.numCargo) ∧
      (ship.numCargo ≤ ship.cargoProcessed + cs.length ∨
        ∀ e, e < (w.dock ship.assignedDock.toNat).numCranes → e ∈ cs ∨
          (w.dock ship.assignedDock.toNat).craneCapacities.getD e 0 <
            ship.cargo.getD (ship.cargoProcessed + cs.length) 0) := by
  have hg : ¬ (ship.isDocked = false ∨ ship.isServiced = true ∨
      w.currentTimestep ≤ ship.dockedTime) := by
    rw [hd, hs]; simp; omega
  obtain ⟨cs, e1, e2, e3, e4⟩ := cargoLoop_spec (w.dock ship.assignedDock.toNat)
    ship.assignedDock w.currentTimestep (ship.numCargo - ship.cargoProcessed) [] w.mainLog ship
  have hidx := firstFit_index _ _ cs [] ship.cargoProcessed e2
  have hnd := firstFit_nodup _ _ cs [] ship.cargoProcessed e2
  refine ⟨cs, ?_, ?_, ?_, hnd.1, nodup_length_le cs _ hnd.1 (fun c hc => (hnd.2 c hc).2),
    by omega, ?_⟩
  · unfold processCargo
    rw [if_neg hg]
    simp only [e1]
  · unfold processCargo
    rw [if_neg hg]
    simp only [e1]
  · intro j hj
    obtain ⟨a1, _, a3, a4, a5⟩ := hidx j hj
    refine ⟨a1, a4, a3, fun e he => ?_⟩
    rcases a5 e he with (h | h) | h
    · simp at h
    · exact Or.inl h
    · exact Or.inr h
  · rcases e4 with e4 | e4
    · left; omega
    · right
      intro e he
      rcases e4 e he with (h | h) | h
      · simp at h
      · exact Or.inl h
      · exact Or.inr h

/-- C7 (amended) on scenario A: cranes [5, 10], cargo [3, 12]; item 0 goes to
crane 0, item 1 fits no crane, and `cargoProcessed = 1`. -/
theorem C7_processCargo_first_fit_witness :
    (shipA.isDocked = true ∧ shipA.isServiced = false ∧
      worldA.currentTimestep > shipA.dockedTime) ∧
    (processCargo worldA shipA).1.mainLog =
      [{ mtype := 4, dockId := 0, shipId := 1, direction := 1, cargoId := 0, craneId := 0 }] ∧
    (processCargo worldA shipA).2.cargoProcessed = 1 ∧
    (processCargo worldA shipA).2.lastCargoTimestep = 2 ∧
    ∃ cs : List Nat,
      (processCargo worldA shipA).1 =
        { worldA with
          mainLog := worldA.mainLog ++
            (cargoMsgs shipA.assignedDock shipA.shipId shipA.direction shipA.cargoProcessed cs) } ∧
      (processCargo worldA shipA).2 =
        { shipA with
          cargoProcessed := shipA.cargoProcessed + cs.length
          lastCargoTimestep :=
            if cs.length = 0 then shipA.lastCargoTimestep else worldA.currentTimestep } ∧
      (∀ j (hj : j < cs.length),
        cs[j] < (worldA.dock shipA.assignedDock.toNat).numCranes ∧
        (worldA.dock shipA.assignedDock.toNat).craneCapacities.getD cs[j] 0 ≥
          shipA.cargo.getD (shipA.cargoProcessed + j) 0 ∧
        cs[j] ∉ cs.take j ∧
        ∀ e, e < cs[j] → e ∈ cs.take j ∨
          (worldA.dock shipA.assignedDock.toNat).craneCapacities.getD e 0 <
            shipA.cargo.getD (shipA.cargoProcessed + j) 0) ∧
      cs.Nodup ∧
      cs.length ≤ (worldA.dock shipA.assignedDock.toNat).numCranes ∧
      (cs.length = 0 ∨ shipA.cargoProcessed + cs.length ≤ shipA.numCargo) ∧
      (shipA.numCargo ≤ shipA.cargoProcessed + cs.length ∨
        ∀ e, e < (worldA.dock shipA.assignedDock.toNat).numCranes → e ∈ cs ∨
          (worldA.dock shipA.assignedDock.toNat).craneCapacities.getD e 0 <
            shipA.cargo.getD (shipA.cargoProcessed + cs.length) 0) :=
  ⟨by decide, by decide, by decide, by decide,
    C7_processCargo_first_fit worldA shipA (by decide) (by decide) (by decide)⟩

/-- C7 as stated fails: `shipA1` is docked, unserviced, docked before the current
timestep 2, and is the ship `processCargo` itself produces from `shipA`; a call
of `processCargo` at timestep 2 handles no item (`k = 0`), yet
`lastCargoTimestep` equals the current timestep afterwards. -/
theorem C7_iff_counterexample :
    (processCargo worldA shipA).2 = shipA1 ∧
    shipA1.isDocked = true ∧ shipA1.isServiced = false ∧
    worldA.currentTimestep > shipA1.dockedTime ∧
    (processCargo worldA shipA1).2.cargoProcessed = shipA1.cargoProcessed ∧
    (processCargo worldA shipA1).2.lastCargoTimestep = worldA.currentTimestep ∧
    ¬ ((processCargo worldA shipA1).2.lastCargoTimestep = worldA.currentTimestep ↔
        0 < (processCargo worldA shipA1).2.cargoProcessed - shipA1.cargoProcessed) := by
  decide

/-! ### Lemmas on loops over the ships -/

theorem forShips_length (f : World → Ship → World × Ship) :
    ∀ (ss : List Ship) (w : World), (forShips f w ss).2.length = ss.length := by
  intro ss
  induction ss with
  | nil => intro w; rfl
  | cons s rest ih => intro w; simp [forShips, ih]

theorem forShips_append (f : World → Ship → World × Ship) :
    ∀ (a b : List Ship) (w : World),
      forShips f w (a ++ b) =
        ((forShips f (forShips f w a).1 b).1,
          (forShips f w a).2 ++ (forShips f (forShips f w a).1 b).2) := by
  intro a
  induction a with
  | nil => intro b w; simp [forShips]
  | cons s rest ih =>
    intro b w
    have h := ih b (f w s).1
    rw [List.cons_append]
    simp only [forShips]
    rw [h]
    rfl

theorem forShips_get (f : World → Ship → World × Ship) :
    ∀ (ss : List Ship) (w : World) (i : Nat) (s : Ship), ss[i]? = some s →
      (forShips f w ss).2[i]? = some (f (forShips f w (ss.take i)).1 s).2 := by
  intro ss
  induction ss with
  | nil => intro w i s h; simp at h
  | cons s0 rest ih =>
    intro w i s h
    cases i with
    | zero =>
      simp only [List.getElem?_cons_zero, Option.some.injEq] at h
      subst h
      simp [forShips]
    | succ i =>
      simp only [List.getElem?_cons_succ] at h
      simp only [forShips, List.getElem?_cons_succ, List.take_succ_cons]
      exact ih (f w s0).1 i s h

theorem forShips_get_none (f : World → Ship → World × Ship) (ss : List Ship) (w : World)
    (i : Nat) (h : ss[i]? = none) : (forShips f w ss).2[i]? = none := by
  rw [List.getElem?_eq_none_iff] at h ⊢
  rwa [forShips_length]

theorem forShips_rel (f : World → Ship → World × Ship) (R : World → World → Prop)
    (hrefl : ∀ w, R w w) (htrans : ∀ a b c, R a b → R b c → R a c)
    (hstep : ∀ w s, R w (f w s).1) :
    ∀ (ss : List Ship) (w : World), R w (forShips f w ss).1 := by
  intro ss
  induction ss with
  | nil => intro w; exact hrefl w
  | cons s rest ih =>
    intro w
    exact htrans _ _ _ (hstep w s) (ih (f w s).1)

theorem forShips_rel_take (f : World → Ship → World × Ship) (R : World → World → Prop)
    (hrefl : ∀ w, R w w) (htrans : ∀ a b c, R a b → R b c → R a c)
    (hstep : ∀ w s, R w (f w s).1) (ss : List Ship) (w : World) (i : Nat) :
    R (forShips f w (ss.take i)).1 (forShips f w ss).1 := by
  have h := forShips_append f (ss.take i) (ss.drop i) w
  rw [List.take_append_drop] at h
  rw [h]
  exact forShips_rel f R hrefl htrans hstep _ _

theorem forShips_forall (f : World → Ship → World × Ship) (Q : Ship → Prop)
    (hbody : ∀ w s, Q s → Q (f w s).2) :
    ∀ (ss : List Ship) (w : World), (∀ s, s ∈ ss → Q s) →
      ∀ s, s ∈ (forShips f w ss).2 → Q s := by
  intro ss
  induction ss with
  | nil => intro w _ s hs; simp [forShips] at hs
  | cons s0 rest ih =>
    intro w h s hs
    simp only [forShips, List.mem_cons] at hs
    rcases hs with hs | hs
    · exact hs ▸ hbody w s0 (h s0 (List.mem_cons_self _ _))
    · exact ih _ (fun t ht => h t (List.mem_cons_of_mem _ ht)) s hs

theorem forShips_inv (f : World → Ship → World × Ship) (P : World → List Ship → Prop)
    (hstep : ∀ w pre s post, P w (pre ++ s :: post) → P (f w s).1 (pre ++ (f w s).2 :: post)) :
    ∀ (ss pre : List Ship) (w : World), P w (pre ++ ss) →
      P (forShips f w ss).1 (pre ++ (forShips f w ss).2) := by
  intro ss
  induction ss with
  | nil => intro pre w h; simpa [forShips] using h
  | cons s rest ih =>
    intro pre w h
    have h1 := hstep w pre s rest h
    have h2 := ih (pre ++ [(f w s).2]) (f w s).1 (by simpa using h1)
    simpa [forShips] using h2

/-! ### The shape of the results of the operations -/

theorem processCargo_shape (w : World) (s : Ship) :
    ∃ (msgs : List MessageStruct) (k : Nat) (lt : Int),
      processCargo w s =
        ({ w with mainLog := w.mainLog ++ msgs },
          { s with cargoProcessed := s.cargoProcessed + k, lastCargoTimestep := lt }) := by
  unfold processCargo
  split
  · exact ⟨[], 0, s.lastCargoTimestep, by simp⟩
  · obtain ⟨cs, e1, _⟩ := cargoLoop_spec (w.dock s.assignedDock.toNat) s.assignedDock
      w.currentTimestep (s.numCargo - s.cargoProcessed) [] w.mainLog s
    exact ⟨cargoMsgs s.assignedDock s.shipId s.direction s.cargoProcessed cs, cs.length,
      if cs.length = 0 then s.lastCargoTimestep else w.currentTimestep, by simp only [e1]⟩

theorem authenticate_shape (ask : Oracle) (w : World) (s : Ship) :
    ∃ (strs : List (List Char)) (sl : SolverLog),
      (authenticate ask w s).2.1 = { w with authStrings := strs, solverLog := sl } ∧
      (authenticate ask w s).2.2 =
        { s with authDone := (s.authDone || (authenticate ask w s).1) } := by
  unfold authenticate
  split
  · next h => exact ⟨w.authStrings, w.solverLog, rfl, by cases s; simp_all⟩
  · next h =>
    have h0 : s.authDone = false := by simpa using h
    split
    · exact ⟨w.authStrings, w.solverLog, rfl, by cases s; simp_all⟩
    · simp only []
      split
      · exact ⟨_, _, rfl, by simp⟩
      · exact ⟨w.authStrings, _, rfl, by cases s; simp_all⟩

theorem undockShip_dock_self (w : World) (s : Ship) (n : Nat) (hn : n < w.docks.length)
    (hs : s.assignedDock = n) :
    (undockShip w s).1.dock n =
      { w.dock n with isOccupied := false, lastUndockTimestep := w.currentTimestep } := by
  simp only [undockShip, World.dock, hs, Int.toNat_ofNat]
  exact World.dock_set_self w n _ hn

theorem undockShip_dock_ne (w : World) (s : Ship) (n e : Nat)
    (hs : s.assignedDock = n) (hne : e ≠ n) :
    (undockShip w s).1.dock e = w.dock e := by
  simp only [undockShip, World.dock, hs, Int.toNat_ofNat]
  exact World.dock_set_ne w n e _ hne

theorem undockShip_docks_length (w : World) (s : Ship) :
    (undockShip w s).1.docks.length = w.docks.length := by
  simp [undockShip]

theorem assigned_dock_self (w : World) (s : Ship) (n : Nat) (hn : n < w.docks.length) :
    (w.assigned s n).dock n = { w.dock n with isOccupied := true } :=
  World.dock_set_self w n _ hn

theorem assigned_dock_ne (w : World) (s : Ship) (n e : Nat) (hne : e ≠ n) :
    (w.assigned s n).dock e = w.dock e :=
  World.dock_set_ne w n e _ hne

theorem assigned_docks_length (w : World) (s : Ship) (n : Nat) :
    (w.assigned s n).docks.length = w.docks.length := by
  simp [World.assigned]

/-! ### The one-ship-per-dock invariant -/

theorem dockDisjoint_symm {s t : Ship} (h : DockDisjoint s t) : DockDisjoint t s :=
  fun ht hs heq => h hs ht heq.symm

theorem dockInv_mid (w : World) (pre post : List Ship) (s : Ship) :
    DockInv w (pre ++ s :: post) ↔
      ((pre ++ post).Pairwise DockDisjoint ∧ (∀ x, x ∈ pre ++ post → DockDisjoint s x)) ∧
      (∀ x, x = s ∨ x ∈ pre ++ post → x.isDocked = true →
        ∃ n : Nat, x.assignedDock = n ∧ n < w.docks.length ∧ (w.dock n).isOccupied = true) ∧
      (∀ n : Nat, n < w.docks.length → (w.dock n).isOccupied = true →
        ∃ x, (x = s ∨ x ∈ pre ++ post) ∧ x.isDocked = true ∧ x.assignedDock = n) := by
  have hm : ∀ x, x ∈ pre ++ s :: post ↔ (x = s ∨ x ∈ pre ++ post) := by
    intro x
    simp only [List.mem_append, List.mem_cons]
    tauto
  unfold DockInv
  rw [List.pairwise_middle (fun h => dockDisjoint_symm h), List.pairwise_cons]
  simp only [hm]
  tauto

theorem dockInv_frame (w w1 : World) (pre post : List Ship) (s s1 : Ship)
    (hw : w1.docks = w.docks) (h1 : s1.isDocked = s.isDocked)
    (h2 : s1.assignedDock = s.assignedDock) (h : DockInv w (pre ++ s :: post)) :
    DockInv w1 (pre ++ s1 :: post) := by
  rw [dockInv_mid] at h ⊢
  obtain ⟨⟨p1, p2⟩, p3, p4⟩ := h
  have hd : ∀ n, w1.dock n = w.dock n := fun n => by simp [World.dock, hw]
  refine ⟨⟨p1, fun x hx => ?_⟩, fun x hx hxd => ?_, fun n hn ho => ?_⟩
  · intro a b
    rw [h2]
    exact p2 x hx (h1 ▸ a) b
  · rw [hw]
    simp only [hd]
    rcases hx with hx | hx
    · subst hx
      rw [h2]
      exact p3 s (Or.inl rfl) (h1 ▸ hxd)
    · exact p3 x (Or.inr hx) hxd
  · rw [hw] at hn
    rw [hd] at ho
    obtain ⟨x, hx, hxd, hxa⟩ := p4 n hn ho
    rcases hx with hx | hx
    · subst hx
      exact ⟨s1, Or.inl rfl, h1 ▸ hxd, h2 ▸ hxa⟩
    · exact ⟨x, Or.inr hx, hxd, hxa⟩

theorem dockInv_assign (w : World) (pre post : List Ship) (s : Ship) (d : Nat)
    (hs : s.isDocked = false) (hd : d < w.docks.length) (hfree : (w.dock d).isOccupied = false)
    (h : DockInv w (pre ++ s :: post)) :
    DockInv (w.assigned s d) (pre ++ s.assigned d w.currentTimestep :: post) := by
  rw [dockInv_mid] at h ⊢
  obtain ⟨⟨p1, _⟩, p3, p4⟩ := h
  have hother : ∀ x, x ∈ pre ++ post → x.isDocked = true →
      ∃ n : Nat, x.assignedDock = n ∧ n < w.docks.length ∧ (w.dock n).isOccupied = true ∧
        n ≠ d := by
    intro x hx hxd
    obtain ⟨n, a1, a2, a3⟩ := p3 x (Or.inr hx) hxd
    refine ⟨n, a1, a2, a3, fun hnd => ?_⟩
    rw [hnd, hfree] at a3
    exact absurd a3 (by simp)
  refine ⟨⟨p1, fun x hx => ?_⟩, fun x hx hxd => ?_, fun n hn ho => ?_⟩
  · intro _ hxd heq
    obtain ⟨n, a1, _, _, a4⟩ := hother x hx hxd
    simp only [Ship.assigned] at heq
    rw [a1] at heq
    exact a4 (by exact_mod_cast heq.symm)
  · rw [assigned_docks_length]
    rcases hx with hx | hx
    · subst hx
      refine ⟨d, rfl, hd, ?_⟩
      rw [assigned_dock_self w s d hd]
    · obtain ⟨n, a1, a2, a3, a4⟩ := hother x hx hxd
      exact ⟨n, a1, a2, by rw [assigned_dock_ne w s d n a4]; exact a3⟩
  · rw [assigned_docks_length] at hn
    by_cases hnd : n = d
    · subst hnd
      exact ⟨_, Or.inl rfl, rfl, rfl⟩
    · rw [assigned_dock_ne w s d n hnd] at ho
      obtain ⟨x, hx, hxd, hxa⟩ := p4 n hn ho
      rcases hx with hx | hx
      · subst hx
        rw [hs] at hxd
        exact absurd hxd (by simp)
      · exact ⟨x, Or.inr hx, hxd, hxa⟩

theorem dockInv_undock (w : World) (pre post : List Ship) (s : Ship)
    (hs : s.isDocked = true) (h : DockInv w (pre ++ s :: post)) :
    DockInv (undockShip w s).1 (pre ++ (undockShip w s).2 :: post) := by
  rw [dockInv_mid] at h ⊢
  obtain ⟨⟨p1, p2⟩, p3, p4⟩ := h
  obtain ⟨d, hd1, hd2, _⟩ := p3 s (Or.inl rfl) hs
  have hund : (undockShip w s).2.isDocked = false := rfl
  have hother : ∀ x, x ∈ pre ++ post → x.isDocked = true →
      ∃ n : Nat, x.assignedDock = n ∧ n < w.docks.length ∧ (w.dock n).isOccupied = true ∧
        n ≠ d := by
    intro x hx hxd
    obtain ⟨n, a1, a2, a3⟩ := p3 x (Or.inr hx) hxd
    refine ⟨n, a1, a2, a3, fun hnd => ?_⟩
    exact p2 x hx hs hxd (by rw [hd1, a1, hnd])
  refine ⟨⟨p1, fun x _ a => ?_⟩, fun x hx hxd => ?_, fun n hn ho => ?_⟩
  · rw [hund] at a
    exact absurd a (by simp)
  · rw [undockShip_docks_length]
    rcases hx with hx | hx
    · subst hx
      rw [hund] at hxd
      exact absurd hxd (by simp)
    · obtain ⟨n, a1, a2, a3, a4⟩ := hother x hx hxd
      exact ⟨n, a1, a2, by rw [undockShip_dock_ne w s d n hd1 a4]; exact a3⟩
  · rw [undockShip_docks_length] at hn
    by_cases hnd : n = d
    · subst hnd
      rw [undockShip_dock_self w s n hd2 hd1] at ho
      exact absurd ho (by simp)
    · rw [undockShip_dock_ne w s d n hd1 hnd] at ho
      obtain ⟨x, hx, hxd, hxa⟩ := p4 n hn ho
      rcases hx with hx | hx
      · subst hx
        rw [hd1] at hxa
        exact absurd (by exact_mod_cast hxa) (Ne.symm hnd)
      · exact ⟨x, Or.inr hx, hxd, hxa⟩

theorem dockInv_docks (w w1 : World) (ss : List Ship) (hw : w1.docks = w.docks)
    (h : DockInv w ss) : DockInv w1 ss := by
  unfold DockInv at h ⊢
  have hd : ∀ n, w1.dock n = w.dock n := fun n => by simp [World.dock, hw]
  simpa only [hw, hd] using h

theorem assignDock_dockInv (w : World) (pre post : List Ship) (s : Ship)
    (hs : s.isDocked = false) (h : DockInv w (pre ++ s :: post)) :
    DockInv (assignDock w s).2.1 (pre ++ (assignDock w s).2.2 :: post) := by
  rcases assignDock_spec w s with ⟨d, hfe, heq⟩ | ⟨_, heq⟩
  · rw [heq]
    exact dockInv_assign w pre post s d hs hfe.1 hfe.2.1.1 h
  · rw [heq]
    exact h

theorem emergencyBody_dockInv (w : World) (pre : List Ship) (s : Ship) (post : List Ship)
    (h : DockInv w (pre ++ s :: post)) :
    DockInv (emergencyBody w s).1 (pre ++ (emergencyBody w s).2 :: post) := by
  unfold emergencyBody
  split
  · next hg => exact assignDock_dockInv w pre post s hg.2.2.2.1 h
  · exact h

theorem regularBody_dockInv (w : World) (pre : List Ship) (s : Ship) (post : List Ship)
    (h : DockInv w (pre ++ s :: post)) :
    DockInv (regularBody w s).1 (pre ++ (regularBody w s).2 :: post) := by
  unfold regularBody
  split
  · next hg =>
    split
    · split
      · exact assignDock_dockInv w pre post s hg.2.1 h
      · exact dockInv_frame w w pre post s _ rfl rfl rfl h
    · exact assignDock_dockInv w pre post s hg.2.1 h
  · exact h

theorem processCargo_dockInv (w : World) (pre : List Ship) (s : Ship) (post : List Ship)
    (h : DockInv w (pre ++ s :: post)) :
    DockInv (processCargo w s).1 (pre ++ (processCargo w s).2 :: post) := by
  obtain ⟨msgs, k, lt, heq⟩ := processCargo_shape w s
  rw [heq]
  exact dockInv_frame w _ pre post s _ rfl rfl rfl h

theorem releaseBody_dockInv (ask : Oracle) (w : World) (pre : List Ship) (s : Ship)
    (post : List Ship) (h : DockInv w (pre ++ s :: post)) :
    DockInv (releaseBody ask w s).1 (pre ++ (releaseBody ask w s).2 :: post) := by
  obtain ⟨strs, sl, e1, e2⟩ := authenticate_shape ask w s
  have h1 : DockInv (authenticate ask w s).2.1 (pre ++ (authenticate ask w s).2.2 :: post) := by
    rw [e1, e2]
    exact dockInv_frame w _ pre post s _ rfl rfl rfl h
  unfold releaseBody
  split
  · next hg =>
    simp only []
    split
    · refine dockInv_undock _ pre post _ ?_ h1
      rw [e2]
      exact hg.1
    · exact h1
  · exact h

theorem ingest_spec :
    ∀ (reqs : List ShipRequest) (ships : List Ship),
      ∃ new : List Ship, ingest reqs ships = ships ++ new ∧
        ∀ x, x ∈ new → ∃ req, x = newShip req := by
  intro reqs
  induction reqs with
  | nil => intro ships; exact ⟨[], by simp [ingest], by simp⟩
  | cons req rest ih =>
    intro ships
    simp only [ingest]
    split
    · obtain ⟨new, h1, h2⟩ := ih (ships ++ [newShip req])
      refine ⟨newShip req :: new, by simpa using h1, fun x hx => ?_⟩
      rcases List.mem_cons.1 hx with h | h
      · exact ⟨req, h⟩
      · exact h2 x h
    · exact ⟨[], by simp, by simp⟩

theorem dockInv_ingest (w : World) (ships : List Ship) (reqs : List ShipRequest)
    (h : DockInv w ships) : DockInv w (ingest reqs ships) := by
  obtain ⟨new, h1, h2⟩ := ingest_spec reqs ships
  have hnew : ∀ x, x ∈ new → x.isDocked = false := by
    intro x hx
    obtain ⟨req, rfl⟩ := h2 x hx
    rfl
  rw [h1]
  obtain ⟨p1, p2, p3⟩ := h
  refine ⟨List.pairwise_append.2 ⟨p1, ?_, ?_⟩, fun x hx hxd => ?_, fun n hn ho => ?_⟩
  · exact List.Pairwise.imp_of_mem
      (fun {a b} ha _ _ hda _ => by rw [hnew a ha] at hda; exact absurd hda (by simp))
      (List.pairwise_of_forall (fun _ _ => trivial) : new.Pairwise fun _ _ => True)
  · intro a _ b hb _ hdb
    rw [hnew b hb] at hdb
    exact absurd hdb (by simp)
  · rcases List.mem_append.1 hx with hx | hx
    · exact p2 x hx hxd
    · rw [hnew x hx] at hxd
      exact absurd hxd (by simp)
  · obtain ⟨x, hx, hxd, hxa⟩ := p3 n hn ho
    exact ⟨x, List.mem_append_left _ hx, hxd, hxa⟩

theorem pass_dockInv (st : State) (f : World → Ship → World × Ship)
    (hf : ∀ w pre s post, DockInv w (pre ++ s :: post) →
      DockInv (f w s).1 (pre ++ (f w s).2 :: post))
    (h : DockInv st.w st.ships) : DockInv (st.pass f).w (st.pass f).ships := by
  have := forShips_inv f DockInv hf st.ships [] st.w (by simpa using h)
  simpa [State.pass] using this

theorem advance_dockInv (ask : Oracle) (st : State) (a : Advance)
    (h : DockInv st.w st.ships) : DockInv (advance ask st a).w (advance ask st a).ships := by
  have h1 : DockInv (ingestPhase st a).w (ingestPhase st a).ships :=
    dockInv_docks st.w _ _ rfl (dockInv_ingest st.w st.ships a.newShipRequests h)
  have h2 := pass_dockInv _ emergencyBody emergencyBody_dockInv h1
  have h3 := pass_dockInv _ regularBody regularBody_dockInv h2
  have h4 := pass_dockInv _ processCargo processCargo_dockInv h3
  have h5 := pass_dockInv _ (releaseBody ask) (releaseBody_dockInv ask) h4
  exact dockInv_docks _ _ _ rfl h5

theorem reachable_dockInv (st : State) (h : Reachable st) : DockInv st.w st.ships := by
  induction h with
  | init n cfg =>
    refine ⟨List.Pairwise.nil, fun s hs => by simp [setupIPC] at hs, fun d hd ho => ?_⟩
    simp only [setupIPC, World.dock, List.length_map] at hd ho
    rw [List.getD_eq_getElem?_getD, List.getElem?_map] at ho
    rw [List.getElem?_eq_getElem hd] at ho
    simp at ho
  | step ask st a _ _ ih => exact advance_dockInv ask st a ih

theorem stateA_reachable : Reachable stateA :=
  Reachable.step _ _ _ (Reachable.init _ _) (by decide)

/-- C4. One ship per dock: in every reachable state no two distinct ships (ships
at different positions of the `ships` array) that are docked have the same
assigned dock, and a dock is marked occupied if and only if exactly one docked
ship has it as its assigned dock. -/
theorem C4_one_ship_per_dock (st : State) (h : Reachable st) :
    (∀ (i j : Nat) (s t : Ship), st.ships[i]? = some s → st.ships[j]? = some t → i ≠ j →
      s.isDocked = true → t.isDocked = true → s.assignedDock ≠ t.assignedDock) ∧
    (∀ d : Nat, d < st.w.docks.length →
      ((st.w.dock d).isOccupied = true ↔
        ∃! i : Nat, ∃ s, st.ships[i]? = some s ∧ s.isDocked = true ∧ s.assignedDock = d)) := by
  obtain ⟨p1, p2, p3⟩ := reachable_dockInv st h
  have hpair : ∀ (i j : Nat) (s t : Ship), st.ships[i]? = some s → st.ships[j]? = some t →
      i ≠ j → s.isDocked = true → t.isDocked = true → s.assignedDock ≠ t.assignedDock := by
    intro i j s t hi hj hne hs ht
    rw [List.pairwise_iff_getElem] at p1
    obtain ⟨hi1, hi2⟩ := List.getElem?_eq_some_iff.1 hi
    obtain ⟨hj1, hj2⟩ := List.getElem?_eq_some_iff.1 hj
    rcases Nat.lt_or_gt_of_ne hne with hlt | hlt
    · have := p1 i j hi1 hj1 hlt
      rw [hi2, hj2] at this
      exact this hs ht
    · have := p1 j i hj1 hi1 hlt
      rw [hi2, hj2] at this
      exact fun heq => this ht hs heq.symm
  refine ⟨hpair, fun d hd => ⟨fun ho => ?_, fun hex => ?_⟩⟩
  · obtain ⟨s, hs, hsd, hsa⟩ := p3 d hd ho
    obtain ⟨i, hi⟩ := List.getElem?_of_mem hs
    refine ⟨i, ⟨s, hi, hsd, hsa⟩, fun j hj => ?_⟩
    obtain ⟨t, ht, htd, hta⟩ := hj
    by_contra hne
    exact hpair j i t s ht hi hne htd hsd (by rw [hta, hsa])
  · obtain ⟨i, ⟨s, hi, hsd, hsa⟩, _⟩ := hex
    obtain ⟨n, a1, _, a3⟩ := p2 s (List.getElem?_mem hi) hsd
    have : n = d := by
      rw [hsa] at a1
      exact_mod_cast a1.symm
    rw [← this]
    exact a3

/-- C4 on the state reached in scenario A after the first iteration. -/
theorem C4_one_ship_per_dock_witness :
    Reachable stateA ∧
    ((∀ (i j : Nat) (s t : Ship), stateA.ships[i]? = some s → stateA.ships[j]? = some t →
      i ≠ j → s.isDocked = true → t.isDocked = true → s.assignedDock ≠ t.assignedDock) ∧
    (∀ d : Nat, d < stateA.w.docks.length →
      ((stateA.w.dock d).isOccupied = true ↔
        ∃! i : Nat, ∃ s, stateA.ships[i]? = some s ∧ s.isDocked = true ∧
          s.assignedDock = d))) :=
  ⟨Reachable.step _ _ _ (Reachable.init _ _) (by decide),
    C4_one_ship_per_dock stateA (Reachable.step _ _ _ (Reachable.init _ _) (by decide))⟩

/-! ### Frame properties -/

theorem getD_set_dock (l : List Dock) (d n : Nat) (x : Dock) :
    (l.set d x).getD n zeroDock =
      if n = d ∧ d < l.length then x else l.getD n zeroDock := by
  by_cases h : n = d
  · subst h
    by_cases hl : n < l.length
    · simp [List.getD, List.getElem?_set, hl]
    · have h1 : (l.set n x)[n]? = none :=
        List.getElem?_eq_none (by rw [List.length_set]; exact not_lt.1 hl)
      have h2 : l[n]? = none := List.getElem?_eq_none (not_lt.1 hl)
      simp [List.getD, hl, h1, h2]
  · simp [List.getD, List.getElem?_set, h, Ne.symm h]

theorem assigned_dock (w : World) (s : Ship) (d n : Nat) :
    (w.assigned s d).dock n =
      if n = d ∧ d < w.docks.length then { w.dock d with isOccupied := true } else w.dock n :=
  getD_set_dock w.docks d n _

theorem undockShip_dock (w : World) (s : Ship) (n : Nat) :
    (undockShip w s).1.dock n =
      if n = s.assignedDock.toNat ∧ s.assignedDock.toNat < w.docks.length then
        { w.dock s.assignedDock.toNat with
          isOccupied := false, lastUndockTimestep := w.currentTimestep }
      else w.dock n :=
  getD_set_dock w.docks _ n _

theorem frame_refl (w : World) : Frame w w := ⟨rfl, rfl, rfl, fun _ => ⟨rfl, rfl, rfl⟩⟩

theorem frame_trans (a b c : World) (h1 : Frame a b) (h2 : Frame b c) : Frame a c :=
  ⟨h2.1.trans h1.1, h2.2.1.trans h1.2.1, h2.2.2.1.trans h1.2.2.1, fun n =>
    ⟨((h2.2.2.2 n).1).trans (h1.2.2.2 n).1, ((h2.2.2.2 n).2.1).trans (h1.2.2.2 n).2.1,
      ((h2.2.2.2 n).2.2).trans (h1.2.2.2 n).2.2⟩⟩

theorem frame_of_docks (w w1 : World) (h1 : w1.currentTimestep = w.currentTimestep)
    (h2 : w1.numSolvers = w.numSolvers) (h3 : w1.docks = w.docks) : Frame w w1 :=
  ⟨h1, h2, by rw [h3], fun n => by simp [World.dock, h3]⟩

theorem allocStep_refl (w : World) : AllocStep w w := ⟨frame_refl w, fun _ => ⟨rfl, id⟩⟩

theorem allocStep_trans (a b c : World) (h1 : AllocStep a b) (h2 : AllocStep b c) :
    AllocStep a c :=
  ⟨frame_trans a b c h1.1 h2.1, fun n =>
    ⟨((h2.2 n).1).trans (h1.2 n).1, fun h => (h2.2 n).2 ((h1.2 n).2 h)⟩⟩

theorem assigned_allocStep (w : World) (s : Ship) (d : Nat) : AllocStep w (w.assigned s d) := by
  refine ⟨⟨rfl, rfl, assigned_docks_length w s d, fun n => ?_⟩, fun n => ?_⟩
  · rw [assigned_dock]
    split
    · next h => rw [h.1]; exact ⟨rfl, rfl, rfl⟩
    · exact ⟨rfl, rfl, rfl⟩
  · rw [assigned_dock]
    split
    · next h => rw [h.1]; exact ⟨rfl, fun _ => rfl⟩
    · exact ⟨rfl, id⟩

theorem assignDock_allocStep (w : World) (s : Ship) : AllocStep w (assignDock w s).2.1 := by
  rcases assignDock_spec w s with ⟨d, _, heq⟩ | ⟨_, heq⟩
  · rw [heq]; exact assigned_allocStep w s d
  · rw [heq]; exact allocStep_refl w

theorem emergencyBody_allocStep (w : World) (s : Ship) : AllocStep w (emergencyBody w s).1 := by
  unfold emergencyBody
  split
  · exact assignDock_allocStep w s
  · exact allocStep_refl w

theorem regularBody_allocStep (w : World) (s : Ship) : AllocStep w (regularBody w s).1 := by
  unfold regularBody
  split
  · split
    · split
      · exact assignDock_allocStep w s
      · exact allocStep_refl w
    · exact assignDock_allocStep w s
  · exact allocStep_refl w

theorem processCargo_frame (w : World) (s : Ship) : Frame w (processCargo w s).1 := by
  obtain ⟨msgs, k, lt, heq⟩ := processCargo_shape w s
  rw [heq]
  exact frame_of_docks _ _ rfl rfl rfl

theorem undockShip_frame (w : World) (s : Ship) : Frame w (undockShip w s).1 := by
  refine ⟨rfl, rfl, undockShip_docks_length w s, fun n => ?_⟩
  rw [undockShip_dock]
  split
  · next h => rw [h.1]; exact ⟨rfl, rfl, rfl⟩
  · exact ⟨rfl, rfl, rfl⟩

theorem authenticate_frame (ask : Oracle) (w : World) (s : Ship) :
    Frame w (authenticate ask w s).2.1 := by
  obtain ⟨strs, sl, e1, _⟩ := authenticate_shape ask w s
  rw [e1]
  exact frame_of_docks _ _ rfl rfl rfl

theorem releaseBody_frame (ask : Oracle) (w : World) (s : Ship) :
    Frame w (releaseBody ask w s).1 := by
  unfold releaseBody
  split
  · simp only []
    split
    · exact frame_trans _ _ _ (authenticate_frame ask w s) (undockShip_frame _ _)
    · exact authenticate_frame ask w s
  · exact frame_refl w

theorem pass_frame (st : State) (f : World → Ship → World × Ship)
    (hf : ∀ w s, Frame w (f w s).1) : Frame st.w (st.pass f).w :=
  forShips_rel f Frame frame_refl frame_trans hf st.ships st.w

theorem worldAt_frame (f : World → Ship → World × Ship) (hf : ∀ w s, Frame w (f w s).1)
    (w : World) (ships : List Ship) (i : Nat) : Frame w (worldAt f w ships i) :=
  forShips_rel f Frame frame_refl frame_trans hf _ w

theorem pass_length (st : State) (f : World → Ship → World × Ship) :
    (st.pass f).ships.length = st.ships.length :=
  forShips_length f st.ships st.w

theorem pass_get (st : State) (f : World → Ship → World × Ship) (i : Nat) (s : Ship)
    (h : st.ships[i]? = some s) :
    (st.pass f).ships[i]? = some (f (worldAt f st.w st.ships i) s).2 :=
  forShips_get f st.ships st.w i s h

theorem pass_get_inv (st : State) (f : World → Ship → World × Ship) (i : Nat) (t : Ship)
    (h : (st.pass f).ships[i]? = some t) :
    ∃ s, st.ships[i]? = some s ∧ t = (f (worldAt f st.w st.ships i) s).2 := by
  cases hs : st.ships[i]? with
  | none =>
    have := forShips_get_none f st.ships st.w i hs
    simp only [State.pass] at h
    rw [this] at h
    exact absurd h (by simp)
  | some s =>
    have := pass_get st f i s hs
    rw [this] at h
    exact ⟨s, rfl, (Option.some.inj h).symm⟩

theorem allocPhase_frame (st : State) (a : Advance) :
    Frame (ingestPhase st a).w (allocPhase st a).w :=
  frame_trans _ _ _ (pass_frame _ _ (fun w s => (emergencyBody_allocStep w s).1))
    (pass_frame _ _ (fun w s => (regularBody_allocStep w s).1))

theorem beforeRelease_frame (st : State) (a : Advance) :
    Frame (ingestPhase st a).w (beforeRelease st a).w :=
  frame_trans _ _ _ (allocPhase_frame st a) (pass_frame _ _ processCargo_frame)

/-! ### The per-ship release invariant -/

theorem assignDock_ship (w : World) (s : Ship) :
    (∃ d, FirstEligible w s.category d ∧ (assignDock w s).2.1 = w.assigned s d ∧
        (assignDock w s).2.2 = s.assigned d w.currentTimestep) ∨
      ((∀ e, e < w.docks.length → ¬ Eligible w.currentTimestep s.category (w.dock e)) ∧
        (assignDock w s).2.1 = w ∧ (assignDock w s).2.2 = s) := by
  rcases assignDock_spec w s with ⟨d, hfe, heq⟩ | ⟨hno, heq⟩
  · left; rw [heq]; exact ⟨d, hfe, rfl, rfl⟩
  · right; rw [heq]; exact ⟨hno, rfl, rfl⟩

theorem assignDock_shipOK (w : World) (s : Ship) (hs : s.isServiced = false) (h : ShipOK s) :
    ShipOK (assignDock w s).2.2 := by
  rcases assignDock_ship w s with ⟨d, _, _, heq⟩ | ⟨_, _, heq⟩
  · rw [heq]
    refine ⟨fun h1 => ?_, fun h1 => ?_⟩
    · simp only [Ship.assigned] at h1
      rw [hs] at h1
      exact absurd h1 (by simp)
    · exact h.2 h1
  · rw [heq]; exact h

theorem emergencyBody_shipOK (w : World) (s : Ship) (h : ShipOK s) :
    ShipOK (emergencyBody w s).2 := by
  unfold emergencyBody
  split
  · next hg => exact assignDock_shipOK w s hg.2.2.2.2 h
  · exact h

theorem regularBody_shipOK (w : World) (s : Ship) (h : ShipOK s) :
    ShipOK (regularBody w s).2 := by
  unfold regularBody
  split
  · next hg =>
    split
    · split
      · exact assignDock_shipOK w s hg.2.2 h
      · refine ⟨fun h1 => ?_, fun h1 => h.2 h1⟩
        have : s.isServiced = true := h1
        rw [hg.2.2] at this
        exact absurd this (by simp)
    · exact assignDock_shipOK w s hg.2.2 h
  · exact h

theorem processCargo_serviced (w : World) (s : Ship) (hs : s.isServiced = true) :
    processCargo w s = (w, s) := by
  unfold processCargo
  rw [if_pos (Or.inr (Or.inl hs))]

theorem processCargo_shipOK (w : World) (s : Ship) (h : ShipOK s) :
    ShipOK (processCargo w s).2 := by
  by_cases hs : s.isServiced = true
  · rw [processCargo_serviced w s hs]; exact h
  · obtain ⟨msgs, k, lt, heq⟩ := processCargo_shape w s
    rw [heq]
    exact ⟨fun h1 => absurd h1 hs, fun h1 => h.2 h1⟩

theorem releaseBody_shipOK (ask : Oracle) (w : World) (s : Ship) (h : ShipOK s) :
    ShipOK (releaseBody ask w s).2 := by
  obtain ⟨strs, sl, _, e2⟩ := authenticate_shape ask w s
  unfold releaseBody
  split
  · next hg =>
    simp only []
    split
    · next ht =>
      rw [e2, ht]
      refine ⟨fun _ => ⟨rfl, by simp [undockShip], hg.2.2.1⟩, fun _ => rfl⟩
    · next ht =>
      have ht0 : (authenticate ask w s).1 = false := by simpa using ht
      rw [e2, ht0]
      refine ⟨fun h1 => ?_, fun h1 => ?_⟩
      · have : s.isServiced = true := h1
        rw [hg.2.1] at this
        exact absurd this (by simp)
      · exact h.2 (by simpa using h1)
  · exact h

theorem pass_shipOK (st : State) (f : World → Ship → World × Ship)
    (hf : ∀ w s, ShipOK s → ShipOK (f w s).2) (h : ∀ s, s ∈ st.ships → ShipOK s) :
    ∀ s, s ∈ (st.pass f).ships → ShipOK s :=
  forShips_forall f ShipOK hf st.ships st.w h

theorem ingestPhase_shipOK (st : State) (a : Advance) (h : ∀ s, s ∈ st.ships → ShipOK s) :
    ∀ s, s ∈ (ingestPhase st a).ships → ShipOK s := by
  intro s hs
  obtain ⟨new, h1, h2⟩ := ingest_spec a.newShipRequests st.ships
  simp only [ingestPhase, h1, List.mem_append] at hs
  rcases hs with hs | hs
  · exact h s hs
  · obtain ⟨req, rfl⟩ := h2 s hs
    exact ⟨fun h1 => absurd h1 (by simp [newShip]), fun h1 => absurd h1 (by simp [newShip])⟩

theorem beforeRelease_shipOK (st : State) (a : Advance) (h : ∀ s, s ∈ st.ships → ShipOK s) :
    ∀ s, s ∈ (beforeRelease st a).ships → ShipOK s :=
  pass_shipOK _ _ processCargo_shipOK
    (pass_shipOK _ _ regularBody_shipOK
      (pass_shipOK _ _ emergencyBody_shipOK (ingestPhase_shipOK st a h)))

theorem advance_shipOK (ask : Oracle) (st : State) (a : Advance)
    (h : ∀ s, s ∈ st.ships → ShipOK s) : ∀ s, s ∈ (advance ask st a).ships → ShipOK s :=
  pass_shipOK _ _ (releaseBody_shipOK ask) (beforeRelease_shipOK st a h)

theorem reachable_shipOK (st : State) (h : Reachable st) : ∀ s, s ∈ st.ships → ShipOK s := by
  induction h with
  | init n cfg => intro s hs; simp [setupIPC] at hs
  | step ask st a _ _ ih => exact advance_shipOK ask st a ih

theorem beforeRelease_time (st : State) (a : Advance) :
    (beforeRelease st a).w.currentTimestep = a.timestep :=
  (beforeRelease_frame st a).1

/-- C9. Release only after cargo and authentication.  In every reachable state
every serviced ship is not docked, has `authDone = true` and has
`cargoProcessed = numCargo`.  And if an iteration at timestep `T` undocks a
ship (docked at the start of the release pass, not docked at the end of the
iteration), then the ship's `lastCargoTimestep` is below `T` and `authenticate`,
called for it in the release pass of that iteration, returned success. -/
theorem C9_release_after_cargo_and_auth (ask : Oracle) (st : State) (a : Advance)
    (h : Reachable st) :
    (∀ s, s ∈ st.ships → s.isServiced = true →
      s.isDocked = false ∧ s.authDone = true ∧ s.cargoProcessed = s.numCargo) ∧
    (∀ (i : Nat) (m f : Ship), (beforeRelease st a).ships[i]? = some m →
      (advance ask st a).ships[i]? = some f → m.isDocked = true → f.isDocked = false →
      m.lastCargoTimestep < a.timestep ∧ f.lastCargoTimestep = m.lastCargoTimestep ∧
      m.cargoProcessed = m.numCargo ∧
      (authenticate ask
        (worldAt (releaseBody ask) (beforeRelease st a).w (beforeRelease st a).ships i) m).1
          = true ∧
      f.isServiced = true) := by
  refine ⟨fun s hs => (reachable_shipOK st h s hs).1, fun i m f hm hf hmd hfd => ?_⟩
  have hget := pass_get (beforeRelease st a) (releaseBody ask) i m hm
  have hf2 : f = (releaseBody ask
      (worldAt (releaseBody ask) (beforeRelease st a).w (beforeRelease st a).ships i) m).2 := by
    have hf1 : ((beforeRelease st a).pass (releaseBody ask)).ships[i]? = some f := hf
    rw [hget] at hf1
    exact (Option.some.inj hf1).symm
  have htime : (worldAt (releaseBody ask) (beforeRelease st a).w
      (beforeRelease st a).ships i).currentTimestep = a.timestep :=
    (worldAt_frame _ (releaseBody_frame ask) _ _ i).1.trans (beforeRelease_time st a)
  generalize worldAt (releaseBody ask) (beforeRelease st a).w (beforeRelease st a).ships i
    = wi at hf2 htime
  obtain ⟨strs, sl, _, e2⟩ := authenticate_shape ask wi m
  unfold releaseBody at hf2
  split at hf2
  · next hg =>
    simp only [] at hf2
    split at hf2
    · next ht =>
      rw [htime] at hg
      subst hf2
      exact ⟨hg.2.2.2, by rw [e2]; rfl, hg.2.2.1, ht, rfl⟩
    · subst hf2
      rw [e2] at hfd
      rw [hmd] at hfd
      exact absurd hfd (by simp)
  · subst hf2
    rw [hmd] at hfd
    exact absurd hfd (by simp)

/-- C9 on scenario B: the state after timesteps 5, 6, 7 is reachable, and the
iteration at timestep 8 undocks the ship (docked before the release pass, not
docked afterwards). -/
theorem C9_release_after_cargo_and_auth_witness :
    Reachable stateB7 ∧
    ((beforeRelease stateB7 { timestep := 8 }).ships.map (fun s => s.isDocked) = [true] ∧
      (advance yesOracle stateB7 { timestep := 8 }).ships.map (fun s => s.isDocked) = [false]) ∧
    ((∀ s, s ∈ stateB7.ships → s.isServiced = true →
      s.isDocked = false ∧ s.authDone = true ∧ s.cargoProcessed = s.numCargo) ∧
    (∀ (i : Nat) (m f : Ship),
      (beforeRelease stateB7 { timestep := 8 }).ships[i]? = some m →
      (advance yesOracle stateB7 { timestep := 8 }).ships[i]? = some f →
      m.isDocked = true → f.isDocked = false →
      m.lastCargoTimestep < ({ timestep := 8 } : Advance).timestep ∧
      f.lastCargoTimestep = m.lastCargoTimestep ∧
      m.cargoProcessed = m.numCargo ∧
      (authenticate yesOracle
        (worldAt (releaseBody yesOracle) (beforeRelease stateB7 { timestep := 8 }).w
          (beforeRelease stateB7 { timestep := 8 }).ships i) m).1 = true ∧
      f.isServiced = true)) :=
  ⟨Reachable.step _ _ _ (Reachable.step _ _ _ (Reachable.step _ _ _ (Reachable.init _ _)
      (by decide)) (by decide)) (by decide),
    by decide,
    C9_release_after_cargo_and_auth yesOracle stateB7 { timestep := 8 }
      (Reachable.step _ _ _ (Reachable.step _ _ _ (Reachable.step _ _ _ (Reachable.init _ _)
        (by decide)) (by decide)) (by decide))⟩

/-! ### Assignments made by the allocation passes -/

theorem emergencyBody_cases (w : World) (s : Ship) :
    (emergencyBody w s = (w, s) ∧
        (EmergencyGuard s →
          ∀ e, e < w.docks.length → ¬ Eligible w.currentTimestep s.category (w.dock e))) ∨
      (EmergencyGuard s ∧ ∃ d, FirstEligible w s.category d ∧
        emergencyBody w s = (w.assigned s d, s.assigned d w.currentTimestep)) := by
  unfold emergencyBody
  split
  · next hg =>
    rcases assignDock_spec w s with ⟨d, hfe, heq⟩ | ⟨hno, heq⟩
    · right; rw [heq]; exact ⟨hg, d, hfe, rfl⟩
    · left; rw [heq]; exact ⟨rfl, fun _ => hno⟩
  · next hg => left; exact ⟨rfl, fun h => absurd h hg⟩

theorem regularBody_cases (w : World) (s : Ship) :
    regularBody w s = (w, s) ∨
      (regularBody w s = (w, { s with isActive := false }) ∧
        s.isActive = true ∧ s.isDocked = false ∧ s.isServiced = false ∧
        s.direction = 1 ∧ s.emergency = 0 ∧
        ¬ w.currentTimestep ≤ s.arrivalTime + s.waitingTime) ∨
      (s.isActive = true ∧ s.isDocked = false ∧ s.isServiced = false ∧
        ∃ d, FirstEligible w s.category d ∧
          regularBody w s = (w.assigned s d, s.assigned d w.currentTimestep)) := by
  unfold regularBody
  split
  · next hg =>
    split
    · next hr =>
      split
      · rcases assignDock_spec w s with ⟨d, hfe, heq⟩ | ⟨_, heq⟩
        · right; right; rw [heq]; exact ⟨hg.1, hg.2.1, hg.2.2, d, hfe, rfl⟩
        · left; rw [heq]
      · next hc => right; left; exact ⟨rfl, hg.1, hg.2.1, hg.2.2, hr.1, hr.2, hc⟩
    · rcases assignDock_spec w s with ⟨d, hfe, heq⟩ | ⟨_, heq⟩
      · right; right; rw [heq]; exact ⟨hg.1, hg.2.1, hg.2.2, d, hfe, rfl⟩
      · left; rw [heq]
  · left; rfl

theorem regularBody_docked (w : World) (s : Ship) (h : s.isDocked = true) :
    regularBody w s = (w, s) := by
  unfold regularBody
  rw [if_neg]
  rw [h]
  simp

theorem worldAt_allocStep (f : World → Ship → World × Ship)
    (hf : ∀ w s, AllocStep w (f w s).1) (w : World) (ships : List Ship) (i : Nat) :
    AllocStep w (worldAt f w ships i) :=
  forShips_rel f AllocStep allocStep_refl allocStep_trans hf _ w

theorem pass_allocStep (st : State) (f : World → Ship → World × Ship)
    (hf : ∀ w s, AllocStep w (f w s).1) : AllocStep st.w (st.pass f).w :=
  forShips_rel f AllocStep allocStep_refl allocStep_trans hf st.ships st.w

theorem worldAt_allocStep_end (st : State) (f : World → Ship → World × Ship)
    (hf : ∀ w s, AllocStep w (f w s).1) (i : Nat) :
    AllocStep (worldAt f st.w st.ships i) (st.pass f).w :=
  forShips_rel_take f AllocStep allocStep_refl allocStep_trans hf st.ships st.w i

/-- A ship that is undocked after ingestion and docked after the two allocation
passes was given, by one call of `assignDock`, the first dock eligible in the
globals `w1` of that moment; `w1` lies between the globals after ingestion and
those after the passes. -/
theorem allocPhase_assigned (st : State) (a : Advance) (j : Nat) (s1 s3 : Ship)
    (h1 : (ingestPhase st a).ships[j]? = some s1)
    (h3 : (allocPhase st a).ships[j]? = some s3)
    (hu : s1.isDocked = false) (hd : s3.isDocked = true) :
    ∃ (w1 : World) (d : Nat),
      AllocStep (ingestPhase st a).w w1 ∧ AllocStep w1 (allocPhase st a).w ∧
      FirstEligible w1 s1.category d ∧ s3 = s1.assigned d a.timestep ∧
      (¬ EmergencyGuard s1 →
        AllocStep ((ingestPhase st a).pass emergencyBody).w w1) := by
  have hwe := worldAt_allocStep emergencyBody emergencyBody_allocStep
    (ingestPhase st a).w (ingestPhase st a).ships j
  have hwe2 := worldAt_allocStep_end (ingestPhase st a) emergencyBody emergencyBody_allocStep j
  have hwr := worldAt_allocStep regularBody regularBody_allocStep
    ((ingestPhase st a).pass emergencyBody).w ((ingestPhase st a).pass emergencyBody).ships j
  have hwr2 := worldAt_allocStep_end ((ingestPhase st a).pass emergencyBody) regularBody
    regularBody_allocStep j
  have h12 := pass_allocStep (ingestPhase st a) emergencyBody emergencyBody_allocStep
  have h23 := pass_allocStep ((ingestPhase st a).pass emergencyBody) regularBody
    regularBody_allocStep
  have g2 := pass_get (ingestPhase st a) emergencyBody j s1 h1
  have g3 := pass_get ((ingestPhase st a).pass emergencyBody) regularBody j _ g2
  have h3b : (((ingestPhase st a).pass emergencyBody).pass regularBody).ships[j]? = some s3 := h3
  rw [g3] at h3b
  have e3 := (Option.some.inj h3b).symm
  have ht1 : (ingestPhase st a).w.currentTimestep = a.timestep := rfl
  rcases emergencyBody_cases (worldAt emergencyBody (ingestPhase st a).w
      (ingestPhase st a).ships j) s1 with ⟨hE, _⟩ | ⟨hg, d, hfe, hE⟩
  · rw [hE] at e3
    rcases regularBody_cases (worldAt regularBody ((ingestPhase st a).pass emergencyBody).w
        ((ingestPhase st a).pass emergencyBody).ships j) s1 with hR | ⟨hR, _⟩ | ⟨_, _, _, d, hfe, hR⟩
    · rw [hR] at e3
      rw [e3, hu] at hd
      exact absurd hd (by simp)
    · rw [hR] at e3
      rw [e3] at hd
      simp only [] at hd
      rw [hu] at hd
      exact absurd hd (by simp)
    · rw [hR] at e3
      refine ⟨_, d, allocStep_trans _ _ _ h12 hwr, hwr2, hfe, ?_, fun _ => hwr⟩
      rw [e3, hwr.1.1, h12.1.1, ht1]
  · rw [hE] at e3
    rw [regularBody_docked _ _ rfl] at e3
    refine ⟨_, d, hwe, allocStep_trans _ _ _ hwe2 h23, hfe, ?_, fun hn => absurd hg hn⟩
    rw [e3, hwe.1.1, ht1]

/-- C10. Cooldown.  (1) In every iteration at timestep `T`, from any state
(reachable or not), every ship that the allocation passes dock is given a dock
whose last-vacated timestep, at the start of the iteration and at the moment
of the assignment, differs from `T`.  (2) `undockShip` at timestep `T` leaves
the dock unoccupied with last-vacated timestep `T`, which `assignDock` rejects
while the timestep is `T`.  (3) A dock last vacated at `T` that is unoccupied is
eligible at every timestep `T1 > T`: a ship of category at most the dock's for
which it is the first eligible dock is assigned it, in particular at `T + 1`. -/
theorem C10_cooldown :
    (∀ (st : State) (a : Advance) (j : Nat) (s1 s3 : Ship),
      (ingestPhase st a).ships[j]? = some s1 → (allocPhase st a).ships[j]? = some s3 →
      s1.isDocked = false → s3.isDocked = true →
      ∃ n : Nat, s3.assignedDock = n ∧ n < st.w.docks.length ∧
        (st.w.dock n).lastUndockTimestep ≠ a.timestep ∧
        ((allocPhase st a).w.dock n).lastUndockTimestep ≠ a.timestep) ∧
    (∀ (w : World) (s : Ship) (n : Nat) (c : Int), s.assignedDock = n → n < w.docks.length →
      ((undockShip w s).1.dock n).isOccupied = false ∧
      ((undockShip w s).1.dock n).lastUndockTimestep = w.currentTimestep ∧
      ¬ Eligible (undockShip w s).1.currentTimestep c ((undockShip w s).1.dock n)) ∧
    (∀ (w : World) (ship : Ship) (d : Nat) (T : Int), d < w.docks.length →
      (w.dock d).isOccupied = false → (w.dock d).lastUndockTimestep = T →
      ship.category ≤ (w.dock d).category →
      (∀ e, e < d → ¬ Eligible w.currentTimestep ship.category (w.dock e)) →
      (T < w.currentTimestep ∨ w.currentTimestep = T + 1) →
      assignDock w ship = (true, w.assigned ship d, ship.assigned d w.currentTimestep)) := by
  refine ⟨?_, ?_, ?_⟩
  · intro st a j s1 s3 h1 h3 hu hd
    obtain ⟨w1, d, hA, hB, hfe, hs3, _⟩ := allocPhase_assigned st a j s1 s3 h1 h3 hu hd
    have hne := hfe.2.1.2.2
    rw [hA.1.1, (hA.2 d).1] at hne
    refine ⟨d, by rw [hs3]; rfl, ?_, hne, ?_⟩
    · have := hfe.1
      rw [hA.1.2.2.1] at this
      exact this
    · rw [(hB.2 d).1, (hA.2 d).1]
      exact hne
  · intro w s n c hs hn
    rw [undockShip_dock_self w s n hn hs]
    refine ⟨rfl, rfl, fun h => ?_⟩
    exact h.2.2 rfl
  · intro w ship d T hd hf hT hc hfirst hlt
    have hel : Eligible w.currentTimestep ship.category (w.dock d) :=
      ⟨hf, hc, by rw [hT]; omega⟩
    rcases assignDock_spec w ship with ⟨d0, hfe, heq⟩ | ⟨hno, _⟩
    · have : d0 = d := by
        rcases Nat.lt_trichotomy d0 d with h | h | h
        · exact absurd hfe.2.1 (hfirst d0 h)
        · exact h
        · exact absurd hel (hfe.2.2 d h)
      rw [heq, this]
    · exact absurd hel (hno d hd)

/-! ### Emergency priority -/

theorem forShips_fix (f : World → Ship → World × Ship) (w : World) :
    ∀ (ss : List Ship), (∀ s, s ∈ ss → f w s = (w, s)) → forShips f w ss = (w, ss) := by
  intro ss
  induction ss with
  | nil => intro _; rfl
  | cons s rest ih =>
    intro h
    simp only [forShips]
    rw [h s (List.mem_cons_self _ _)]
    simp only []
    rw [ih (fun t ht => h t (List.mem_cons_of_mem _ ht))]

theorem forShips_const (f : World → Ship → World × Ship) (w : World)
    (h : ∀ s, (f w s).1 = w) :
    ∀ (ss : List Ship), forShips f w ss = (w, ss.map fun s => (f w s).2) := by
  intro ss
  induction ss with
  | nil => rfl
  | cons s rest ih =>
    simp only [forShips, List.map_cons]
    rw [h s, ih]

theorem assignDock_noFree (w : World) (s : Ship) (h : NoFree w) :
    assignDock w s = (false, w, s) := by
  rcases assignDock_spec w s with ⟨d, hfe, _⟩ | ⟨_, heq⟩
  · exact absurd ⟨hfe.2.1.1, hfe.2.1.2.2⟩ (h d hfe.1)
  · exact heq

theorem emergencyBody_noFree (w : World) (s : Ship) (h : NoFree w) :
    emergencyBody w s = (w, s) := by
  unfold emergencyBody
  split
  · rw [assignDock_noFree w s h]
  · rfl

theorem regularBody_noFree (w : World) (s : Ship) (h : NoFree w) :
    (regularBody w s).1 = w ∧ (regularBody w s).2.isDocked = s.isDocked := by
  rcases regularBody_cases w s with hR | ⟨hR, _⟩ | ⟨_, _, _, d, hfe, _⟩
  · rw [hR]; exact ⟨rfl, rfl⟩
  · rw [hR]; exact ⟨rfl, rfl⟩
  · exact absurd ⟨hfe.2.1.1, hfe.2.1.2.2⟩ (h d hfe.1)

theorem assigned_noFree (w : World) (s : Ship) (d0 : Nat) (hd : d0 < w.docks.length)
    (huniq : ∀ n, n < w.docks.length →
      (w.dock n).isOccupied = false ∧ (w.dock n).lastUndockTimestep ≠ w.currentTimestep →
      n = d0) :
    NoFree (w.assigned s d0) := by
  intro n hn hfree
  rw [assigned_docks_length] at hn
  by_cases hnd : n = d0
  · subst hnd
    rw [assigned_dock_self w s n hd] at hfree
    exact absurd hfree.1 (by simp)
  · rw [assigned_dock_ne w s d0 n hnd] at hfree
    exact hnd (huniq n hn hfree)

/-- C5. Emergency priority.  (1) In one iteration, from any state: if a ship
that passes the guard of the emergency pass after ingestion (arriving,
flagged emergency, active, undocked, unserviced) is still undocked after the
emergency and regular passes, then every ship that is not an emergency arrival
and was docked by these passes holds a dock whose category is below the
emergency ship's category, whatever the positions of the two ships in the
`ships` array.  (2) If exactly one dock `d0` is unoccupied and out of cooldown,
and `E` is the first ship passing the emergency guard and fits `d0`, then after
both passes `E` is docked at `d0` and the docked flag of every other ship,
created before or after `E`, is unchanged (so a regular ship that competes for
the dock is not docked). -/
theorem C5_emergency_priority :
    (∀ (st : State) (a : Advance) (e : Nat) (E E3 : Ship),
      (ingestPhase st a).ships[e]? = some E → EmergencyGuard E →
      (allocPhase st a).ships[e]? = some E3 → E3.isDocked = false →
      ∀ (j : Nat) (s1 s3 : Ship),
        (ingestPhase st a).ships[j]? = some s1 → (allocPhase st a).ships[j]? = some s3 →
        ¬ (s1.direction = 1 ∧ s1.emergency = 1) →
        s1.isDocked = false → s3.isDocked = true →
        ∃ n : Nat, s3.assignedDock = n ∧ n < (allocPhase st a).w.docks.length ∧
          ((allocPhase st a).w.dock n).category < E.category) ∧
    (∀ (st : State) (a : Advance) (pre post : List Ship) (E : Ship) (d0 : Nat),
      (ingestPhase st a).ships = pre ++ E :: post →
      EmergencyGuard E → (∀ s, s ∈ pre → ¬ EmergencyGuard s) →
      d0 < st.w.docks.length →
      (st.w.dock d0).isOccupied = false → (st.w.dock d0).lastUndockTimestep ≠ a.timestep →
      (∀ n, n < st.w.docks.length →
        (st.w.dock n).isOccupied = false ∧ (st.w.dock n).lastUndockTimestep ≠ a.timestep →
        n = d0) →
      E.category ≤ (st.w.dock d0).category →
      ∃ pre3 post3 : List Ship,
        (allocPhase st a).ships = pre3 ++ E.assigned d0 a.timestep :: post3 ∧
        pre3.map (fun s => s.isDocked) = pre.map (fun s => s.isDocked) ∧
        post3.map (fun s => s.isDocked) = post.map (fun s => s.isDocked)) := by
  refine ⟨?_, ?_⟩
  · intro st a e E E3 hE hg hE3 hEu j s1 s3 h1 h3 hne hu hd
    obtain ⟨w1, d, hA, hB, hfe, hs3, hC⟩ := allocPhase_assigned st a j s1 s3 h1 h3 hu hd
    have hng : ¬ EmergencyGuard s1 := fun h => hne ⟨h.1, h.2.1⟩
    have hS2 := hC hng
    -- the emergency ship was rejected when the emergency pass reached it
    have g2 := pass_get (ingestPhase st a) emergencyBody e E hE
    have g3 := pass_get ((ingestPhase st a).pass emergencyBody) regularBody e _ g2
    have h3b : (((ingestPhase st a).pass emergencyBody).pass regularBody).ships[e]?
        = some E3 := hE3
    rw [g3] at h3b
    have e3 := (Option.some.inj h3b).symm
    have hwe2 := worldAt_allocStep_end (ingestPhase st a) emergencyBody
      emergencyBody_allocStep e
    rcases emergencyBody_cases (worldAt emergencyBody (ingestPhase st a).w
        (ingestPhase st a).ships e) E with ⟨_, hno⟩ | ⟨_, d1, _, hEq⟩
    · have hno2 := hno hg
      have hW := allocStep_trans _ _ _ hwe2 hS2
      generalize worldAt emergencyBody (ingestPhase st a).w (ingestPhase st a).ships e = we
        at hno2 hW
      have hdlen : d < we.docks.length := by
        have := hfe.1
        rw [hW.1.2.2.1] at this
        exact this
      have hnotel := hno2 d hdlen
      have hocc : (we.dock d).isOccupied = false := by
        cases hb : (we.dock d).isOccupied with
        | false => rfl
        | true =>
          have := (hW.2 d).2 hb
          rw [hfe.2.1.1] at this
          exact absurd this (by simp)
      have hlu : (we.dock d).lastUndockTimestep ≠ we.currentTimestep := by
        rw [← (hW.2 d).1, ← hW.1.1]
        exact hfe.2.1.2.2
      have hcat : (we.dock d).category < E.category := by
        by_contra hc
        exact hnotel ⟨hocc, by omega, hlu⟩
      refine ⟨d, by rw [hs3]; rfl, ?_, ?_⟩
      · rw [hB.1.2.2.1]; exact hfe.1
      · rw [(hB.1.2.2.2 d).1, (hW.1.2.2.2 d).1]
        exact hcat
    · rw [hEq] at e3
      rw [regularBody_docked _ _ rfl] at e3
      rw [e3] at hEu
      exact absurd hEu (by simp [Ship.assigned])
  · intro st a pre post E d0 hships hg hpre hd0 hfree hcool huniq hcat
    have hel : Eligible a.timestep E.category (st.w.dock d0) := ⟨hfree, hcat, hcool⟩
    -- the emergency pass
    have hpass1 : forShips emergencyBody (ingestPhase st a).w (ingestPhase st a).ships =
        ((ingestPhase st a).w.assigned E d0, pre ++ E.assigned d0 a.timestep :: post) := by
      rw [hships, forShips_append]
      have hfix := forShips_fix emergencyBody (ingestPhase st a).w pre (fun s hs => by
        unfold emergencyBody
        rw [if_neg (hpre s hs)])
      rw [hfix]
      simp only [forShips]
      have hE : emergencyBody (ingestPhase st a).w E =
          ((ingestPhase st a).w.assigned E d0, E.assigned d0 a.timestep) := by
        rcases emergencyBody_cases (ingestPhase st a).w E with ⟨_, hno⟩ | ⟨_, d, hfe, hEq⟩
        · exact absurd hel (hno hg d0 hd0)
        · have : d = d0 := huniq d hfe.1 ⟨hfe.2.1.1, hfe.2.1.2.2⟩
          rw [hEq, this]
          rfl
      rw [hE]
      simp only []
      have hnf : NoFree ((ingestPhase st a).w.assigned E d0) :=
        assigned_noFree (ingestPhase st a).w E d0 hd0 huniq
      rw [forShips_fix emergencyBody _ post (fun s _ => emergencyBody_noFree _ s hnf)]
    have hnf : NoFree ((ingestPhase st a).w.assigned E d0) :=
      assigned_noFree (ingestPhase st a).w E d0 hd0 huniq
    have hpass2 := forShips_const regularBody ((ingestPhase st a).w.assigned E d0)
      (fun s => (regularBody_noFree _ s hnf).1) (pre ++ E.assigned d0 a.timestep :: post)
    refine ⟨pre.map fun s => (regularBody ((ingestPhase st a).w.assigned E d0) s).2,
      post.map fun s => (regularBody ((ingestPhase st a).w.assigned E d0) s).2, ?_, ?_, ?_⟩
    · show (forShips regularBody
        (forShips emergencyBody (ingestPhase st a).w (ingestPhase st a).ships).1
        (forShips emergencyBody (ingestPhase st a).w (ingestPhase st a).ships).2).2 = _
      rw [hpass1]
      simp only []
      rw [hpass2]
      simp only [List.map_append, List.map_cons]
      rw [regularBody_docked _ _ rfl]
    · rw [List.map_map]
      exact List.map_congr_left (fun s _ => (regularBody_noFree _ s hnf).2)
    · rw [List.map_map]
      exact List.map_congr_left (fun s _ => (regularBody_noFree _ s hnf).2)

/-- C5 on scenario C: with either creation order the emergency ship gets the only
free dock and the regular ship does not; and on a port whose only dock (category
2) is too small for the emergency ship (category 3), the regular ship of
category 2 is docked at a dock of category below 3. -/
theorem C5_emergency_priority_witness :
    ((allocPhase setupC advC).ships.map (fun s => (s.shipId, s.isDocked)) =
        [(20, false), (21, true)] ∧
      (allocPhase setupC advC1).ships.map (fun s => (s.shipId, s.isDocked)) =
        [(21, true), (20, false)]) ∧
    (∃ pre3 post3 : List Ship,
      (allocPhase setupC advC).ships =
        pre3 ++ (newShip reqEmergency).assigned 0 advC.timestep :: post3 ∧
      pre3.map (fun s => s.isDocked) = [newShip reqRegular].map (fun s => s.isDocked) ∧
      post3.map (fun s => s.isDocked) = ([] : List Ship).map (fun s => s.isDocked)) ∧
    (∃ n : Nat, ((newShip reqRegular).assigned 0 4).assignedDock = n ∧
      n < (allocPhase setupSmall advC).w.docks.length ∧
      ((allocPhase setupSmall advC).w.dock n).category < (newShip reqEmergency).category) :=
  ⟨by decide,
    C5_emergency_priority.2 setupC advC [newShip reqRegular] [] (newShip reqEmergency) 0
      (by decide) (by decide) (by decide) (by decide) (by decide) (by decide) (by decide)
      (by decide),
    C5_emergency_priority.1 setupSmall advC 1 (newShip reqEmergency) (newShip reqEmergency)
      (by decide) (by decide) (by decide) (by decide) 0 (newShip reqRegular)
      ((newShip reqRegular).assigned 0 4) (by decide) (by decide) (by decide) (by decide)
      (by decide)⟩

/-! ### One ship through one iteration -/

theorem ingest_get (reqs : List ShipRequest) (ships : List Ship) (i : Nat) (s : Ship)
    (h : ships[i]? = some s) : (ingest reqs ships)[i]? = some s := by
  obtain ⟨new, h1, _⟩ := ingest_spec reqs ships
  rw [h1, List.getElem?_append_left (List.getElem?_eq_some_iff.1 h).1]
  exact h

theorem allocPhase_time (st : State) (a : Advance) :
    (allocPhase st a).w.currentTimestep = a.timestep :=
  (allocPhase_frame st a).1

/-- The ship at position `i` after one iteration is the result of the four loop
bodies applied in turn to the ship at position `i` before it, each in globals
whose timestep is the one of the message. -/
theorem advance_get (ask : Oracle) (st : State) (a : Advance) (i : Nat) (s : Ship)
    (h : st.ships[i]? = some s) :
    ∃ w1 w2 w3 w4 : World,
      w1.currentTimestep = a.timestep ∧ w2.currentTimestep = a.timestep ∧
      w3.currentTimestep = a.timestep ∧ w4.currentTimestep = a.timestep ∧
      (beforeRelease st a).ships[i]? =
        some (processCargo w3 (regularBody w2 (emergencyBody w1 s).2).2).2 ∧
      (advance ask st a).ships[i]? =
        some (releaseBody ask w4
          (processCargo w3 (regularBody w2 (emergencyBody w1 s).2).2).2).2 := by
  have h1 : (ingestPhase st a).ships[i]? = some s := ingest_get _ _ _ _ h
  have g2 := pass_get (ingestPhase st a) emergencyBody i s h1
  have g3 := pass_get ((ingestPhase st a).pass emergencyBody) regularBody i _ g2
  have g4 := pass_get (allocPhase st a) processCargo i _ g3
  have g5 := pass_get (beforeRelease st a) (releaseBody ask) i _ g4
  refine ⟨_, _, _, _, ?_, ?_, ?_, ?_, g4, g5⟩
  · exact (worldAt_frame _ (fun w s => (emergencyBody_allocStep w s).1) _ _ i).1
  · exact ((worldAt_frame _ (fun w s => (regularBody_allocStep w s).1) _ _ i).1).trans
      (pass_frame _ _ (fun w s => (emergencyBody_allocStep w s).1)).1
  · exact ((worldAt_frame _ processCargo_frame _ _ i).1).trans (allocPhase_time st a)
  · exact ((worldAt_frame _ (releaseBody_frame ask) _ _ i).1).trans (beforeRelease_time st a)

theorem processCargo_undocked (w : World) (s : Ship) (h : s.isDocked = false) :
    processCargo w s = (w, s) := by
  unfold processCargo
  rw [if_pos (Or.inl h)]

theorem releaseBody_undocked (ask : Oracle) (w : World) (s : Ship) (h : s.isDocked = false) :
    releaseBody ask w s = (w, s) := by
  unfold releaseBody
  rw [if_neg]
  intro hg
  rw [hg.1] at h
  exact absurd h (by simp)

theorem emergencyBody_skip (w : World) (s : Ship) (h : ¬ EmergencyGuard s) :
    emergencyBody w s = (w, s) := by
  unfold emergencyBody
  rw [if_neg h]

theorem regularBody_inactive (w : World) (s : Ship) (h : s.isActive = false) :
    regularBody w s = (w, s) := by
  unfold regularBody
  rw [if_neg]
  rw [h]
  simp

theorem regularBody_expired (w : World) (s : Ship) (h1 : s.isActive = true)
    (h2 : s.isDocked = false) (h3 : s.isServiced = false) (h4 : s.direction = 1)
    (h5 : s.emergency = 0) (h6 : w.currentTimestep > s.arrivalTime + s.waitingTime) :
    regularBody w s = (w, { s with isActive := false }) := by
  unfold regularBody
  rw [if_pos ⟨h1, h2, h3⟩, if_pos ⟨h4, h5⟩, if_neg (by omega)]

theorem advance_inactive (ask : Oracle) (st : State) (a : Advance) (i : Nat) (s : Ship)
    (h : st.ships[i]? = some s) (h1 : s.isActive = false) (h2 : s.isDocked = false) :
    (advance ask st a).ships[i]? = some s := by
  obtain ⟨w1, w2, w3, w4, _, _, _, _, _, g⟩ := advance_get ask st a i s h
  rw [emergencyBody_skip w1 s (fun hg => by rw [hg.2.2.1] at h1; exact absurd h1 (by simp)),
    regularBody_inactive w2 s h1, processCargo_undocked w3 s h2,
    releaseBody_undocked ask w4 s h2] at g
  exact g

theorem mainLoop_inactive (ask : Oracle) (i : Nat) (s : Ship)
    (h1 : s.isActive = false) (h2 : s.isDocked = false) :
    ∀ (advs : List Advance) (st : State), st.ships[i]? = some s →
      (mainLoop ask st advs).ships[i]? = some s := by
  intro advs
  induction advs with
  | nil => intro st h; exact h
  | cons a rest ih =>
    intro st h
    simp only [mainLoop]
    split
    · exact h
    · exact ih _ (advance_inactive ask st a i s h h1 h2)

theorem regularBody_active (w : World) (s : Ship) (h1 : s.isActive = true)
    (h : ¬ (s.direction = 1 ∧ s.emergency = 0) ∨
      w.currentTimestep ≤ s.arrivalTime + s.waitingTime) :
    (regularBody w s).2.isActive = true := by
  rcases regularBody_cases w s with hR | ⟨_, _, _, _, h4, h5, h6⟩ | ⟨_, _, _, d, _, hR⟩
  · rw [hR]; exact h1
  · rcases h with h | h
    · exact absurd ⟨h4, h5⟩ h
    · exact absurd h h6
  · rw [hR]; exact h1

theorem processCargo_isActive (w : World) (s : Ship) :
    (processCargo w s).2.isActive = s.isActive := by
  obtain ⟨msgs, k, lt, heq⟩ := processCargo_shape w s
  rw [heq]

theorem releaseBody_isActive (ask : Oracle) (w : World) (s : Ship) :
    (releaseBody ask w s).2.isActive = s.isActive := by
  obtain ⟨strs, sl, _, e2⟩ := authenticate_shape ask w s
  unfold releaseBody
  split
  · simp only []
    split
    · simp only [undockShip]; rw [e2]
    · rw [e2]
  · rfl

/-- C6. Waiting deadline.  For a non-emergency arriving ship that is active and
has never docked (undocked and unserviced): (1) an iteration whose timestep is
greater than `arrivalTime + waitingTime` leaves the ship as it was except that
it is inactive; (2) at that moment the regular pass neither changes the globals
nor the docks (no allocation is attempted) and the emergency pass skips the
ship; (3) an inactive undocked ship is unchanged by every later run of the main
loop, so it stays inactive and undocked whatever docks are free; (4) while the
timestep is at most `arrivalTime + waitingTime` an iteration leaves the ship
active. -/
theorem C6_waiting_deadline :
    (∀ (ask : Oracle) (st : State) (a : Advance) (i : Nat) (s : Ship),
      st.ships[i]? = some s → s.direction = 1 → s.emergency = 0 → s.isActive = true →
      s.isDocked = false → s.isServiced = false →
      a.timestep > s.arrivalTime + s.waitingTime →
      (advance ask st a).ships[i]? = some { s with isActive := false }) ∧
    (∀ (w : World) (s : Ship),
      s.direction = 1 → s.emergency = 0 → s.isActive = true →
      s.isDocked = false → s.isServiced = false →
      w.currentTimestep > s.arrivalTime + s.waitingTime →
      emergencyBody w s = (w, s) ∧ regularBody w s = (w, { s with isActive := false })) ∧
    (∀ (ask : Oracle) (advs : List Advance) (st : State) (i : Nat) (s : Ship),
      st.ships[i]? = some s → s.isActive = false → s.isDocked = false →
      (mainLoop ask st advs).ships[i]? = some s) ∧
    (∀ (ask : Oracle) (st : State) (a : Advance) (i : Nat) (s : Ship),
      st.ships[i]? = some s → s.direction = 1 → s.emergency = 0 → s.isActive = true →
      s.isDocked = false → s.isServiced = false →
      a.timestep ≤ s.arrivalTime + s.waitingTime →
      ∃ s1, (advance ask st a).ships[i]? = some s1 ∧ s1.isActive = true) := by
  have hskip : ∀ (w : World) (s : Ship), s.emergency = 0 → emergencyBody w s = (w, s) := by
    intro w s h
    refine emergencyBody_skip w s (fun hg => ?_)
    have h1 := hg.2.1
    rw [h] at h1
    exact absurd h1 (by decide)
  refine ⟨?_, ?_, ?_, ?_⟩
  · intro ask st a i s h hd he ha hu hs ht
    obtain ⟨w1, w2, w3, w4, _, t2, _, _, _, g⟩ := advance_get ask st a i s h
    rw [hskip w1 s he, regularBody_expired w2 s ha hu hs hd he (by rw [t2]; exact ht)] at g
    simp only [] at g
    rw [processCargo_undocked w3 { s with isActive := false } hu,
      releaseBody_undocked ask w4 { s with isActive := false } hu] at g
    exact g
  · intro w s hd he ha hu hs ht
    exact ⟨hskip w s he, regularBody_expired w s ha hu hs hd he ht⟩
  · intro ask advs st i s h h1 h2
    exact mainLoop_inactive ask i s h1 h2 advs st h
  · intro ask st a i s h hd he ha hu hs ht
    obtain ⟨w1, w2, w3, w4, _, t2, _, _, _, g⟩ := advance_get ask st a i s h
    refine ⟨_, g, ?_⟩
    rw [releaseBody_isActive, processCargo_isActive, hskip w1 s he]
    exact regularBody_active w2 s ha (Or.inr (by rw [t2]; exact ht))

/-- C6 on scenario D: the regular ship (arrival 0, budget 3) is the second ship.
It is active and undocked after each of the timesteps 0 to 3 (the dock is held
by the emergency ship from timestep 1 and vacated at timestep 3), inactive after
timestep 4, and still inactive and undocked after timestep 5, although the
dock is unoccupied and out of cooldown at timesteps 4 and 5. -/
theorem C6_waiting_deadline_witness :
    ((List.range 4).map (fun T => (stateD T).ships.map fun s => (s.isActive, s.isDocked)) =
        [[(true, false), (true, false)], [(true, true), (true, false)],
         [(true, true), (true, false)], [(true, false), (true, false)]] ∧
      (stateD 3).w.docks.map (fun d => (d.isOccupied, d.lastUndockTimestep)) = [(false, 3)] ∧
      (stateD 4).ships[1]? = some { newShip reqD with isActive := false } ∧
      (stateD 4).w.docks.map (fun d => (d.isOccupied, d.lastUndockTimestep)) = [(false, 3)] ∧
      (stateD 5).ships[1]? = some { newShip reqD with isActive := false }) ∧
    (advance yesOracle (stateD 3) { timestep := 4 }).ships[1]? =
      some { newShip reqD with isActive := false } ∧
    (mainLoop yesOracle (stateD 4) [{ timestep := 5 }, { timestep := 6 }]).ships[1]? =
      some { newShip reqD with isActive := false } ∧
    (∃ s1, (advance yesOracle (stateD 2) { timestep := 3 }).ships[1]? = some s1 ∧
      s1.isActive = true) :=
  ⟨by decide,
    C6_waiting_deadline.1 yesOracle (stateD 3) { timestep := 4 } 1 (newShip reqD)
      (by decide) (by decide) (by decide) (by decide) (by decide) (by decide) (by decide),
    C6_waiting_deadline.2.2.1 yesOracle [{ timestep := 5 }, { timestep := 6 }] (stateD 4) 1
      { newShip reqD with isActive := false } (by decide) (by decide) (by decide),
    C6_waiting_deadline.2.2.2 yesOracle (stateD 2) { timestep := 3 } 1 (newShip reqD)
      (by decide) (by decide) (by decide) (by decide) (by decide) (by decide) (by decide)⟩

/-! ### The single-crane schedule -/

theorem advance_get_frame (ask : Oracle) (st : State) (a : Advance) (i : Nat) (s : Ship)
    (h : st.ships[i]? = some s) :
    ∃ w1 w2 w3 w4 : World,
      Frame (ingestPhase st a).w w3 ∧ Frame (ingestPhase st a).w w4 ∧
      Frame (ingestPhase st a).w (advance ask st a).w ∧
      (beforeRelease st a).ships[i]? =
        some (processCargo w3 (regularBody w2 (emergencyBody w1 s).2).2).2 ∧
      (advance ask st a).ships[i]? =
        some (releaseBody ask w4
          (processCargo w3 (regularBody w2 (emergencyBody w1 s).2).2).2).2 := by
  have h1 : (ingestPhase st a).ships[i]? = some s := ingest_get _ _ _ _ h
  have g2 := pass_get (ingestPhase st a) emergencyBody i s h1
  have g3 := pass_get ((ingestPhase st a).pass emergencyBody) regularBody i _ g2
  have g4 := pass_get (allocPhase st a) processCargo i _ g3
  have g5 := pass_get (beforeRelease st a) (releaseBody ask) i _ g4
  refine ⟨_, _, _, _, ?_, ?_, ?_, g4, g5⟩
  · exact frame_trans _ _ _ (allocPhase_frame st a) (worldAt_frame _ processCargo_frame _ _ i)
  · exact frame_trans _ _ _ (beforeRelease_frame st a)
      (worldAt_frame _ (releaseBody_frame ask) _ _ i)
  · have := frame_trans _ _ _ (beforeRelease_frame st a)
      (pass_frame (beforeRelease st a) _ (releaseBody_frame ask))
    exact ⟨this.1, this.2.1, this.2.2.1, this.2.2.2⟩

theorem regularBody_serviced (w : World) (s : Ship) (h : s.isServiced = true) :
    regularBody w s = (w, s) := by
  unfold regularBody
  rw [if_neg]
  intro hg
  rw [hg.2.2] at h
  exact absurd h (by simp)

theorem singleCrane_frame (w w1 : World) (s0 : Ship) (k : Nat) (hf : Frame w w1)
    (h : SingleCrane w s0 k) : SingleCrane w1 s0 k := by
  unfold SingleCrane at h ⊢
  rw [(hf.2.2.2 _).2.1, (hf.2.2.2 _).2.2]
  exact h

theorem processCargo_single (w : World) (s0 s : Ship) (d : Int) (k n : Nat)
    (ht : Tracked s0 d k n s) (hdock : s.isDocked = true) (hserv : s.isServiced = false)
    (hc : SingleCrane w s0 k) (hT : w.currentTimestep = d + n + 1) :
    (processCargo w s).2 =
      { s with
        cargoProcessed := min (n + 1) k
        lastCargoTimestep := if n < k then d + n + 1 else s.lastCargoTimestep } := by
  obtain ⟨t1, _, t3, t4, t5, t6, _⟩ := ht
  have hg : ¬ (s.isDocked = false ∨ s.isServiced = true ∨
      w.currentTimestep ≤ s.dockedTime) := by
    rw [hdock, hserv, hT, t6]; simp; omega
  obtain ⟨cs, e1, e2, e3, e4⟩ := cargoLoop_spec (w.dock s.assignedDock.toNat)
    s.assignedDock w.currentTimestep (s.numCargo - s.cargoProcessed) [] w.mainLog s
  have hnd := firstFit_nodup _ _ cs [] s.cargoProcessed e2
  have hle := nodup_length_le cs _ hnd.1 (fun c hc => (hnd.2 c hc).2)
  rw [t5] at hle e4
  rw [hc.1] at hle e4
  have hlen : cs.length = if n < k then 1 else 0 := by
    split
    · next hlt =>
      have hp : s.cargoProcessed = n := by rw [t1]; omega
      rcases Nat.eq_zero_or_pos cs.length with h0 | h0
      · exfalso
        rcases e4 with e4 | e4
        · rw [h0, t3, hp] at e4; omega
        · rcases e4 0 (by omega) with (h | h) | h
          · simp at h
          · rw [List.length_eq_zero] at h0
            rw [h0] at h
            simp at h
          · rw [h0, hp, t4] at h
            have := hc.2 n hlt
            simp only [Nat.add_zero] at h
            omega
      · omega
    · next hge =>
      have hp : s.cargoProcessed = k := by rw [t1]; omega
      rw [t3, hp] at e3
      omega
  unfold processCargo
  rw [if_neg hg]
  simp only [e1]
  rw [hT, hlen, t1]
  split
  · next hlt =>
    have h1 : min n k + 1 = min (n + 1) k := by omega
    simp [h1]
  · next hge =>
    have h1 : min n k + 0 = min (n + 1) k := by omega
    simp [h1]

theorem ship_authDone_or_false (m : Ship) :
    ({ m with authDone := (m.authDone || false) } : Ship) = m := by
  cases m
  simp

theorem releaseBody_cases (ask : Oracle) (w : World) (m : Ship) :
    (¬ ReleaseGuard w.currentTimestep m ∧ (releaseBody ask w m).2 = m) ∨
      (ReleaseGuard w.currentTimestep m ∧ (authenticate ask w m).1 = true ∧
        (releaseBody ask w m).2 =
          { m with authDone := true, isDocked := false, isServiced := true }) ∨
      (ReleaseGuard w.currentTimestep m ∧ (authenticate ask w m).1 = false ∧
        (releaseBody ask w m).2 = m) := by
  obtain ⟨strs, sl, _, e2⟩ := authenticate_shape ask w m
  by_cases hg : ReleaseGuard w.currentTimestep m
  · cases hr : (authenticate ask w m).1 with
    | true =>
      right; left
      refine ⟨hg, rfl, ?_⟩
      unfold releaseBody
      rw [if_pos hg]
      simp only [hr, if_true]
      rw [e2, hr]
      simp [undockShip]
    | false =>
      right; right
      refine ⟨hg, rfl, ?_⟩
      unfold releaseBody
      rw [if_pos hg]
      simp only [hr]
      rw [if_neg (by simp), e2, hr]
      exact ship_authDone_or_false m
  · left
    refine ⟨hg, ?_⟩
    unfold releaseBody
    rw [if_neg hg]

theorem tracked_step (ask : Oracle) (st : State) (a : Advance) (i : Nat) (s0 s : Ship)
    (d : Int) (k n : Nat) (hk : 1 ≤ k) (hs : st.ships[i]? = some s)
    (ht : Tracked s0 d k n s) (hc : SingleCrane st.w s0 k)
    (hT : a.timestep = d + n + 1) :
    ∃ m s1, (beforeRelease st a).ships[i]? = some m ∧
      (advance ask st a).ships[i]? = some s1 ∧
      Tracked s0 d k (n + 1) s1 ∧ SingleCrane (advance ask st a).w s0 k ∧
      (n + 1 ≤ k → ¬ ReleaseGuard a.timestep m) ∧
      (n = k → ReleaseGuard a.timestep m ∧ m.authDone = false ∧
        m.lastCargoTimestep - m.dockedTime = k) := by
  obtain ⟨w1, w2, w3, w4, f3, f4, f5, g4, g5⟩ := advance_get_frame ask st a i s hs
  have hc0 : SingleCrane (ingestPhase st a).w s0 k := hc
  have hc5 := singleCrane_frame _ _ s0 k f5 hc0
  have hc3 := singleCrane_frame _ _ s0 k f3 hc0
  have t3 : w3.currentTimestep = d + n + 1 := by rw [f3.1]; exact hT
  have t4 : w4.currentTimestep = a.timestep := f4.1
  obtain ⟨p1, p2, p3, p4, p5, p6, p7⟩ := ht
  rcases p7 with ⟨hd, hsv, hau⟩ | ⟨hkn, hd, hsv⟩
  · -- the ship is docked
    have hE : emergencyBody w1 s = (w1, s) :=
      emergencyBody_skip w1 s (fun hg => by
        have := hg.2.2.2.1
        rw [hd] at this
        exact absurd this (by simp))
    rw [hE, regularBody_docked w2 s hd] at g4 g5
    simp only [] at g4 g5
    have hP := processCargo_single w3 s0 s d k n ⟨p1, p2, p3, p4, p5, p6, Or.inl ⟨hd, hsv, hau⟩⟩
      hd hsv hc3 t3
    obtain ⟨m, hm⟩ : ∃ m, m = (processCargo w3 s).2 := ⟨_, rfl⟩
    rw [← hm] at g4 g5
    rw [hP] at hm
    have m1 : m.cargoProcessed = min (n + 1) k := by rw [hm]
    have m2 : m.lastCargoTimestep = d + (min (n + 1) k : Nat) := by
      rw [hm]
      simp only []
      split
      · next hlt =>
        have : min (n + 1) k = n + 1 := by omega
        rw [this]
        push_cast
        ring
      · next hge =>
        rw [p2 (by omega)]
        congr 2
        omega
    have m3 : m.numCargo = k := by rw [hm]; exact p3
    have m4 : m.cargo = s0.cargo := by rw [hm]; exact p4
    have m5 : m.assignedDock = s0.assignedDock := by rw [hm]; exact p5
    have m6 : m.dockedTime = d := by rw [hm]; exact p6
    have m7 : m.isDocked = true := by rw [hm]; exact hd
    have m8 : m.isServiced = false := by rw [hm]; exact hsv
    have m9 : m.authDone = false := by rw [hm]; exact hau
    clear hm hP
    have hguard : ReleaseGuard a.timestep m → k ≤ n := by
      intro hg
      have h1 := hg.2.2.1
      have h2 := hg.2.2.2
      rw [m1, m3] at h1
      rw [m2, hT] at h2
      omega
    refine ⟨m, _, g4, g5, ?_, hc5, fun hle hg => absurd (hguard hg) (by omega), ?_⟩
    · rcases releaseBody_cases ask w4 m with ⟨_, hR⟩ | ⟨hg, _, hR⟩ | ⟨_, _, hR⟩
      · rw [hR]
        exact ⟨m1, fun _ => m2, m3, m4, m5, m6, Or.inl ⟨m7, m8, m9⟩⟩
      · rw [hR]
        rw [t4] at hg
        exact ⟨m1, fun _ => m2, m3, m4, m5, m6, Or.inr ⟨by have := hguard hg; omega, rfl, rfl⟩⟩
      · rw [hR]
        exact ⟨m1, fun _ => m2, m3, m4, m5, m6, Or.inl ⟨m7, m8, m9⟩⟩
    · intro hnk
      subst hnk
      have hmin : min (n + 1) n = n := by omega
      rw [hmin] at m1 m2
      refine ⟨⟨m7, m8, by rw [m1, m3], by rw [m2, hT]; omega⟩, m9, ?_⟩
      rw [m2, m6]
      omega
  · -- the ship was released earlier
    have hE : emergencyBody w1 s = (w1, s) :=
      emergencyBody_skip w1 s (fun hg => by
        have := hg.2.2.2.2
        rw [hsv] at this
        exact absurd this (by simp))
    rw [hE, regularBody_serviced w2 s hsv] at g4 g5
    simp only [] at g4 g5
    rw [processCargo_undocked w3 s hd] at g4 g5
    simp only [] at g4 g5
    rw [releaseBody_undocked ask w4 s hd] at g5
    refine ⟨s, s, g4, g5, ⟨?_, fun _ => ?_, p3, p4, p5, p6, Or.inr ⟨by omega, hd, hsv⟩⟩, hc5,
      fun h => absurd h (by omega), fun h => absurd h (by omega)⟩
    · rw [p1]; omega
    · rw [p2 (by omega)]
      congr 2
      omega

theorem tracked_run (ask : Oracle) (i : Nat) (s0 : Ship) (d : Int) (k : Nat) (hk : 1 ≤ k) :
    ∀ (advs : List Advance) (st : State) (n : Nat) (s : Ship),
      st.ships[i]? = some s → Tracked s0 d k n s → SingleCrane st.w s0 k →
      (∀ j (hj : j < advs.length),
        advs[j].timestep = d + n + j + 1 ∧ advs[j].isFinished ≠ 1) →
      ∃ s1, (mainLoop ask st advs).ships[i]? = some s1 ∧
        Tracked s0 d k (n + advs.length) s1 ∧ SingleCrane (mainLoop ask st advs).w s0 k := by
  intro advs
  induction advs with
  | nil => intro st n s hs ht hc _; exact ⟨s, hs, ht, hc⟩
  | cons a rest ih =>
    intro st n s hs ht hc hadv
    have h0 := hadv 0 (by simp)
    simp only [List.getElem_cons_zero] at h0
    obtain ⟨_, s1, _, g5, t1, c1, _, _⟩ := tracked_step ask st a i s0 s d k n hk hs ht hc
      (by rw [h0.1]; simp)
    simp only [mainLoop]
    rw [if_neg h0.2]
    obtain ⟨s2, g, t2, c2⟩ := ih (advance ask st a) (n + 1) s1 g5 t1 c1 (fun j hj => by
      have := hadv (j + 1) (by simp; omega)
      simp only [List.getElem_cons_succ] at this
      refine ⟨?_, this.2⟩
      rw [this.1]
      push_cast
      ring)
    refine ⟨s2, g, ?_, c2⟩
    have : n + (a :: rest).length = n + 1 + rest.length := by simp; omega
    rw [this]
    exact t2

/-- C8. Single-crane schedule and authentication length.  A ship with `k ≥ 1`
cargo items, docked at timestep `d` (nothing processed yet, not authenticated)
at a dock with exactly one crane whose capacity is at least every cargo item,
is driven by iterations at the consecutive timesteps `d+1, ..., d+n`.  Then
after the iteration at `d+n` the processed counter is `min n k` and (for
`n ≥ 1`) `lastCargoTimestep = d + min n k`, which ends as `d + k`.  In the next
iteration, at timestep `d+n+1`, the guard of the release pass is false for the
ship as long as `n + 1 ≤ k`, and for `n = k` (timestep `d+k+1`) it is true, the
ship is not yet authenticated, and the search length
`lastCargoTimestep - dockedTime` computed by `authenticate` is `k`. -/
theorem C8_single_crane_schedule (ask : Oracle) (st0 : State) (i : Nat) (s0 : Ship)
    (d : Int) (k : Nat) (advs : List Advance)
    (h0 : st0.ships[i]? = some s0) (hdock : s0.isDocked = true)
    (hserv : s0.isServiced = false) (hauth : s0.authDone = false)
    (hp : s0.cargoProcessed = 0) (hnum : s0.numCargo = k) (hk : 1 ≤ k)
    (hd : s0.dockedTime = d)
    (hcr : (st0.w.dock s0.assignedDock.toNat).numCranes = 1)
    (hcap : ∀ j, j < k →
      (st0.w.dock s0.assignedDock.toNat).craneCapacities.getD 0 0 ≥ s0.cargo.getD j 0)
    (hadv : ∀ j (hj : j < advs.length),
      advs[j].timestep = d + j + 1 ∧ advs[j].isFinished ≠ 1) :
    ∃ s, (mainLoop ask st0 advs).ships[i]? = some s ∧
      s.cargoProcessed = min advs.length k ∧
      (1 ≤ advs.length → s.lastCargoTimestep = d + (min advs.length k : Nat)) ∧
      (k ≤ advs.length → s.lastCargoTimestep = d + k) ∧
      ∀ a : Advance, a.timestep = d + advs.length + 1 →
        ∃ m, (beforeRelease (mainLoop ask st0 advs) a).ships[i]? = some m ∧
          (advs.length + 1 ≤ k → ¬ ReleaseGuard a.timestep m) ∧
          (advs.length = k →
            ReleaseGuard a.timestep m ∧ m.authDone = false ∧
            m.lastCargoTimestep - m.dockedTime = k ∧ authLength m = k) := by
  have ht0 : Tracked s0 d k 0 s0 :=
    ⟨by rw [hp]; simp, fun h => absurd h (by omega), hnum, rfl, rfl, hd,
      Or.inl ⟨hdock, hserv, hauth⟩⟩
  obtain ⟨s, g, t, c⟩ := tracked_run ask i s0 d k hk advs st0 0 s0 h0 ht0 ⟨hcr, hcap⟩
    (fun j hj => by
      have := hadv j hj
      refine ⟨?_, this.2⟩
      rw [this.1]
      simp)
  rw [Nat.zero_add] at t
  refine ⟨s, g, t.1, fun h => t.2.1 (by omega), fun h => ?_, fun a ha => ?_⟩
  · rw [t.2.1 (by omega)]
    congr 2
    omega
  · obtain ⟨m, _, g4, _, _, _, r1, r2⟩ := tracked_step ask (mainLoop ask st0 advs) a i s0 s d k
      advs.length hk g t c ha
    refine ⟨m, g4, r1, fun h => ?_⟩
    obtain ⟨q1, q2, q3⟩ := r2 h
    refine ⟨q1, q2, q3, ?_⟩
    unfold authLength
    rw [q3]
    simp

/-- C8 on scenario B: cargo [4, 6], docked at timestep 5 at a dock with one crane
of capacity 10.  After timestep 6 one item is processed; after timestep 7 both
are, with `lastCargoTimestep = 7`; the release guard first holds at timestep 8
and the search length is 2. -/
theorem C8_single_crane_schedule_witness :
    (stateB5.ships[0]? = some shipB5 ∧ shipB5.cargo = [4, 6] ∧ shipB5.dockedTime = 5 ∧
      (mainLoop yesOracle stateB5 [{ timestep := 6 }]).ships.map
        (fun s => (s.cargoProcessed, s.lastCargoTimestep)) = [(1, 6)] ∧
      (mainLoop yesOracle stateB5 advsB).ships.map
        (fun s => (s.cargoProcessed, s.lastCargoTimestep, authLength s)) = [(2, 7, 2)]) ∧
    ∃ s, (mainLoop yesOracle stateB5 advsB).ships[0]? = some s ∧
      s.cargoProcessed = min advsB.length 2 ∧
      (1 ≤ advsB.length → s.lastCargoTimestep = (5 : Int) + (min advsB.length 2 : Nat)) ∧
      (2 ≤ advsB.length → s.lastCargoTimestep = (5 : Int) + (2 : Nat)) ∧
      ∀ a : Advance, a.timestep = (5 : Int) + advsB.length + 1 →
        ∃ m, (beforeRelease (mainLoop yesOracle stateB5 advsB) a).ships[0]? = some m ∧
          (advsB.length + 1 ≤ 2 → ¬ ReleaseGuard a.timestep m) ∧
          (advsB.length = 2 →
            ReleaseGuard a.timestep m ∧ m.authDone = false ∧
            m.lastCargoTimestep - m.dockedTime = (2 : Nat) ∧ authLength m = 2) :=
  ⟨by decide,
    C8_single_crane_schedule yesOracle stateB5 0 shipB5 5 2 advsB
      (by decide) (by decide) (by decide) (by decide) (by decide) (by decide) (by decide)
      (by decide) (by decide) (by decide) (by decide)⟩

/-! ### Claims on single operations -/

/-- C11 (amended). `authenticate` on an already-authenticated ship is a no-op
that returns success: for every ship with `authDone = true` it sends no message
to any solver, changes neither the globals nor the ship, and returns true. -/
theorem C11_authenticate_already_done (ask : Oracle) (w : World) (ship : Ship)
    (h : ship.authDone = true) : authenticate ask w ship = (true, w, ship) := by
  unfold authenticate
  rw [if_pos h]

/-- C11 (amended) on the authenticated sample ship. -/
theorem C11_authenticate_already_done_witness :
    sampleShipDone.authDone = true ∧
    authenticate yesOracle sampleWorld sampleShipDone = (true, sampleWorld, sampleShipDone) :=
  ⟨by decide, C11_authenticate_already_done yesOracle sampleWorld sampleShipDone (by decide)⟩

/-- C11 as stated fails: for the authenticated sample ship `authenticate` does
not return false. -/
theorem C11_returns_true_counterexample :
    sampleShipDone.authDone = true ∧
    ¬ ((authenticate yesOracle sampleWorld sampleShipDone).1 = false) := by
  decide

/-- C14 as stated fails: a ship whose counter is 3 is docked by `assignDock` and
its counter is still 3, not 0. -/
theorem C14_counter_counterexample :
    shipCounter3.cargoProcessed = 3 ∧
    (assignDock worldC shipCounter3).1 = true ∧
    (assignDock worldC shipCounter3).2.2.cargoProcessed = 3 ∧
    ¬ ((assignDock worldC shipCounter3).2.2.cargoProcessed = 0) := by
  decide

theorem setupWorld_dock (numSolvers : Nat) (cfg : List DockConfig) (T : Int) (d : Nat) :
    ((setupWorld numSolvers cfg T).dock d).isOccupied = false ∧
    ((setupWorld numSolvers cfg T).dock d).lastUndockTimestep = 0 := by
  simp only [setupWorld, setupIPC, World.dock]
  rw [List.getD_eq_getElem?_getD, List.getElem?_map]
  cases cfg[d]? <;> simp [zeroDock]

/-- C16 (amended). In the state produced by setup (every dock unoccupied, last
vacated timestep recorded as 0), for every timestep `T` other than 0 and every
ship, `assignDock` at timestep `T` succeeds if and only if some dock has
category at least the ship's, and then assigns the lowest-index such dock; at
timestep 0 `assignDock` fails for every ship and changes nothing. -/
theorem C16_setup_docks_assignable (numSolvers : Nat) (cfg : List DockConfig) (T : Int)
    (ship : Ship) :
    (T ≠ 0 →
      ((assignDock (setupWorld numSolvers cfg T) ship).1 = true ↔
        ∃ d, d < (setupWorld numSolvers cfg T).docks.length ∧
          ((setupWorld numSolvers cfg T).dock d).category ≥ ship.category) ∧
      ((assignDock (setupWorld numSolvers cfg T) ship).1 = true →
        ∃ d, d < (setupWorld numSolvers cfg T).docks.length ∧
          ((setupWorld numSolvers cfg T).dock d).category ≥ ship.category ∧
          (∀ e, e < d → ¬ ((setupWorld numSolvers cfg T).dock e).category ≥ ship.category) ∧
          (assignDock (setupWorld numSolvers cfg T) ship).2.2 =
            { ship with assignedDock := d, dockedTime := T, isDocked := true })) ∧
    (T = 0 →
      assignDock (setupWorld numSolvers cfg T) ship =
        (false, setupWorld numSolvers cfg T, ship)) := by
  have hT : (setupWorld numSolvers cfg T).currentTimestep = T := rfl
  have hel : T ≠ 0 → ∀ d, (Eligible (setupWorld numSolvers cfg T).currentTimestep ship.category
      ((setupWorld numSolvers cfg T).dock d) ↔
        ((setupWorld numSolvers cfg T).dock d).category ≥ ship.category) := by
    intro h0 d
    obtain ⟨h1, h2⟩ := setupWorld_dock numSolvers cfg T d
    constructor
    · intro h; exact h.2.1
    · intro h; exact ⟨h1, h, by rw [h2, hT]; exact fun h3 => h0 h3.symm⟩
  refine ⟨fun h0 => ?_, fun h0 => ?_⟩
  · rcases assignDock_spec (setupWorld numSolvers cfg T) ship with ⟨d, hfe, heq⟩ | ⟨hno, heq⟩
    · rw [heq]
      refine ⟨⟨fun _ => ⟨d, hfe.1, hfe.2.1.2.1⟩, fun _ => rfl⟩, fun _ => ?_⟩
      exact ⟨d, hfe.1, hfe.2.1.2.1, fun e he hc => hfe.2.2 e he ((hel h0 e).2 hc), rfl⟩
    · rw [heq]
      refine ⟨⟨fun h => by simp at h, fun ⟨d, hd, hc⟩ => ?_⟩, fun h => by simp at h⟩
      exact absurd ((hel h0 d).2 hc) (hno d hd)
  · rcases assignDock_spec (setupWorld numSolvers cfg T) ship with ⟨d, hfe, _⟩ | ⟨_, heq⟩
    · obtain ⟨_, h2⟩ := setupWorld_dock numSolvers cfg T d
      exact absurd (by rw [h2, hT, h0]) hfe.2.1.2.2
    · exact heq

/-- C16 as stated fails at timestep 0: after setup with one dock of category 3,
a ship of category 2 has a dock of sufficient category, yet `assignDock` at
timestep 0 does not succeed. -/
theorem C16_timestep_zero_counterexample :
    (∃ d, d < (setupWorld 1 [{ category := 3, craneCapacities := [9, 9, 9] }] 0).docks.length ∧
      ((setupWorld 1 [{ category := 3, craneCapacities := [9, 9, 9] }] 0).dock d).category ≥
        (newShip reqRegular).category) ∧
    ¬ ((assignDock (setupWorld 1 [{ category := 3, craneCapacities := [9, 9, 9] }] 0)
        (newShip reqRegular)).1 = true) :=
  ⟨⟨0, by decide, by decide⟩, by decide⟩

/-- C17 (evaluation of the code). For length 2 the indices 1 and 5 are both below
`total 2 = 25`, yet index 1 yields "65" and index 5 yields "56": the string of
the smaller index is the larger one in lexicographic order, because position 0
holds the least significant digit. -/
theorem C17_not_lexicographic :
    total 2 = 25 ∧ genAuthString 2 1 = ['6', '5'] ∧ genAuthString 2 5 = ['5', '6'] ∧
    genAuthString 2 5 < genAuthString 2 1 ∧ ¬ (genAuthString 2 1 < genAuthString 2 5) := by
  decide

/-- C20. Candidate-count arithmetic in signed 32-bit `int`: for every length `L`
with `1 ≤ L ≤ 12` the 32-bit total equals the exact value (5 for `L = 1`,
`25 * 6^(L-2)` otherwise) and every intermediate product of the loop is below
`2^31`; for `L = 13` the exact value `25 * 6^11` exceeds `2^31 - 1` and the
32-bit result differs from it. -/
theorem C20_total_in_range :
    (∀ L, 1 ≤ L → L ≤ 12 →
      total32 L = (total L : Int) ∧
      total L = (if L = 1 then 5 else 25 * 6 ^ (L - 2)) ∧
      ∀ j, j ≤ L → totalLoop L j 0 1 < 2 ^ 31) ∧
    total 13 = 25 * 6 ^ 11 ∧ 2 ^ 31 - 1 < total 13 ∧ total32 13 ≠ (total 13 : Int) := by
  refine ⟨fun L h1 h2 => ?_, by decide, by decide, by decide⟩
  interval_cases L <;> refine ⟨by decide, by decide, fun j hj => ?_⟩ <;>
    interval_cases j <;> decide

/-! ### The cargo invariant and runs of the main loop -/

theorem processCargo_run (w : World) (s : Ship) :
    ∃ cs : List Nat,
      (processCargo w s).2 =
        { s with
          cargoProcessed := s.cargoProcessed + cs.length
          lastCargoTimestep :=
            if cs.length = 0 then s.lastCargoTimestep else w.currentTimestep } ∧
      FirstFit (w.dock s.assignedDock.toNat) s.cargo [] s.cargoProcessed cs ∧
      cs.length ≤ s.numCargo - s.cargoProcessed ∧
      (s.isDocked = false ∨ s.isServiced = true → cs = []) := by
  by_cases hg : s.isDocked = false ∨ s.isServiced = true ∨ w.currentTimestep ≤ s.dockedTime
  · refine ⟨[], ?_, trivial, Nat.zero_le _, fun _ => rfl⟩
    unfold processCargo
    rw [if_pos hg]
    simp
  · obtain ⟨cs, e1, e2, e3, _⟩ := cargoLoop_spec (w.dock s.assignedDock.toNat)
      s.assignedDock w.currentTimestep (s.numCargo - s.cargoProcessed) [] w.mainLog s
    refine ⟨cs, ?_, e2, e3, fun h => ?_⟩
    · unfold processCargo
      rw [if_neg hg]
      simp only [e1]
    · exfalso
      rcases h with h | h
      · exact hg (Or.inl h)
      · exact hg (Or.inr (Or.inl h))

theorem assignDock_shipCargoOK (w : World) (s : Ship) (h : ShipCargoOK s) :
    ShipCargoOK (assignDock w s).2.2 := by
  rcases assignDock_ship w s with ⟨d, _, _, heq⟩ | ⟨_, _, heq⟩
  · rw [heq]
    exact ⟨h.1, h.2.1, fun h1 => absurd h1 (by simp [Ship.assigned])⟩
  · rw [heq]; exact h

theorem emergencyBody_shipCargoOK (w : World) (s : Ship) (h : ShipCargoOK s) :
    ShipCargoOK (emergencyBody w s).2 := by
  unfold emergencyBody
  split
  · exact assignDock_shipCargoOK w s h
  · exact h

theorem regularBody_shipCargoOK (w : World) (s : Ship) (h : ShipCargoOK s) :
    ShipCargoOK (regularBody w s).2 := by
  unfold regularBody
  split
  · split
    · split
      · exact assignDock_shipCargoOK w s h
      · exact h
    · exact assignDock_shipCargoOK w s h
  · exact h

theorem processCargo_shipCargoOK (w : World) (s : Ship) (h : ShipCargoOK s) :
    ShipCargoOK (processCargo w s).2 := by
  obtain ⟨cs, e1, _, e3, e4⟩ := processCargo_run w s
  rw [e1]
  obtain ⟨h1, h2, h3⟩ := h
  refine ⟨by simp only []; omega, fun h0 => ?_, fun hd hs => ?_⟩
  · simp only [] at h0 ⊢
    rw [if_pos (by omega)]
    exact h2 (by omega)
  · simp only [] at hd hs ⊢
    rw [e4 (Or.inl hd)]
    simpa using h3 hd hs

theorem releaseBody_shipCargoOK (ask : Oracle) (w : World) (s : Ship) (h : ShipCargoOK s) :
    ShipCargoOK (releaseBody ask w s).2 := by
  rcases releaseBody_cases ask w s with ⟨_, hR⟩ | ⟨_, _, hR⟩ | ⟨_, _, hR⟩
  · rw [hR]; exact h
  · rw [hR]
    exact ⟨h.1, h.2.1, fun _ h1 => absurd h1 (by simp)⟩
  · rw [hR]; exact h

theorem advance_shipCargoOK (ask : Oracle) (st : State) (a : Advance)
    (h : ∀ s, s ∈ st.ships → ShipCargoOK s) :
    ∀ s, s ∈ (advance ask st a).ships → ShipCargoOK s := by
  have h1 : ∀ s, s ∈ (ingestPhase st a).ships → ShipCargoOK s := by
    intro s hs
    obtain ⟨new, e1, e2⟩ := ingest_spec a.newShipRequests st.ships
    simp only [ingestPhase, e1, List.mem_append] at hs
    rcases hs with hs | hs
    · exact h s hs
    · obtain ⟨req, rfl⟩ := e2 s hs
      exact ⟨Nat.zero_le _, fun _ => rfl, fun _ _ => rfl⟩
  exact forShips_forall _ ShipCargoOK (releaseBody_shipCargoOK ask) _ _
    (forShips_forall _ ShipCargoOK processCargo_shipCargoOK _ _
      (forShips_forall _ ShipCargoOK regularBody_shipCargoOK _ _
        (forShips_forall _ ShipCargoOK emergencyBody_shipCargoOK _ _ h1)))

theorem reachable_shipCargoOK (st : State) (h : Reachable st) :
    ∀ s, s ∈ st.ships → ShipCargoOK s := by
  induction h with
  | init n cfg => intro s hs; simp [setupIPC] at hs
  | step ask st a _ _ ih => exact advance_shipCargoOK ask st a ih

theorem mainLoop_dockInv (ask : Oracle) :
    ∀ (advs : List Advance) (st : State), DockInv st.w st.ships →
      DockInv (mainLoop ask st advs).w (mainLoop ask st advs).ships := by
  intro advs
  induction advs with
  | nil => intro st h; exact h
  | cons a rest ih =>
    intro st h
    simp only [mainLoop]
    split
    · exact dockInv_docks st.w _ _ rfl h
    · exact ih _ (advance_dockInv ask st a h)

theorem dockInv_occupied (w : World) (ships : List Ship) (i : Nat) (s : Ship)
    (h : DockInv w ships) (hs : ships[i]? = some s) (hd : s.isDocked = true) :
    (w.dock s.assignedDock.toNat).isOccupied = true := by
  obtain ⟨n, h1, _, h3⟩ := h.2.1 s (List.getElem?_mem hs) hd
  rw [h1, Int.toNat_ofNat]
  exact h3

theorem authenticate_nonpositive (ask : Oracle) (w : World) (s : Ship)
    (h1 : s.authDone = false) (h2 : s.lastCargoTimestep - s.dockedTime ≤ 0) :
    authenticate ask w s = (false, w, s) := by
  unfold authenticate
  rw [if_neg (by rw [h1]; simp), if_pos h2]

theorem processCargo_zero (w : World) (s : Ship) (h : s.numCargo = 0) :
    (processCargo w s).2 = s := by
  obtain ⟨cs, e1, _, e3, _⟩ := processCargo_run w s
  have hl : cs.length = 0 := by omega
  rw [e1, hl]
  cases s
  simp

theorem advance_zero_cargo (ask : Oracle) (st : State) (a : Advance) (i : Nat) (s : Ship)
    (hs : st.ships[i]? = some s) (h0 : s.numCargo = 0) (hd : s.isDocked = true)
    (ha : s.authDone = false) (hl : s.lastCargoTimestep - s.dockedTime ≤ 0) :
    (advance ask st a).ships[i]? = some s := by
  obtain ⟨w1, w2, w3, w4, _, _, _, _, _, g⟩ := advance_get ask st a i s hs
  have hE : emergencyBody w1 s = (w1, s) :=
    emergencyBody_skip w1 s (fun hg => by
      have := hg.2.2.2.1
      rw [hd] at this
      exact absurd this (by simp))
  rw [hE, regularBody_docked w2 s hd] at g
  simp only [] at g
  rw [processCargo_zero w3 s h0] at g
  rcases releaseBody_cases ask w4 s with ⟨_, hR⟩ | ⟨_, ht, _⟩ | ⟨_, _, hR⟩
  · rw [hR] at g; exact g
  · rw [authenticate_nonpositive ask w4 s ha hl] at ht
    exact absurd ht (by simp)
  · rw [hR] at g; exact g

theorem mainLoop_zero_cargo (ask : Oracle) (i : Nat) (s : Ship)
    (h0 : s.numCargo = 0) (hd : s.isDocked = true)
    (ha : s.authDone = false) (hl : s.lastCargoTimestep - s.dockedTime ≤ 0) :
    ∀ (advs : List Advance) (st : State), st.ships[i]? = some s →
      (mainLoop ask st advs).ships[i]? = some s := by
  intro advs
  induction advs with
  | nil => intro st h; exact h
  | cons a rest ih =>
    intro st h
    simp only [mainLoop]
    split
    · exact h
    · exact ih _ (advance_zero_cargo ask st a i s h h0 hd ha hl)

/-- C13. Zero-cargo ships never authenticate.  For a ship with `numCargo = 0`
that is docked, with docking timestep at least 0, in a reachable state:
`lastCargoTimestep` is the initial sentinel -1; every call of `authenticate`
for it computes a length that is not positive and returns failure without
sending anything to a solver or changing anything; and after any further run of
the main loop the ship is exactly as before (docked, unserviced,
`lastCargoTimestep = -1`) and its dock is still marked occupied. -/
theorem C13_zero_cargo_never_authenticates (ask : Oracle) (st : State) (i : Nat) (s : Ship)
    (advs : List Advance) (h : Reachable st) (hs : st.ships[i]? = some s)
    (h0 : s.numCargo = 0) (hd : s.isDocked = true) (ht : s.dockedTime ≥ 0) :
    s.lastCargoTimestep = -1 ∧ s.isServiced = false ∧
    s.lastCargoTimestep - s.dockedTime ≤ 0 ∧
    (∀ (ask1 : Oracle) (w : World), authenticate ask1 w s = (false, w, s)) ∧
    (mainLoop ask st advs).ships[i]? = some s ∧
    ((mainLoop ask st advs).w.dock s.assignedDock.toNat).isOccupied = true := by
  have hmem := List.getElem?_mem hs
  have hok := reachable_shipOK st h s hmem
  have hcg := reachable_shipCargoOK st h s hmem
  have hserv : s.isServiced = false := by
    cases hb : s.isServiced with
    | false => rfl
    | true =>
      have := (hok.1 hb).1
      rw [hd] at this
      exact absurd this (by simp)
  have hauth : s.authDone = false := by
    cases hb : s.authDone with
    | false => rfl
    | true =>
      have := hok.2 hb
      rw [hserv] at this
      exact absurd this (by simp)
  have hlast : s.lastCargoTimestep = -1 := hcg.2.1 (by have := hcg.1; omega)
  have hlen : s.lastCargoTimestep - s.dockedTime ≤ 0 := by rw [hlast]; omega
  have hrun := mainLoop_zero_cargo ask i s h0 hd hauth hlen advs st hs
  refine ⟨hlast, hserv, hlen, fun ask1 w => authenticate_nonpositive ask1 w s hauth hlen,
    hrun, ?_⟩
  exact dockInv_occupied _ _ i s (mainLoop_dockInv ask advs st (reachable_dockInv st h)) hrun hd

/-- C13 on a ship without cargo docked at timestep 1, followed by the
iterations at timesteps 2 and 3. -/
theorem C13_zero_cargo_never_authenticates_witness :
    (Reachable stateZero ∧ stateZero.ships[0]? = some shipZero ∧ shipZero.numCargo = 0 ∧
      shipZero.isDocked = true ∧ shipZero.dockedTime ≥ 0) ∧
    (shipZero.lastCargoTimestep = -1 ∧ shipZero.isServiced = false ∧
    shipZero.lastCargoTimestep - shipZero.dockedTime ≤ 0 ∧
    (∀ (ask1 : Oracle) (w : World), authenticate ask1 w shipZero = (false, w, shipZero)) ∧
    (mainLoop yesOracle stateZero [{ timestep := 2 }, { timestep := 3 }]).ships[0]?
      = some shipZero ∧
    ((mainLoop yesOracle stateZero [{ timestep := 2 }, { timestep := 3 }]).w.dock
      shipZero.assignedDock.toNat).isOccupied = true) :=
  ⟨⟨Reachable.step _ _ _ (Reachable.init _ _) (by decide), by decide, by decide, by decide,
      by decide⟩,
    C13_zero_cargo_never_authenticates yesOracle stateZero 0 shipZero
      [{ timestep := 2 }, { timestep := 3 }]
      (Reachable.step _ _ _ (Reachable.init _ _) (by decide)) (by decide) (by decide)
      (by decide) (by decide)⟩

/-! ### Unfittable cargo -/

theorem unfit_frame (w w1 : World) (s0 : Ship) (idx : Nat) (hf : Frame w w1)
    (h : Unfit w s0 idx) : Unfit w1 s0 idx := by
  unfold Unfit at h ⊢
  rw [(hf.2.2.2 _).2.1, (hf.2.2.2 _).2.2]
  exact h

theorem processCargo_blocked (w : World) (s0 s : Ship) (idx : Nat)
    (hb : Blocked s0 idx s) (hu : Unfit w s0 idx) : Blocked s0 idx (processCargo w s).2 := by
  obtain ⟨cs, e1, e2, _, _⟩ := processCargo_run w s
  obtain ⟨b1, b2, b3, b4, b5, b6, b7⟩ := hb
  have hidx := firstFit_index _ _ cs [] s.cargoProcessed e2
  have hle : s.cargoProcessed + cs.length ≤ idx := by
    by_contra hgt
    have hj : idx - s.cargoProcessed < cs.length := by omega
    obtain ⟨a1, _, _, a4, _⟩ := hidx (idx - s.cargoProcessed) hj
    have hsum : s.cargoProcessed + (idx - s.cargoProcessed) = idx := by omega
    rw [hsum, b4, b5] at a4
    rw [b5] at a1
    have := hu _ a1
    omega
  rw [e1]
  exact ⟨b1, b2, b3, b4, b5, by simp only []; omega, hle⟩

theorem blocked_step (ask : Oracle) (st : State) (a : Advance) (i : Nat) (s0 s : Ship)
    (idx : Nat) (hidx : idx < s0.numCargo) (hs : st.ships[i]? = some s)
    (hb : Blocked s0 idx s) (hu : Unfit st.w s0 idx) :
    ∃ m s1, (beforeRelease st a).ships[i]? = some m ∧
      (advance ask st a).ships[i]? = some s1 ∧ Blocked s0 idx s1 ∧
      Unfit (advance ask st a).w s0 idx ∧ Blocked s0 idx m ∧
      ∀ T, ¬ ReleaseGuard T m := by
  obtain ⟨w1, w2, w3, w4, f3, _, f5, g4, g5⟩ := advance_get_frame ask st a i s hs
  have hu0 : Unfit (ingestPhase st a).w s0 idx := hu
  have hd := hb.1
  have hE : emergencyBody w1 s = (w1, s) :=
    emergencyBody_skip w1 s (fun hg => by
      have := hg.2.2.2.1
      rw [hd] at this
      exact absurd this (by simp))
  rw [hE, regularBody_docked w2 s hd] at g4 g5
  simp only [] at g4 g5
  have hm := processCargo_blocked w3 s0 s idx hb (unfit_frame _ _ s0 idx f3 hu0)
  have hng : ∀ T, ¬ ReleaseGuard T (processCargo w3 s).2 := by
    intro T hg
    have h1 := hg.2.2.1
    have h2 := hm.2.2.2.2.2.2
    have h3 := hm.2.2.1
    omega
  refine ⟨_, _, g4, g5, ?_, unfit_frame _ _ s0 idx f5 hu0, hm, hng⟩
  rcases releaseBody_cases ask w4 (processCargo w3 s).2 with ⟨_, hR⟩ | ⟨hg, _, _⟩ | ⟨hg, _, _⟩
  · rw [hR]; exact hm
  · exact absurd hg (hng _)
  · exact absurd hg (hng _)

theorem blocked_run (ask : Oracle) (i : Nat) (s0 : Ship) (idx : Nat)
    (hidx : idx < s0.numCargo) :
    ∀ (advs : List Advance) (st : State) (s : Ship),
      st.ships[i]? = some s → Blocked s0 idx s → Unfit st.w s0 idx →
      ∃ s1, (mainLoop ask st advs).ships[i]? = some s1 ∧ Blocked s0 idx s1 ∧
        Unfit (mainLoop ask st advs).w s0 idx := by
  intro advs
  induction advs with
  | nil => intro st s hs hb hu; exact ⟨s, hs, hb, hu⟩
  | cons a rest ih =>
    intro st s hs hb hu
    simp only [mainLoop]
    split
    · exact ⟨s, hs, hb, hu⟩
    · obtain ⟨_, s1, _, g5, b1, u1, _, _⟩ := blocked_step ask st a i s0 s idx hidx hs hb hu
      exact ih _ s1 g5 b1 u1

/-- C15. Unfittable cargo blocks the ship forever.  In a reachable state, if a
docked ship has a pending cargo item at index `idx` (`cargoProcessed ≤ idx <
numCargo`) whose size exceeds the capacity of every crane of its assigned dock,
then after any further run of the main loop the ship still has
`cargoProcessed ≤ idx`, is docked and unserviced, and its dock is marked
occupied; and in any further iteration the guard of the release pass is false
for it, so `authenticate` is not called for it. -/
theorem C15_unfittable_cargo_blocks (ask : Oracle) (st : State) (i : Nat) (s : Ship)
    (idx : Nat) (advs : List Advance) (h : Reachable st) (hs : st.ships[i]? = some s)
    (hd : s.isDocked = true) (h1 : s.cargoProcessed ≤ idx) (h2 : idx < s.numCargo)
    (hbig : ∀ c, c < (st.w.dock s.assignedDock.toNat).numCranes →
      (st.w.dock s.assignedDock.toNat).craneCapacities.getD c 0 < s.cargo.getD idx 0) :
    ∃ s1, (mainLoop ask st advs).ships[i]? = some s1 ∧
      s1.cargoProcessed ≤ idx ∧ s.cargoProcessed ≤ s1.cargoProcessed ∧
      s1.isDocked = true ∧ s1.isServiced = false ∧ s1.assignedDock = s.assignedDock ∧
      ((mainLoop ask st advs).w.dock s.assignedDock.toNat).isOccupied = true ∧
      ∀ a : Advance, ∃ m, (beforeRelease (mainLoop ask st advs) a).ships[i]? = some m ∧
        ¬ ReleaseGuard a.timestep m ∧
        (releaseBody ask
          (worldAt (releaseBody ask) (beforeRelease (mainLoop ask st advs) a).w
            (beforeRelease (mainLoop ask st advs) a).ships i) m) =
          (worldAt (releaseBody ask) (beforeRelease (mainLoop ask st advs) a).w
            (beforeRelease (mainLoop ask st advs) a).ships i, m) := by
  have hok := reachable_shipOK st h s (List.getElem?_mem hs)
  have hserv : s.isServiced = false := by
    cases hb : s.isServiced with
    | false => rfl
    | true =>
      have := (hok.1 hb).1
      rw [hd] at this
      exact absurd this (by simp)
  have hb0 : Blocked s idx s := ⟨hd, hserv, rfl, rfl, rfl, le_refl _, h1⟩
  obtain ⟨s1, g, b, u⟩ := blocked_run ask i s idx h2 advs st s hs hb0 hbig
  have hocc := dockInv_occupied _ _ i s1 (mainLoop_dockInv ask advs st (reachable_dockInv st h))
    g b.1
  rw [b.2.2.2.2.1] at hocc
  refine ⟨s1, g, b.2.2.2.2.2.2, b.2.2.2.2.2.1, b.1, b.2.1, b.2.2.2.2.1, hocc, fun a => ?_⟩
  obtain ⟨m, _, g4, _, _, _, _, hng⟩ := blocked_step ask (mainLoop ask st advs) a i s s1 idx h2
    g b u
  refine ⟨m, g4, hng _, ?_⟩
  unfold releaseBody
  rw [if_neg (hng _)]

/-- C15 on scenario A: cranes [5, 10], cargo [3, 12], docked at timestep 1; item 1
fits no crane, and `cargoProcessed` is 1 after each of the timesteps 2, 3, 4. -/
theorem C15_unfittable_cargo_blocks_witness :
    (Reachable stateA ∧ stateA.ships[0]? = some shipA ∧
      [mainLoop yesOracle stateA (advsA.take 1), mainLoop yesOracle stateA (advsA.take 2),
        mainLoop yesOracle stateA advsA].map
          (fun st => st.ships.map fun s => (s.cargoProcessed, s.isDocked, s.isServiced)) =
        [[(1, true, false)], [(1, true, false)], [(1, true, false)]]) ∧
    ∃ s1, (mainLoop yesOracle stateA advsA).ships[0]? = some s1 ∧
      s1.cargoProcessed ≤ 1 ∧ shipA.cargoProcessed ≤ s1.cargoProcessed ∧
      s1.isDocked = true ∧ s1.isServiced = false ∧ s1.assignedDock = shipA.assignedDock ∧
      ((mainLoop yesOracle stateA advsA).w.dock shipA.assignedDock.toNat).isOccupied = true ∧
      ∀ a : Advance, ∃ m, (beforeRelease (mainLoop yesOracle stateA advsA) a).ships[0]?
          = some m ∧
        ¬ ReleaseGuard a.timestep m ∧
        (releaseBody yesOracle
          (worldAt (releaseBody yesOracle) (beforeRelease (mainLoop yesOracle stateA advsA) a).w
            (beforeRelease (mainLoop yesOracle stateA advsA) a).ships 0) m) =
          (worldAt (releaseBody yesOracle) (beforeRelease (mainLoop yesOracle stateA advsA) a).w
            (beforeRelease (mainLoop yesOracle stateA advsA) a).ships 0, m) :=
  ⟨⟨Reachable.step _ _ _ (Reachable.init _ _) (by decide), by decide, by decide⟩,
    C15_unfittable_cargo_blocks yesOracle stateA 0 shipA 1 advsA
      (Reachable.step _ _ _ (Reachable.init _ _) (by decide)) (by decide) (by decide)
      (by decide) (by decide) (by decide)⟩

/-! ### The order of the requests of one search -/

theorem notifyLoop_eq (dockId : Int) :
    ∀ (k i : Nat) (log : SolverLog), notifyLoop dockId k i log = log ++ notices dockId k i := by
  intro k
  induction k with
  | zero => intro i log; simp [notifyLoop, notices]
  | succ k ih =>
    intro i log
    simp only [notifyLoop, notices]
    rw [ih]
    simp

theorem guessRound_length (dockId : Int) (guess : List Char) :
    ∀ (k s : Nat), (guessRound dockId guess k s).length = k := by
  intro k
  induction k with
  | zero => intro s; rfl
  | succ k ih => intro s; simp [guessRound, ih]

theorem fullRounds_length (dockId : Int) (gen : Nat → List Char) (numSolvers : Nat) :
    ∀ (k t : Nat), (fullRounds dockId gen numSolvers k t).length = k * numSolvers := by
  intro k
  induction k with
  | zero => intro t; simp [fullRounds]
  | succ k ih =>
    intro t
    simp only [fullRounds, List.length_append, guessRound_length, ih]
    ring

theorem solverLoop_log (ask : Oracle) (dockId : Int) (guess : List Char) :
    ∀ (k s : Nat) (log : SolverLog),
      ∃ n, n ≤ k ∧
        (solverLoop ask dockId guess k s log).2 = log ++ guessRound dockId guess n s ∧
        ((solverLoop ask dockId guess k s log).1 = false → n = k) ∧
        ((solverLoop ask dockId guess k s log).1 = true → 1 ≤ n ∧
          ask (log ++ guessRound dockId guess n s) = true) ∧
        (∀ m, 1 ≤ m → m ≤ n → (m < n ∨ (solverLoop ask dockId guess k s log).1 = false) →
          ask (log ++ guessRound dockId guess m s) = false) := by
  intro k
  induction k with
  | zero =>
    intro s log
    exact ⟨0, le_refl _, by simp [solverLoop, guessRound], fun _ => rfl,
      fun h => by simp [solverLoop] at h, fun m h1 h2 _ => absurd h2 (by omega)⟩
  | succ k ih =>
    intro s log
    by_cases h : ask (log ++ [(s, { mtype := 2, dockId := dockId, authStringGuess := guess })])
        = true
    · refine ⟨1, by omega, ?_, ?_, ?_, ?_⟩
      · simp only [solverLoop, if_pos h, guessRound]
      · intro hf
        simp only [solverLoop, if_pos h] at hf
        exact absurd hf (by simp)
      · intro _
        exact ⟨le_refl _, by simpa [guessRound] using h⟩
      · intro m h1 h2 h3
        rcases h3 with h3 | h3
        · omega
        · simp only [solverLoop, if_pos h] at h3
          exact absurd h3 (by simp)
    · obtain ⟨n, h1, h2, h3, h4, h5⟩ := ih (s + 1)
        (log ++ [(s, { mtype := 2, dockId := dockId, authStringGuess := guess })])
      refine ⟨n + 1, by omega, ?_, ?_, ?_, ?_⟩
      · simp only [solverLoop, if_neg h, guessRound]
        rw [h2]
        simp
      · intro hf
        simp only [solverLoop, if_neg h] at hf
        rw [h3 hf]
      · intro ht
        simp only [solverLoop, if_neg h] at ht
        obtain ⟨_, h6⟩ := h4 ht
        refine ⟨by omega, ?_⟩
        simpa [guessRound] using h6
      · intro m m1 m2 m3
        simp only [solverLoop, if_neg h] at m3
        obtain ⟨m0, rfl⟩ : ∃ m0, m = m0 + 1 := ⟨m - 1, by omega⟩
        rcases Nat.eq_zero_or_pos m0 with hz | hz
        · subst hz
          simpa [guessRound] using h
        · have h7 := h5 m0 hz (by omega) (by rcases m3 with m3 | m3
                                             · exact Or.inl (by omega)
                                             · exact Or.inr m3)
          simpa [guessRound] using h7

theorem tryLoop_log (ask : Oracle) (ns : Nat) (dockId : Int) (L : Nat) :
    ∀ (k t : Nat) (log : SolverLog),
      ((tryLoop ask ns dockId L k t log).1 = none →
        (tryLoop ask ns dockId L k t log).2 =
            log ++ fullRounds dockId (genAuthString32 L) ns k t ∧
          ∀ j m, j < k → 1 ≤ m → m ≤ ns →
            ask (log ++ fullRounds dockId (genAuthString32 L) ns j t ++
              guessRound dockId (genAuthString32 L (t + j)) m 0) = false) ∧
      (∀ g, (tryLoop ask ns dockId L k t log).1 = some g →
        ∃ j n, j < k ∧ 1 ≤ n ∧ n ≤ ns ∧ g = genAuthString32 L (t + j) ∧
          (tryLoop ask ns dockId L k t log).2 =
            log ++ fullRounds dockId (genAuthString32 L) ns j t ++
              guessRound dockId (genAuthString32 L (t + j)) n 0 ∧
          ask (log ++ fullRounds dockId (genAuthString32 L) ns j t ++
              guessRound dockId (genAuthString32 L (t + j)) n 0) = true ∧
          (∀ i m, i < j → 1 ≤ m → m ≤ ns →
            ask (log ++ fullRounds dockId (genAuthString32 L) ns i t ++
              guessRound dockId (genAuthString32 L (t + i)) m 0) = false) ∧
          (∀ m, 1 ≤ m → m < n →
            ask (log ++ fullRounds dockId (genAuthString32 L) ns j t ++
              guessRound dockId (genAuthString32 L (t + j)) m 0) = false)) := by
  intro k
  induction k with
  | zero =>
    intro t log
    exact ⟨fun _ => ⟨by simp [tryLoop, fullRounds], fun j m h => absurd h (by omega)⟩,
      fun g h => by simp [tryLoop] at h⟩
  | succ k ih =>
    intro t log
    obtain ⟨n, h1, h2, h3, h4, h5⟩ :=
      solverLoop_log ask dockId (genAuthString32 L t) ns 0 log
    by_cases hr : (solverLoop ask dockId (genAuthString32 L t) ns 0 log).1 = true
    · have hstep : tryLoop ask ns dockId L (k + 1) t log =
          (some (genAuthString32 L t),
            (solverLoop ask dockId (genAuthString32 L t) ns 0 log).2) := by
        simp only [tryLoop, if_pos hr]
      rw [hstep]
      refine ⟨fun h => by simp at h, fun g hg => ?_⟩
      simp only [Option.some.injEq] at hg
      obtain ⟨h6, h7⟩ := h4 hr
      refine ⟨0, n, by omega, h6, h1, by simpa using hg.symm, ?_, ?_,
        fun i m hi => absurd hi (by omega), fun m m1 m2 => ?_⟩
      · simp only [fullRounds, Nat.add_zero, List.append_nil]
        exact h2
      · simpa [fullRounds] using h7
      · simpa [fullRounds] using h5 m m1 (by omega) (Or.inl m2)
    · have hstep : tryLoop ask ns dockId L (k + 1) t log =
          tryLoop ask ns dockId L k (t + 1)
            (solverLoop ask dockId (genAuthString32 L t) ns 0 log).2 := by
        simp only [tryLoop, if_neg hr]
      have hrf : (solverLoop ask dockId (genAuthString32 L t) ns 0 log).1 = false := by
        simpa using hr
      have hn : n = ns := h3 hrf
      subst hn
      have hfirst : ∀ m, 1 ≤ m → m ≤ n →
          ask (log ++ guessRound dockId (genAuthString32 L t) m 0) = false :=
        fun m m1 m2 => h5 m m1 m2 (Or.inr hrf)
      rw [hstep, h2]
      obtain ⟨i1, i2⟩ := ih (t + 1) (log ++ guessRound dockId (genAuthString32 L t) n 0)
      refine ⟨fun h => ?_, fun g hg => ?_⟩
      · obtain ⟨i3, i4⟩ := i1 h
        refine ⟨by rw [i3]; simp [fullRounds], fun j m hj m1 m2 => ?_⟩
        rcases Nat.eq_zero_or_pos j with hz | hz
        · subst hz
          simpa [fullRounds] using hfirst m m1 m2
        · obtain ⟨j0, rfl⟩ : ∃ j0, j = j0 + 1 := ⟨j - 1, by omega⟩
          have h8 := i4 j0 m (by omega) m1 m2
          have hidx : t + 1 + j0 = t + (j0 + 1) := by omega
          rw [hidx] at h8
          simpa [fullRounds] using h8
      · obtain ⟨j, m, j1, j2, j3, j4, j5, j6, j7, j8⟩ := i2 g hg
        have hidx : t + 1 + j = t + (j + 1) := by omega
        rw [hidx] at j4 j5 j6 j8
        refine ⟨j + 1, m, by omega, j2, j3, j4, ?_, ?_, fun i q hi q1 q2 => ?_,
          fun q q1 q2 => ?_⟩
        · rw [j5]
          simp [fullRounds]
        · simpa [fullRounds] using j6
        · rcases Nat.eq_zero_or_pos i with hz | hz
          · subst hz
            simpa [fullRounds] using hfirst q q1 q2
          · obtain ⟨i0, rfl⟩ : ∃ i0, i = i0 + 1 := ⟨i - 1, by omega⟩
            have h8 := j7 i0 q (by omega) q1 q2
            have hidx2 : t + 1 + i0 = t + (i0 + 1) := by omega
            rw [hidx2] at h8
            simpa [fullRounds] using h8
        · simpa [fullRounds] using j8 q q1 q2

theorem authenticate_search (ask : Oracle) (w : World) (ship : Ship)
    (hauth : ship.authDone = false)
    (hL : ship.lastCargoTimestep - ship.dockedTime > 0) :
    authenticate ask w ship =
      match (tryLoop ask w.numSolvers ship.assignedDock (authLength ship)
          (total32 (authLength ship)).toNat 0
          (w.solverLog ++ notices ship.assignedDock w.numSolvers 0)).1 with
      | some guess =>
        (true,
          { w with
            authStrings := w.authStrings.set ship.assignedDock.toNat guess
            solverLog := (tryLoop ask w.numSolvers ship.assignedDock (authLength ship)
              (total32 (authLength ship)).toNat 0
              (w.solverLog ++ notices ship.assignedDock w.numSolvers 0)).2 },
          { ship with authDone := true })
      | none =>
        (false,
          { w with
            solverLog := (tryLoop ask w.numSolvers ship.assignedDock (authLength ship)
              (total32 (authLength ship)).toNat 0
              (w.solverLog ++ notices ship.assignedDock w.numSolvers 0)).2 },
          ship) := by
  have h1 : ¬ ship.authDone = true := by simp [hauth]
  have h2 : ¬ ship.lastCargoTimestep - ship.dockedTime ≤ 0 := by omega
  unfold authenticate authLength
  rw [if_neg h1, if_neg h2, notifyLoop_eq]

/-- C12 (amended). The order of the verification requests of one `authenticate`
call on a ship that is not yet authenticated and has search length `L` with
`0 < L ≤ 12`.  After the notices, the candidates `genAuthString L t` are tried in
increasing index order from `t = 0`, and every candidate tried is sent to the
solvers `0, 1, ...` in turn.  A search that fails has sent every one of the
`total L` candidates to all `numSolvers` solvers, exactly
`total L * numSolvers` requests, each answered in the negative.  A search that
succeeds stops at the first affirmative verdict: every earlier candidate was
rejected by all solvers, the winning candidate was rejected by the solvers
before the one that accepts it, the log ends with the accepted request, and
the winning candidate is written to the dock's record. -/
theorem C12_request_order (ask : Oracle) (w : World) (ship : Ship)
    (hauth : ship.authDone = false)
    (hL : ship.lastCargoTimestep - ship.dockedTime > 0)
    (hL12 : authLength ship ≤ 12) :
    ((authenticate ask w ship).1 = false →
      (authenticate ask w ship).2.1.solverLog =
        w.solverLog ++ notices ship.assignedDock w.numSolvers 0 ++
          fullRounds ship.assignedDock (genAuthString (authLength ship)) w.numSolvers
            (total (authLength ship)) 0 ∧
      (fullRounds ship.assignedDock (genAuthString (authLength ship)) w.numSolvers
        (total (authLength ship)) 0).length = total (authLength ship) * w.numSolvers ∧
      (∀ t m, t < total (authLength ship) → 1 ≤ m → m ≤ w.numSolvers →
        ask (w.solverLog ++ notices ship.assignedDock w.numSolvers 0 ++
          fullRounds ship.assignedDock (genAuthString (authLength ship)) w.numSolvers t 0 ++
          guessRound ship.assignedDock (genAuthString (authLength ship) t) m 0) = false)) ∧
    ((authenticate ask w ship).1 = true →
      ∃ t n, t < total (authLength ship) ∧ 1 ≤ n ∧ n ≤ w.numSolvers ∧
        (authenticate ask w ship).2.1.solverLog =
          w.solverLog ++ notices ship.assignedDock w.numSolvers 0 ++
            fullRounds ship.assignedDock (genAuthString (authLength ship)) w.numSolvers t 0 ++
            guessRound ship.assignedDock (genAuthString (authLength ship) t) n 0 ∧
        ask (authenticate ask w ship).2.1.solverLog = true ∧
        (∀ i m, i < t → 1 ≤ m → m ≤ w.numSolvers →
          ask (w.solverLog ++ notices ship.assignedDock w.numSolvers 0 ++
            fullRounds ship.assignedDock (genAuthString (authLength ship)) w.numSolvers i 0 ++
            guessRound ship.assignedDock (genAuthString (authLength ship) i) m 0) = false) ∧
        (∀ m, 1 ≤ m → m < n →
          ask (w.solverLog ++ notices ship.assignedDock w.numSolvers 0 ++
            fullRounds ship.assignedDock (genAuthString (authLength ship)) w.numSolvers t 0 ++
            guessRound ship.assignedDock (genAuthString (authLength ship) t) m 0) = false) ∧
        (authenticate ask w ship).2.1.authStrings =
          w.authStrings.set ship.assignedDock.toNat (genAuthString (authLength ship) t)) := by
  have hG : genAuthString32 (authLength ship) = genAuthString (authLength ship) :=
    funext fun n => genAuthString32_eq _ n hL12
  have hT : (total32 (authLength ship)).toNat = total (authLength ship) := by
    rw [total32_eq_total _ hL12, Int.toNat_ofNat]
  obtain ⟨t1, t2⟩ := tryLoop_log ask w.numSolvers ship.assignedDock (authLength ship)
    (total (authLength ship)) 0 (w.solverLog ++ notices ship.assignedDock w.numSolvers 0)
  rw [hG] at t1 t2
  rw [authenticate_search ask w ship hauth hL, hT]
  cases hr : (tryLoop ask w.numSolvers ship.assignedDock (authLength ship)
      (total (authLength ship)) 0
      (w.solverLog ++ notices ship.assignedDock w.numSolvers 0)).1 with
  | none =>
    refine ⟨fun _ => ?_, fun h => by simp at h⟩
    obtain ⟨t3, t4⟩ := t1 hr
    refine ⟨t3, fullRounds_length _ _ _ _ _, fun t m ht m1 m2 => ?_⟩
    have h8 := t4 t m ht m1 m2
    rw [Nat.zero_add] at h8
    exact h8
  | some g =>
    refine ⟨fun h => by simp at h, fun _ => ?_⟩
    obtain ⟨j, n, j1, j2, j3, j4, j5, j6, j7, j8⟩ := t2 g hr
    rw [Nat.zero_add] at j4 j5 j6 j8
    refine ⟨j, n, j1, j2, j3, j5, ?_, fun i m hi m1 m2 => ?_, j8, by rw [j4]⟩
    · show ask (tryLoop ask w.numSolvers ship.assignedDock (authLength ship)
        (total (authLength ship)) 0
        (w.solverLog ++ notices ship.assignedDock w.numSolvers 0)).2 = true
      rw [j5]
      exact j6
    · have h8 := j7 i m hi m1 m2
      rw [Nat.zero_add] at h8
      exact h8

/-- C12 (amended) on the sample world (two solvers) and a ship of search length 1,
with solvers that reject everything. -/
theorem C12_request_order_witness :
    (shipL1.authDone = false ∧ shipL1.lastCargoTimestep - shipL1.dockedTime > 0 ∧
      authLength shipL1 ≤ 12) ∧
    (((authenticate noOracle sampleWorld shipL1).1 = false →
      (authenticate noOracle sampleWorld shipL1).2.1.solverLog =
        sampleWorld.solverLog ++ notices shipL1.assignedDock sampleWorld.numSolvers 0 ++
          fullRounds shipL1.assignedDock (genAuthString (authLength shipL1))
            sampleWorld.numSolvers (total (authLength shipL1)) 0 ∧
      (fullRounds shipL1.assignedDock (genAuthString (authLength shipL1))
        sampleWorld.numSolvers (total (authLength shipL1)) 0).length =
          total (authLength shipL1) * sampleWorld.numSolvers ∧
      (∀ t m, t < total (authLength shipL1) → 1 ≤ m → m ≤ sampleWorld.numSolvers →
        noOracle (sampleWorld.solverLog ++
          notices shipL1.assignedDock sampleWorld.numSolvers 0 ++
          fullRounds shipL1.assignedDock (genAuthString (authLength shipL1))
            sampleWorld.numSolvers t 0 ++
          guessRound shipL1.assignedDock (genAuthString (authLength shipL1) t) m 0) =
            false)) ∧
    ((authenticate noOracle sampleWorld shipL1).1 = true →
      ∃ t n, t < total (authLength shipL1) ∧ 1 ≤ n ∧ n ≤ sampleWorld.numSolvers ∧
        (authenticate noOracle sampleWorld shipL1).2.1.solverLog =
          sampleWorld.solverLog ++ notices shipL1.assignedDock sampleWorld.numSolvers 0 ++
            fullRounds shipL1.assignedDock (genAuthString (authLength shipL1))
              sampleWorld.numSolvers t 0 ++
            guessRound shipL1.assignedDock (genAuthString (authLength shipL1) t) n 0 ∧
        noOracle (authenticate noOracle sampleWorld shipL1).2.1.solverLog = true ∧
        (∀ i m, i < t → 1 ≤ m → m ≤ sampleWorld.numSolvers →
          noOracle (sampleWorld.solverLog ++
            notices shipL1.assignedDock sampleWorld.numSolvers 0 ++
            fullRounds shipL1.assignedDock (genAuthString (authLength shipL1))
              sampleWorld.numSolvers i 0 ++
            guessRound shipL1.assignedDock (genAuthString (authLength shipL1) i) m 0) =
              false) ∧
        (∀ m, 1 ≤ m → m < n →
          noOracle (sampleWorld.solverLog ++
            notices shipL1.assignedDock sampleWorld.numSolvers 0 ++
            fullRounds shipL1.assignedDock (genAuthString (authLength shipL1))
              sampleWorld.numSolvers t 0 ++
            guessRound shipL1.assignedDock (genAuthString (authLength shipL1) t) m 0) =
              false) ∧
        (authenticate noOracle sampleWorld shipL1).2.1.authStrings =
          sampleWorld.authStrings.set shipL1.assignedDock.toNat
            (genAuthString (authLength shipL1) t))) :=
  ⟨by decide,
    C12_request_order noOracle sampleWorld shipL1 (by decide) (by decide) (by decide)⟩

/-- C12 as stated fails: with two solvers, search length 1 (`total 1 = 5`) and
solvers that reject everything, the search fails after 10 guess requests, not
5, and candidate 0 is sent to both solvers 0 and 1. -/
theorem C12_round_robin_counterexample :
    shipL1.authDone = false ∧ authLength shipL1 = 1 ∧ total 1 = 5 ∧
    sampleWorld.numSolvers = 2 ∧
    (authenticate noOracle sampleWorld shipL1).1 = false ∧
    ((authenticate noOracle sampleWorld shipL1).2.1.solverLog.filter
      fun r => decide (r.2.mtype = 2)).length = 10 ∧
    ((authenticate noOracle sampleWorld shipL1).2.1.solverLog.filter
      fun r => decide (r.2.mtype = 2 ∧ r.2.authStringGuess = genAuthString 1 0)).map
        (fun r => r.1) = [0, 1] ∧
    ¬ (((authenticate noOracle sampleWorld shipL1).2.1.solverLog.filter
      fun r => decide (r.2.mtype = 2)).length = total (authLength shipL1)) := by
  decide

/-! ### The two allocation passes compared -/

theorem noEligible_allocStep (w w1 : World) (c : Int) (h : AllocStep w w1)
    (hn : NoEligible w c) : NoEligible w1 c := by
  intro e he hel
  rw [h.1.2.2.1] at he
  refine hn e he ⟨?_, ?_, ?_⟩
  · cases hb : (w.dock e).isOccupied with
    | false => rfl
    | true =>
      have := (h.2 e).2 hb
      rw [hel.1] at this
      exact absurd this (by simp)
  · rw [← (h.1.2.2.2 e).1]; exact hel.2.1
  · rw [← (h.2 e).1, ← h.1.1]; exact hel.2.2

theorem emergencyPass_rejected :
    ∀ (ss : List Ship) (w : World) (s : Ship),
      s ∈ (forShips emergencyBody w ss).2 → EmergencyGuard s →
      NoEligible (forShips emergencyBody w ss).1 s.category := by
  intro ss
  induction ss with
  | nil => intro w s hs _; simp [forShips] at hs
  | cons s0 rest ih =>
    intro w s hs hg
    simp only [forShips, List.mem_cons] at hs ⊢
    rcases hs with hs | hs
    · have hstep := forShips_rel emergencyBody AllocStep allocStep_refl allocStep_trans
        emergencyBody_allocStep rest (emergencyBody w s0).1
      rcases emergencyBody_cases w s0 with ⟨hE, hno⟩ | ⟨_, d, _, hE⟩
      · rw [hE] at hs hstep ⊢
        simp only [] at hs hstep ⊢
        subst hs
        exact noEligible_allocStep _ _ _ hstep (hno hg)
      · rw [hE] at hs
        simp only [] at hs
        subst hs
        exact absurd hg.2.2.2.1 (by simp [Ship.assigned])
    · exact ih _ s hs hg

theorem regularBody_eq_spec (w : World) (s : Ship)
    (h : EmergencyGuard s → NoEligible w s.category) :
    regularBody w s = regularBodySpec w s := by
  unfold regularBodySpec
  split
  · next he =>
    by_cases hg : s.isActive = true ∧ s.isDocked = false ∧ s.isServiced = false
    · have hno := h ⟨he.1, he.2, hg.1, hg.2.1, hg.2.2⟩
      rcases regularBody_cases w s with hR | ⟨_, _, _, _, _, h5, _⟩ | ⟨_, _, _, d, hfe, _⟩
      · exact hR
      · rw [he.2] at h5
        exact absurd h5 (by decide)
      · exact absurd hfe.2.1 (hno d hfe.1)
    · unfold regularBody
      rw [if_neg hg]
  · rfl

theorem regularPass_eq_spec :
    ∀ (ss : List Ship) (w : World),
      (∀ s, s ∈ ss → EmergencyGuard s → NoEligible w s.category) →
      forShips regularBody w ss = forShips regularBodySpec w ss := by
  intro ss
  induction ss with
  | nil => intro w _; rfl
  | cons s0 rest ih =>
    intro w h
    have h0 := regularBody_eq_spec w s0 (h s0 (List.mem_cons_self _ _))
    simp only [forShips]
    rw [← h0]
    rw [ih (regularBody w s0).1 (fun s hs hg =>
      noEligible_allocStep _ _ _ (regularBody_allocStep w s0)
        (h s (List.mem_cons_of_mem _ hs) hg))]

/-- C19. The regular pass never docks a ship that the emergency pass of the same
iteration already tried.  From any state: (1) the state after the emergency and
regular passes equals the state obtained when the regular pass skips the
emergency arrivals (`regularBodySpec`); (2) every ship that still passes the
guard of the emergency pass after that pass (it was tried and rejected) is
rejected again by `assignDock` when the regular pass reaches it, and the
regular pass leaves it and the globals unchanged at that point. -/
theorem C19_regular_pass_skips_emergency (st : State) (a : Advance) :
    allocPhase st a = ((ingestPhase st a).pass emergencyBody).pass regularBodySpec ∧
    ∀ (i : Nat) (s : Ship),
      ((ingestPhase st a).pass emergencyBody).ships[i]? = some s → EmergencyGuard s →
      (assignDock (worldAt regularBody ((ingestPhase st a).pass emergencyBody).w
          ((ingestPhase st a).pass emergencyBody).ships i) s).1 = false ∧
      regularBody (worldAt regularBody ((ingestPhase st a).pass emergencyBody).w
          ((ingestPhase st a).pass emergencyBody).ships i) s =
        (worldAt regularBody ((ingestPhase st a).pass emergencyBody).w
          ((ingestPhase st a).pass emergencyBody).ships i, s) ∧
      (allocPhase st a).ships[i]? = some s := by
  have hrej : ∀ s, s ∈ ((ingestPhase st a).pass emergencyBody).ships → EmergencyGuard s →
      NoEligible ((ingestPhase st a).pass emergencyBody).w s.category :=
    fun s hs hg => emergencyPass_rejected _ _ s hs hg
  refine ⟨?_, fun i s hs hg => ?_⟩
  · have := regularPass_eq_spec _ ((ingestPhase st a).pass emergencyBody).w hrej
    unfold allocPhase
    show ({ w := _, ships := _ } : State) = { w := _, ships := _ }
    rw [this]
  · have hno := noEligible_allocStep _ _ _
      (worldAt_allocStep regularBody regularBody_allocStep
        ((ingestPhase st a).pass emergencyBody).w ((ingestPhase st a).pass emergencyBody).ships i)
      (hrej s (List.getElem?_mem hs) hg)
    have hget := pass_get ((ingestPhase st a).pass emergencyBody) regularBody i s hs
    generalize worldAt regularBody ((ingestPhase st a).pass emergencyBody).w
      ((ingestPhase st a).pass emergencyBody).ships i = wr at hno hget
    have hfail : assignDock wr s = (false, wr, s) := by
      rcases assignDock_spec wr s with ⟨d, hfe, _⟩ | ⟨_, heq⟩
      · exact absurd hfe.2.1 (hno d hfe.1)
      · exact heq
    have hreg : regularBody wr s = (wr, s) := by
      rw [regularBody_eq_spec wr s (fun _ => hno)]
      unfold regularBodySpec
      rw [if_pos ⟨hg.1, hg.2.1⟩]
    refine ⟨by rw [hfail], hreg, ?_⟩
    rw [hreg] at hget
    exact hget

/-- C18 (evaluation of the code).  Docks of categories 3 and 1 are free; the
emergency ship of category 1 is created before the one of category 3.  Both
ships pass the guard of the emergency pass, and giving dock 1 to the small ship
and dock 0 to the large one is a valid assignment of size 2; but the pass gives
dock 0 to the small ship and docks only one ship. -/
theorem C18_greedy_not_maximum :
    ValidAssignment stateGreedy.w stateGreedy.ships [(0, 1), (1, 0)] ∧
    (stateGreedy.pass emergencyBody).ships.map (fun s => (s.isDocked, s.assignedDock)) =
      [(true, 0), (false, -1)] ∧
    ((stateGreedy.pass emergencyBody).ships.filter fun s => s.isDocked).length = 1 ∧
    ¬ (∀ m, ValidAssignment stateGreedy.w stateGreedy.ships m →
        m.length ≤ ((stateGreedy.pass emergencyBody).ships.filter fun s => s.isDocked).length) := by
  have hv : ValidAssignment stateGreedy.w stateGreedy.ships [(0, 1), (1, 0)] := by
    refine ⟨by decide, by decide, fun p hp => ?_⟩
    simp only [List.mem_cons, List.mem_singleton, List.not_mem_nil, or_false] at hp
    rcases hp with rfl | rfl
    · exact ⟨newShip reqSmallEmergency, by decide, by decide, by decide, by decide⟩
    · exact ⟨newShip reqLargeEmergency, by decide, by decide, by decide, by decide⟩
  refine ⟨hv, by decide, by decide, fun h => ?_⟩
  have h2 := h _ hv
  have h1 : ((stateGreedy.pass emergencyBody).ships.filter fun s => s.isDocked).length = 1 := by
    decide
  rw [h1] at h2
  exact absurd h2 (by decide)

/-- C14 (amended). `assignDock` never writes the cargo-processed counter: after
the call, successful or not, `cargoProcessed` has the value it had before.  In
every reachable state a ship that has not docked yet (undocked, unserviced) has
the counter 0 from its creation, so the counter is 0 after `assignDock` docks
it. -/
theorem C14_assignDock_keeps_counter (w : World) (ship : Ship) :
    (assignDock w ship).2.2.cargoProcessed = ship.cargoProcessed ∧
    (∀ (st : State), Reachable st → ∀ s, s ∈ st.ships →
      s.isDocked = false → s.isServiced = false →
      s.cargoProcessed = 0 ∧ ∀ w1 : World, (assignDock w1 s).2.2.cargoProcessed = 0) := by
  have h : ∀ (w : World) (ship : Ship),
      (assignDock w ship).2.2.cargoProcessed = ship.cargoProcessed := by
    intro w ship
    rcases assignDock_ship w ship with ⟨d, _, _, heq⟩ | ⟨_, _, heq⟩
    · rw [heq]; rfl
    · rw [heq]
  refine ⟨h w ship, fun st hr s hs hd hsv => ?_⟩
  have h0 := (reachable_shipCargoOK st hr s hs).2.2 hd hsv
  exact ⟨h0, fun w1 => by rw [h w1 s, h0]⟩

end PortSched
